import Mathlib

/-!
# Kernel descriptors, caches and launch geometry of the CUDA offload plugin

A shallow embedding of `openmp/libomptarget/plugins/cuda/src/rtl.cpp`.

Conventions of the embedding.

* `uint32_t`, `unsigned int` and `uintptr_t` values are natural numbers, reduced
  modulo `2 ^ 32` (or `2 ^ 64`) at the places where the C++ code converts or wraps.
* `int` values are integers.  C++ leaves signed overflow and division by zero
  undefined; a run that would execute one of them has no result here.
* A result of type `Option _` is `none` when the run has no defined result: an
  `assert` of the source fails, or storage is read outside its bounds.
* `std::string` is `String`, `std::vector` and `std::list` are `List`,
  `std::unordered_map` is an association list searched from the front.
-/

namespace jit

/-- The memory `Kernel::Arguments` points to: nothing (`nullptr`, the default member
initialiser), the descriptor's own `ArgumentsBuffer.data()`, or words of the caller
that `setArgs` recorded without copying them. -/
inductive ArgPtr where
  | null : ArgPtr
  | buffer : ArgPtr
  | view (words : List Nat) : ArgPtr
  deriving DecidableEq, Repr

/-- The data members of `class Kernel`. -/
structure Kernel where
  Name : String
  NumTeams : Nat
  NumThreads : Nat
  NumArgs : Nat
  ArgumentsBuffer : List Nat
  Mask : List Nat
  Arguments : ArgPtr
  deriving DecidableEq, Repr

namespace Kernel

/-- `explicit Kernel(const std::string &Name)`: every other member keeps its default
initialiser. -/
def new (Name : String) : Kernel :=
  { Name := Name, NumTeams := 0, NumThreads := 0, NumArgs := 0,
    ArgumentsBuffer := [], Mask := [], Arguments := ArgPtr.null }

/-- The copy constructor: a descriptor that owns its arguments is copied with its
buffer, a borrowed view stays a view of the same words. -/
def copy (K : Kernel) : Kernel :=
  { Name := K.Name, NumTeams := K.NumTeams, NumThreads := K.NumThreads,
    NumArgs := K.NumArgs, ArgumentsBuffer := K.ArgumentsBuffer, Mask := K.Mask,
    Arguments := if K.Arguments = ArgPtr.buffer then ArgPtr.buffer else K.Arguments }

/-- The word `Arguments[I]`, when that storage holds a word at index `I`. -/
def argAt (K : Kernel) (I : Nat) : Option Nat :=
  match K.Arguments with
  | ArgPtr.null => none
  | ArgPtr.buffer => K.ArgumentsBuffer[I]?
  | ArgPtr.view words => words[I]?

/-- The loop of `Kernel::match`, `for (I = ...; I < NumArgs; ++I)`, with `n` iterations
left to run from index `I`. -/
def matchLoop (A K : Kernel) : Nat → Nat → Option Bool
  | 0, _ => some true
  | n + 1, I =>
    match A.argAt I, A.Mask[I]?, K.argAt I with
    | some a, some m, some k =>
      if a &&& m ≠ k &&& m then some false else matchLoop A K n (I + 1)
    | _, _, _ => none

/-- `bool Kernel::match(const Kernel &K) const`, with `this` as `A`. -/
def match_ (A K : Kernel) : Option Bool :=
  if A.Arguments ≠ ArgPtr.buffer then none
  else if A.Mask.length ≠ A.ArgumentsBuffer.length then none
  else if A.NumArgs ≠ K.NumArgs then some false
  else if A.NumTeams ≠ K.NumTeams ∨ A.NumThreads ≠ K.NumThreads then some false
  else matchLoop A K A.NumArgs 0

/-- `bool Kernel::operator==(const Kernel &RHS) const`. -/
def opEq (A RHS : Kernel) : Option Bool := A.match_ RHS

/-- `void Kernel::setArgs(void **Args, size_t Num)`: `Num` is narrowed to the 32-bit
`NumArgs`, `Args` is recorded as a view. -/
def setArgs (K : Kernel) (Args : List Nat) (Num : Nat) : Kernel :=
  { K with NumArgs := Num % 2 ^ 32, Arguments := ArgPtr.view Args }

/-- The words `Arguments[0 .. NumArgs)` that `setMask` copies into `ArgumentsBuffer`. -/
def readArgs (K : Kernel) : Option (List Nat) :=
  match K.Arguments with
  | ArgPtr.null => if K.NumArgs = 0 then some [] else none
  | ArgPtr.buffer => if K.NumArgs ≤ K.ArgumentsBuffer.length then
      some (K.ArgumentsBuffer.take K.NumArgs) else none
  | ArgPtr.view words => if K.NumArgs ≤ words.length then
      some (words.take K.NumArgs) else none

/-- `void Kernel::setMask(const std::vector<uintptr_t> &M)`. -/
def setMask (K : Kernel) (M : List Nat) : Option Kernel :=
  if K.Arguments ≠ ArgPtr.buffer then
    match K.readArgs with
    | some words => some { K with Mask := M, ArgumentsBuffer := words,
                                  Arguments := ArgPtr.buffer }
    | none => none
  else some { K with Mask := M }

/-- `void Kernel::setMask(const Kernel &K)`, the mask of another descriptor. -/
def setMaskFrom (K Other : Kernel) : Option Kernel :=
  if K.NumArgs ≠ Other.NumArgs then none
  else if Other.NumArgs ≠ Other.Mask.length then none
  else K.setMask Other.Mask

/-- `void Kernel::setNumTeams(uint32_t Val)`. -/
def setNumTeams (K : Kernel) (Val : Nat) : Kernel := { K with NumTeams := Val % 2 ^ 32 }

/-- `void Kernel::setNumThreads(uint32_t Val)`. -/
def setNumThreads (K : Kernel) (Val : Nat) : Kernel := { K with NumThreads := Val % 2 ^ 32 }

/-- Four bytes at offset `P` of `Buffer`, read as one little-endian `uint32_t`. -/
def readU32 (Buffer : List Nat) (P : Nat) : Option Nat :=
  match Buffer[P]?, Buffer[P + 1]?, Buffer[P + 2]?, Buffer[P + 3]? with
  | some b0, some b1, some b2, some b3 =>
    some (b0 + 2 ^ 8 * b1 + 2 ^ 16 * b2 + 2 ^ 24 * b3)
  | _, _, _, _ => none

/-- Eight bytes at offset `P` of `Buffer`, read as one little-endian `uintptr_t`. -/
def readU64 (Buffer : List Nat) (P : Nat) : Option Nat :=
  match readU32 Buffer P, readU32 Buffer (P + 4) with
  | some lo, some hi => some (lo + 2 ^ 32 * hi)
  | _, _ => none

/-- The bytes of the NUL-terminated string that starts at offset `P` of `Buffer`, without
the terminator, as `std::string(P)` collects them. -/
def readCString (Buffer : List Nat) (P : Nat) : Option (List Nat) :=
  let Rest := Buffer.drop P
  let Chars := Rest.takeWhile (fun b => b ≠ 0)
  if Chars.length < Rest.length then some Chars else none

/-- The loop `for (I = 0; I < NumArgs; ++I) { X[I] = *(const uintptr_t *)P; P += 8; }`
of `materialize`, with `n` iterations left. -/
def readWords (Buffer : List Nat) : Nat → Nat → Option (List Nat)
  | 0, _ => some []
  | n + 1, P =>
    match readU64 Buffer P, readWords Buffer n (P + 8) with
    | some w, some ws => some (w :: ws)
    | _, _ => none

/-- `ptrdiff_t Kernel::materialize(const char *Buffer)`: the descriptor read from
`Buffer` and the number of bytes consumed. Every member is overwritten, so the
descriptor it is called on does not matter. -/
def materialize (_K : Kernel) (Buffer : List Nat) : Option (Kernel × Nat) :=
  match readCString Buffer 0 with
  | none => none
  | some Chars =>
    let P0 := Chars.length + 1
    match readU32 Buffer P0, readU32 Buffer (P0 + 4), readU32 Buffer (P0 + 8) with
    | some Teams, some Threads, some Num =>
      let P1 := P0 + 12
      match readWords Buffer Num P1, readWords Buffer Num (P1 + 8 * Num) with
      | some Args, some M =>
        some ({ Name := String.mk (Chars.map Char.ofNat), NumTeams := Teams,
                NumThreads := Threads, NumArgs := Num, ArgumentsBuffer := Args,
                Mask := M, Arguments := ArgPtr.buffer }, P1 + 8 * Num + 8 * Num)
      | _, _ => none
    | _, _, _ => none

/-- The state the assertions of `match` and of `setMask(const Kernel &)` expect of a
cached descriptor: the arguments are owned, and buffer and mask hold `NumArgs` words. -/
def Owned (A : Kernel) : Prop :=
  A.Arguments = ArgPtr.buffer ∧ A.ArgumentsBuffer.length = A.NumArgs ∧
    A.Mask.length = A.NumArgs

/-- The storage behind `Arguments` holds a word at every index below `NumArgs`. -/
def Readable (K : Kernel) : Prop := ∀ i, i < K.NumArgs → (K.argAt i).isSome

/-- The invariant the specification states for descriptors: `Mask.size() == NumArgs`. -/
def MaskInv (K : Kernel) : Prop := K.Mask.length = K.NumArgs

end Kernel

/-- `std::unordered_map::find`: the value stored under `Key`, if any. -/
def mapFind {β : Type} : List (String × β) → String → Option β
  | [], _ => none
  | (k, v) :: M, Key => if k = Key then some v else mapFind M Key

/-- The statements `auto &L = Map[Key]; L.emplace_back(x);`: `x` is appended to the list
stored under `Key`, which is created empty when the key is new. -/
def mapEmplaceBack {β : Type} : List (String × List β) → String → β →
    List (String × List β)
  | [], Key, x => [(Key, [x])]
  | (k, L) :: M, Key, x =>
    if k = Key then (k, L ++ [x]) :: M else (k, L) :: mapEmplaceBack M Key x

/-- The members of `class Image`: the descriptor and the bytes of `[Start, End)`. -/
structure Image where
  K : Kernel
  Bytes : List Nat
  deriving DecidableEq, Repr

/-- `bool Image::match(const Kernel &K) const { return this->K == K; }`. -/
def Image.match_ (I : Image) (K : Kernel) : Option Bool := I.K.opEq K

/-- The members of `class ImageCacheTy`. -/
structure ImageCacheTy where
  OfflineBuffer : List Nat
  NewBuffer : List (List Nat)
  Map : List (String × List Image)
  deriving DecidableEq, Repr

/-- The loop `for (auto &I : L) if (I.match(K)) return &I;` followed by
`return nullptr;`. -/
def ImageCacheTy.getLoop (K : Kernel) : List Image → Option (Option Image)
  | [] => some none
  | I :: L =>
    match I.match_ K with
    | none => none
    | some true => some (some I)
    | some false => ImageCacheTy.getLoop K L

/-- `const Image *ImageCacheTy::get(const std::string &Key, const Kernel &K) const`;
the inner `none` is `nullptr`. -/
def ImageCacheTy.get (C : ImageCacheTy) (Key : String) (K : Kernel) :
    Option (Option Image) :=
  match mapFind C.Map Key with
  | none => some none
  | some L => ImageCacheTy.getLoop K L

/-- The members of `class TargetTable`; `Table` is the address of the loaded table,
`0` for `nullptr`. -/
structure TargetTable where
  K : Kernel
  Table : Nat
  deriving DecidableEq, Repr

/-- `bool TargetTable::match(const Kernel &K) const { return this->K == K; }`. -/
def TargetTable.match_ (T : TargetTable) (K : Kernel) : Option Bool := T.K.opEq K

/-- The member of `class TargetTableCache`. -/
structure TargetTableCache where
  Map : List (String × List TargetTable)
  deriving DecidableEq, Repr

/-- The loop `for (auto &T : L) if (T.match(K)) return T.get();` followed by
`return nullptr;`. -/
def TargetTableCache.getLoop (K : Kernel) : List TargetTable → Option Nat
  | [] => some 0
  | T :: L =>
    match T.match_ K with
    | none => none
    | some true => some T.Table
    | some false => TargetTableCache.getLoop K L

/-- `const __tgt_target_table *TargetTableCache::get(const Kernel &K) const`. -/
def TargetTableCache.get (C : TargetTableCache) (K : Kernel) : Option Nat :=
  match mapFind C.Map K.Name with
  | none => some 0
  | some L => TargetTableCache.getLoop K L

/-- `TargetTableCache::insert(const Kernel &K, __tgt_target_table *Table)`: the cache
after the call and the pointer returned. -/
def TargetTableCache.insert (C : TargetTableCache) (K : Kernel) (Table : Nat) :
    Option (TargetTableCache × Nat) :=
  match C.get K with
  | none => none
  | some T =>
    if T ≠ 0 then some (C, T)
    else some ({ Map := mapEmplaceBack C.Map K.Name { K := K.copy, Table := Table } },
               Table)

/-- Every entry of the cache is stored under the name of its own descriptor. -/
def TargetTableCache.NameKeyed (C : TargetTableCache) : Prop :=
  ∀ k L T, (k, L) ∈ C.Map → T ∈ L → T.K.Name = k

/-- A cached descriptor with two arguments: a pointer whose low eight bits are left out
of the mask, and a scalar that is compared in full. -/
def cachedExample : Kernel :=
  { Name := "saxpy", NumTeams := 4, NumThreads := 128, NumArgs := 2,
    ArgumentsBuffer := [0x7f0000001000, 5],
    Mask := [0xffffffffffffff00, 0xffffffffffffffff], Arguments := ArgPtr.buffer }

/-- A launch request as `loadJITImage` builds it: a fresh descriptor, then `setArgs`,
`setNumTeams` and `setNumThreads`. Its pointer differs from the one of `cachedExample` in
the low eight bits only. -/
def queryExample : Kernel :=
  (((Kernel.new "saxpy").setArgs [0x7f00000010a8, 5] 2).setNumTeams 4).setNumThreads 128

/-- The request `queryExample` under another kernel name. -/
def renamedExample : Kernel := { queryExample with Name := "daxpy" }

/-- The table cache after `insert(cachedExample, Table)` on an empty cache, with the
table loaded at address `4096`. -/
def tableCacheExample : TargetTableCache :=
  { Map := [("saxpy", [{ K := cachedExample.copy, Table := 4096 }])] }

/-- An image cache with one image compiled for `cachedExample`, filed under the key of
compute capability 7.0. -/
def imageCacheExample : ImageCacheTy :=
  { OfflineBuffer := [], NewBuffer := [[1, 2]],
    Map := [("sm_70-saxpy", [{ K := cachedExample, Bytes := [1, 2] }])] }

/-- The bytes of a serialized descriptor: the name "k" with its terminator, 4 teams,
128 threads, one argument `0x1000` and its mask `0xffffffffffffff00`. -/
def serializedExample : List Nat :=
  [107, 0, 4, 0, 0, 0, 128, 0, 0, 0, 1, 0, 0, 0,
   0, 16, 0, 0, 0, 0, 0, 0, 0, 255, 255, 255, 255, 255, 255, 255]

/-- The descriptor that `serializedExample` encodes. -/
def materializedExample : Kernel :=
  { Name := "k", NumTeams := 4, NumThreads := 128, NumArgs := 1,
    ArgumentsBuffer := [0x1000], Mask := [0xffffffffffffff00],
    Arguments := ArgPtr.buffer }

end jit

/-! ## Launch geometry -/

/-- The value of an `int` after conversion to `unsigned int`. -/
def toUnsigned (x : Int) : Nat := (x % 2 ^ 32).toNat

/-- The largest `int`. -/
def INT_MAX : Int := 2147483647

/-- The smallest `int`. -/
def INT_MIN : Int := -2147483648

/-- The outcome of a run that may stop early. -/
inductive Outcome (α : Type) where
  /-- The run executes a signed overflow or a division by zero. -/
  | undefined : Outcome α
  /-- The function returns `OFFLOAD_FAIL`. -/
  | fail : Outcome α
  /-- The run gets through with a value. -/
  | ok (a : α) : Outcome α
  deriving DecidableEq, Repr

namespace llvm.omp

/-- Modelled from the spec: the enumerators of `llvm::omp::OMPTgtExecModeFlags` are
declared in `llvm/Frontend/OpenMP/OMPConstants.h`, which is not among the sources at
hand. The specification names three execution modes, Generic, SPMD and
Generic-transformed-to-SPMD; they are given the values of that header, `1 << 0`. -/
def OMP_TGT_EXEC_MODE_GENERIC : Int := 1

/-- Modelled from the spec: the SPMD execution mode, `1 << 1` (see
`OMP_TGT_EXEC_MODE_GENERIC`). -/
def OMP_TGT_EXEC_MODE_SPMD : Int := 2

/-- Modelled from the spec: the Generic-transformed-to-SPMD execution mode,
`OMP_TGT_EXEC_MODE_GENERIC | OMP_TGT_EXEC_MODE_SPMD` (see `OMP_TGT_EXEC_MODE_GENERIC`). -/
def OMP_TGT_EXEC_MODE_GENERIC_SPMD : Int := 3

end llvm.omp

open llvm.omp

/-- The members of `struct KernelTy` that the launch reads; `MaxThreadsPerBlock` is `0`
until the driver has been asked. -/
structure KernelTy where
  ExecutionMode : Int
  MaxThreadsPerBlock : Int
  deriving DecidableEq, Repr

/-- The device properties and OpenMP properties of `struct DeviceDataTy`. -/
structure DeviceDataTy where
  ThreadsPerBlock : Int
  BlocksPerGrid : Int
  WarpSize : Int
  MaxRegisters : Int
  NumTeams : Int
  NumThreads : Int
  deriving DecidableEq, Repr

/-- The OpenMP environment properties of `class DeviceRTLTy`; each is `-1` when its
variable is not set. -/
structure DeviceRTLTy where
  EnvNumTeams : Int
  EnvTeamLimit : Int
  EnvTeamThreadLimit : Int
  deriving DecidableEq, Repr

namespace DeviceRTLTy

/-- `HardThreadLimit`. -/
def HardThreadLimit : Int := 1024

/-- `DefaultNumTeams`. -/
def DefaultNumTeams : Int := 128

/-- `DefaultNumThreads`. -/
def DefaultNumThreads : Int := 128

/-- What the CUDA driver answers during `initDevice`: whether the calls that set up the
context succeed, the three device attributes (`none` when the query fails), whether the
stack and heap limit calls succeed, and the register attribute. -/
structure InitDriverTy where
  Context : Bool
  MaxGridDimX : Option Int
  MaxBlockDimX : Option Int
  WarpSize : Option Int
  Limits : Bool
  MaxRegs : Option Int
  deriving DecidableEq, Repr

/-- `int DeviceRTLTy::initDevice(const int DeviceId)`, on the fields of
`DeviceData[DeviceId]` that the launch geometry reads; `none` is `OFFLOAD_FAIL`. The
entry starts from the default member initialisers, all `0`. -/
def initDevice (RTL : DeviceRTLTy) (Drv : InitDriverTy) : Option DeviceDataTy :=
  if ¬ Drv.Context then none
  else
    let BlocksPerGrid0 : Int :=
      match Drv.MaxGridDimX with
      | none => DefaultNumTeams
      | some MaxGridDimX => MaxGridDimX
    let ThreadsPerBlock : Int :=
      match Drv.MaxBlockDimX with
      | none => DefaultNumThreads
      | some MaxBlockDimX =>
        let T1 := if RTL.EnvTeamThreadLimit > 0 ∧ MaxBlockDimX > RTL.EnvTeamThreadLimit
          then RTL.EnvTeamThreadLimit else MaxBlockDimX
        if T1 > HardThreadLimit then HardThreadLimit else T1
    let WarpSize : Int :=
      match Drv.WarpSize with
      | none => 32
      | some W => W
    let BlocksPerGrid : Int :=
      if RTL.EnvTeamLimit > 0 ∧ BlocksPerGrid0 > RTL.EnvTeamLimit then RTL.EnvTeamLimit
      else BlocksPerGrid0
    if ¬ Drv.Limits then none
    else
      let NumTeams0 : Int := if RTL.EnvNumTeams > 0 then RTL.EnvNumTeams else DefaultNumTeams
      let NumTeams : Int := if NumTeams0 > BlocksPerGrid then BlocksPerGrid else NumTeams0
      let NumThreads : Int :=
        if DefaultNumThreads > ThreadsPerBlock then ThreadsPerBlock else DefaultNumThreads
      let MaxRegisters : Int :=
        match Drv.MaxRegs with
        | none => 0
        | some MaxRegs => MaxRegs
      some { ThreadsPerBlock := ThreadsPerBlock, BlocksPerGrid := BlocksPerGrid,
             WarpSize := WarpSize, MaxRegisters := MaxRegisters, NumTeams := NumTeams,
             NumThreads := NumThreads }

/-- What the CUDA driver answers during one launch: whether `cuCtxSetCurrent` succeeds,
and the value `cuFuncGetAttribute` reports for
`CU_FUNC_ATTRIBUTE_MAX_THREADS_PER_BLOCK` (`none` when the call fails). -/
structure LaunchDriverTy where
  cuCtxSetCurrent : Bool
  cuFuncGetAttribute : Option Int
  deriving DecidableEq, Repr

/-- The arguments `CudaBlocksPerGrid` (an `unsigned int`) and `CudaThreadsPerBlock` (an
`int`) of the call of `cuLaunchKernel`. -/
structure LaunchTy where
  CudaBlocksPerGrid : Nat
  CudaThreadsPerBlock : Int
  deriving DecidableEq, Repr

/-- The block size `cuLaunchKernel` receives: its parameter `blockDimX` is an
`unsigned int`. -/
def LaunchTy.blockDimX (L : LaunchTy) : Nat := toUnsigned L.CudaThreadsPerBlock

/-- Lines 2284 to 2290 of `runTargetTeamRegion`: the kernel limit, asked from the driver
when `KernelInfo->MaxThreadsPerBlock` is still `0`; `none` when that call fails. -/
def kernelLimit (Drv : LaunchDriverTy) (KernelInfo : KernelTy) : Option Int :=
  if KernelInfo.MaxThreadsPerBlock = 0 then Drv.cuFuncGetAttribute
  else some KernelInfo.MaxThreadsPerBlock

/-- Lines 2263 to 2296 of `runTargetTeamRegion`: the variable `CudaThreadsPerBlock`, for
the kernel limit `MaxThreadsPerBlock`; `none` when adding the master warp overflows
`int`. -/
def CudaThreadsPerBlock (D : DeviceDataTy) (ExecutionMode MaxThreadsPerBlock : Int)
    (ThreadLimit : Int) : Option Int :=
  let IsGenericMode := ExecutionMode = OMP_TGT_EXEC_MODE_GENERIC
  let Requested : Option Int :=
    if ThreadLimit > 0 then
      if IsGenericMode then
        if ThreadLimit + D.WarpSize > INT_MAX ∨ ThreadLimit + D.WarpSize < INT_MIN then none
        else some (ThreadLimit + D.WarpSize)
      else some ThreadLimit
    else some D.NumThreads
  match Requested with
  | none => none
  | some T0 =>
    let T1 := if T0 > D.ThreadsPerBlock then D.ThreadsPerBlock else T0
    some (if MaxThreadsPerBlock < T1 then MaxThreadsPerBlock else T1)

/-- Lines 2298 to 2350 of `runTargetTeamRegion`: the variable `CudaBlocksPerGrid`, for the
thread count `Threads` computed before. The comparisons and the division are unsigned. -/
def CudaBlocksPerGrid (RTL : DeviceRTLTy) (D : DeviceDataTy) (ExecutionMode : Int)
    (TeamNum : Int) (LoopTripCount : Nat) (Threads : Int) : Outcome Nat :=
  let IsSPMDGenericMode := ExecutionMode = OMP_TGT_EXEC_MODE_GENERIC_SPMD
  let IsSPMDMode := ExecutionMode = OMP_TGT_EXEC_MODE_SPMD
  let IsGenericMode := ExecutionMode = OMP_TGT_EXEC_MODE_GENERIC
  let Blocks : Outcome Nat :=
    if TeamNum ≤ 0 then
      if LoopTripCount > 0 ∧ RTL.EnvNumTeams < 0 then
        if IsSPMDGenericMode then Outcome.ok LoopTripCount
        else if IsSPMDMode then
          if toUnsigned Threads = 0 then Outcome.undefined
          else Outcome.ok
            (((LoopTripCount + 2 ^ 32 - 1) % 2 ^ 32 / toUnsigned Threads + 1) % 2 ^ 32)
        else if IsGenericMode then Outcome.ok LoopTripCount
        else Outcome.fail
      else Outcome.ok (toUnsigned D.NumTeams)
    else Outcome.ok (toUnsigned TeamNum)
  match Blocks with
  | Outcome.ok B =>
    Outcome.ok (if B > toUnsigned D.BlocksPerGrid then toUnsigned D.BlocksPerGrid else B)
  | Outcome.fail => Outcome.fail
  | Outcome.undefined => Outcome.undefined

/-- `int DeviceRTLTy::runTargetTeamRegion(...)` up to the call of `cuLaunchKernel`: the
grid and block size handed to the driver. `D` is `DeviceData[DeviceId]`. `KernelInfo` is
the kernel entry at `assert(KernelInfo)`, that is the target entry of the launch entry
or, for a JIT image, the entry of the table `loadJITImage` returns; it is `none` when
`loadJITImage` fails. `LoopTripCount` is an `unsigned int`. -/
def runTargetTeamRegion (RTL : DeviceRTLTy) (D : DeviceDataTy) (Drv : LaunchDriverTy)
    (KernelInfo : Option KernelTy) (TeamNum ThreadLimit : Int)
    (LoopTripCount : Nat) : Outcome LaunchTy :=
  if ¬ Drv.cuCtxSetCurrent then Outcome.fail
  else
    match KernelInfo with
    | none => Outcome.fail
    | some K =>
      match kernelLimit Drv K with
      | none =>
        -- the statements before the query can already overflow
        match CudaThreadsPerBlock D K.ExecutionMode 0 ThreadLimit with
        | none => Outcome.undefined
        | some _ => Outcome.fail
      | some MaxThreadsPerBlock =>
        match CudaThreadsPerBlock D K.ExecutionMode MaxThreadsPerBlock ThreadLimit with
        | none => Outcome.undefined
        | some Threads =>
          match CudaBlocksPerGrid RTL D K.ExecutionMode TeamNum LoopTripCount Threads with
          | Outcome.ok Blocks =>
            Outcome.ok { CudaBlocksPerGrid := Blocks, CudaThreadsPerBlock := Threads }
          | Outcome.fail => Outcome.fail
          | Outcome.undefined => Outcome.undefined

/-- The thread count in the words of the specification: the request is `ThreadLimit`,
plus one warp in Generic mode, or the device default when no limit is given; it is
capped by the device limit and then by the kernel limit. -/
def threadCountSpec (D : DeviceDataTy) (ExecutionMode MaxThreadsPerBlock : Int)
    (ThreadLimit : Int) : Int :=
  min (min (if ThreadLimit > 0 then
              ThreadLimit + (if ExecutionMode = OMP_TGT_EXEC_MODE_GENERIC then D.WarpSize
                             else 0)
            else D.NumThreads)
        D.ThreadsPerBlock)
    MaxThreadsPerBlock

/-- The device of the end-to-end scenario of the specification: at most 1024 threads per
block, warps of 32 threads, and the defaults `initDevice` derives for an unset
environment on a grid limit of 65535 blocks. -/
def deviceExample : DeviceDataTy :=
  { ThreadsPerBlock := 1024, BlocksPerGrid := 65535, WarpSize := 32, MaxRegisters := 65536,
    NumTeams := 128, NumThreads := 128 }

/-- The environment with none of the three variables set. -/
def envUnset : DeviceRTLTy := { EnvNumTeams := -1, EnvTeamLimit := -1, EnvTeamThreadLimit := -1 }

/-- A driver whose calls succeed and that reports a kernel limit of 512 threads. -/
def driverExample : LaunchDriverTy := { cuCtxSetCurrent := true, cuFuncGetAttribute := some 512 }

/-- The environment with `OMP_NUM_TEAMS=4` and the two limits unset. -/
def envTeams4 : DeviceRTLTy := { EnvNumTeams := 4, EnvTeamLimit := -1, EnvTeamThreadLimit := -1 }

/-- A driver that answers every query of `initDevice`: a grid limit of 65535 blocks, 1024
threads per block, warps of 32 threads and 65536 registers. -/
def initDriverExample : InitDriverTy :=
  { Context := true, MaxGridDimX := some 65535, MaxBlockDimX := some 1024,
    WarpSize := some 32, Limits := true, MaxRegs := some 65536 }

/-- The device `initDevice` sets up under `OMP_NUM_TEAMS=4`: `deviceExample` with a default
of 4 teams. -/
def deviceTeams4 : DeviceDataTy := { deviceExample with NumTeams := 4 }

end DeviceRTLTy

/-! ## Image cache, insertion -/

namespace jit

/-- `const Image *ImageCacheTy::insert(const std::string &Key, Kernel &K,
std::unique_ptr<MemoryBuffer> MB)`: the cache after the call and the image whose address
is returned. `MB` stands for the bytes of the buffer; when an entry is found the buffer
is dropped at the end of the call. -/
def ImageCacheTy.insert (C : ImageCacheTy) (Key : String) (K : Kernel) (MB : List Nat) :
    Option (ImageCacheTy × Image) :=
  match C.get Key K with
  | none => none
  | some (some I) => some (C, I)
  | some none =>
    some ({ C with NewBuffer := C.NewBuffer ++ [MB],
                   Map := mapEmplaceBack C.Map Key { K := K.copy, Bytes := MB } },
          { K := K.copy, Bytes := MB })

/-- The number of images the cache holds, over all keys. -/
def ImageCacheTy.numImages (C : ImageCacheTy) : Nat :=
  (C.Map.map (fun p => p.2.length)).sum

/-- The list filed under `Key`, empty when the key is absent. -/
def mapAt {β : Type} (M : List (String × List β)) (Key : String) : List β :=
  match mapFind M Key with
  | none => []
  | some L => L

/-- The images filed under `Key`, in the order of the list; none when the key is
absent. -/
def ImageCacheTy.imagesAt (C : ImageCacheTy) (Key : String) : List Image := mapAt C.Map Key

/-- An image cache without entries, as it is after a start without a cache file. -/
def ImageCacheTy.empty : ImageCacheTy := { OfflineBuffer := [], NewBuffer := [], Map := [] }

/-- A second descriptor for the key of `cachedExample`: the same kernel launched with 8
teams. -/
def cachedExample8 : Kernel := { cachedExample with NumTeams := 8 }

/-- The image cache after `cachedExample8` and then `cachedExample` have been inserted
into an empty cache under one key. -/
def imageCacheTwo : ImageCacheTy :=
  { OfflineBuffer := [], NewBuffer := [[3], [1, 2]],
    Map := [("sm_70-saxpy", [{ K := cachedExample8, Bytes := [3] },
                             { K := cachedExample, Bytes := [1, 2] }])] }

end jit

/-! ## Resource pool -/

/-- The members of `class ResourcePoolTy`. Handles are numbers. `Created` counts the calls
of `Allocator.create` made so far, which is the state of the allocator: the allocator
itself is a function that gives the outcome of its `k`-th call, a handle or `none` for
`OFFLOAD_FAIL`. -/
structure ResourcePoolTy where
  Next : Nat
  Resources : List Nat
  Created : Nat
  deriving DecidableEq, Repr

namespace ResourcePoolTy

/-- The loop of `resize`, `for (I = CurSize; I < Size; ++I)`, with `n` iterations left:
whether every `create` succeeded, and the pool afterwards. -/
def resizeLoop (Allocator : Nat → Option Nat) : Nat → ResourcePoolTy → Bool × ResourcePoolTy
  | 0, P => (true, P)
  | n + 1, P =>
    match Allocator P.Created with
    | none => (false, { P with Created := P.Created + 1 })
    | some NewItem =>
      resizeLoop Allocator n
        { P with Resources := P.Resources ++ [NewItem], Created := P.Created + 1 }

/-- `bool ResourcePoolTy::resize(size_t Size)`; `none` when the assertion
`Size > CurSize` fails. -/
def resize (Allocator : Nat → Option Nat) (P : ResourcePoolTy) (Size : Nat) :
    Option (Bool × ResourcePoolTy) :=
  if Size > P.Resources.length then some (resizeLoop Allocator (Size - P.Resources.length) P)
  else none

/-- The constructor `ResourcePoolTy(AllocatorTy<T> &&A, size_t Size = 0)`; the result of
`resize` is discarded. -/
def new (Allocator : Nat → Option Nat) (Size : Nat) : ResourcePoolTy :=
  if Size ≠ 0 then
    match resize Allocator { Next := 0, Resources := [], Created := 0 } Size with
    | some (_, P) => P
    | none => { Next := 0, Resources := [], Created := 0 }
  else { Next := 0, Resources := [], Created := 0 }

/-- `int ResourcePoolTy::acquire(T &R)`: the pool afterwards and the handle stored in
`R`, or `fail` for `OFFLOAD_FAIL`. -/
def acquire (Allocator : Nat → Option Nat) (P : ResourcePoolTy) :
    ResourcePoolTy × Outcome Nat :=
  let Grown : Option (Bool × ResourcePoolTy) :=
    if P.Next = P.Resources.length then
      resize Allocator P (if P.Resources.length ≠ 0 then P.Resources.length * 2 else 1)
    else some (true, P)
  match Grown with
  | none => (P, Outcome.undefined)
  | some (false, P1) => (P1, Outcome.fail)
  | some (true, P1) =>
    match P1.Resources[P1.Next]? with
    | none => (P1, Outcome.undefined)
    | some R => ({ P1 with Next := P1.Next + 1 }, Outcome.ok R)

/-- `void ResourcePoolTy::release(T R)`, the statement `Resources[--Next] = R`; `none`
when the slot written lies outside the buffer. -/
def release (P : ResourcePoolTy) (R : Nat) : Option ResourcePoolTy :=
  if 0 < P.Next ∧ P.Next - 1 < P.Resources.length then
    some { P with Next := P.Next - 1, Resources := P.Resources.set (P.Next - 1) R }
  else none

/-- The outcomes of `n` consecutive calls of `acquire`, oldest first, and the pool after
them. -/
def acquireMany (Allocator : Nat → Option Nat) : Nat → ResourcePoolTy →
    ResourcePoolTy × List (Outcome Nat)
  | 0, P => (P, [])
  | n + 1, P =>
    let First := acquire Allocator P
    let Rest := acquireMany Allocator n First.1
    (Rest.1, First.2 :: Rest.2)

/-- The cursor invariant: `Next <= Resources.size()`. -/
def CursorInv (P : ResourcePoolTy) : Prop := P.Next ≤ P.Resources.length

/-- An allocator that always succeeds; its `k`-th handle is `1000 + k`. -/
def allocatorExample (k : Nat) : Option Nat := some (1000 + k)

/-- An allocator whose third call fails. -/
def allocatorFailing (k : Nat) : Option Nat := if k = 2 then none else some (1000 + k)

end ResourcePoolTy

/-! ## Actions and the argument mask -/

namespace jit

/-- `enum ActionTy::ActionKind`. -/
inductive ActionKind where
  | None : ActionKind
  | Alignment : ActionKind
  | Specialization : ActionKind
  | NumTeams : ActionKind
  | NumThreads : ActionKind
  deriving DecidableEq, Repr

/-- The data members of `struct ActionTy` that are read; `Index` is `-1` for an action on
the kernel entry, `Value` is a `uint64_t`. -/
structure ActionTy where
  Kind : ActionKind
  Index : Int
  HasValue : Bool
  Value : Nat
  deriving DecidableEq, Repr

/-- The constructor `ActionTy(ActionKind K, uint64_t V)`. -/
def ActionTy.ofValue (K : ActionKind) (V : Nat) : ActionTy :=
  { Kind := K, Index := -1, HasValue := true, Value := V }

/-- The constructor `ActionTy(ActionKind K, int Idx, uint64_t V)`. -/
def ActionTy.ofIndexValue (K : ActionKind) (Idx : Int) (V : Nat) : ActionTy :=
  { Kind := K, Index := Idx, HasValue := true, Value := V }

/-- The assignment `Mask[Index] = V`; `none` when the index lies outside the mask. -/
def setMaskWord (Mask : List Nat) (Index : Int) (V : Nat) : Option (List Nat) :=
  if 0 ≤ Index ∧ Index.toNat < Mask.length then some (Mask.set Index.toNat V) else none

/-- One iteration of the loop of `applyActionsToModule`, as far as `Mask` goes: the
attributes and the replaced uses of the LLVM function are not part of the embedding.
`none` when an assertion fails or the kind is none of the four. -/
def applyAction (A : ActionTy) (Mask : List Nat) : Option (List Nat) :=
  match A.Kind with
  | ActionKind.Alignment =>
    if A.Index = -1 then none
    else if ¬ A.HasValue then none
    else setMaskWord Mask A.Index ((A.Value + 2 ^ 64 - 1) % 2 ^ 64)
  | ActionKind.Specialization =>
    if A.Index = -1 then none
    else if ¬ A.HasValue then none
    else setMaskWord Mask A.Index A.Value
  | ActionKind.NumTeams =>
    if A.Index ≠ -1 then none
    else if ¬ A.HasValue then none
    else some Mask
  | ActionKind.NumThreads =>
    if A.Index ≠ -1 then none
    else if ¬ A.HasValue then none
    else some Mask
  | ActionKind.None => none

/-- `void applyActionsToModule(..., std::vector<ActionTy> &Actions,
std::vector<uintptr_t> &Mask)`: the mask after all actions. -/
def applyActionsToModule : List ActionTy → List Nat → Option (List Nat)
  | [], Mask => some Mask
  | A :: Actions, Mask =>
    match applyAction A Mask with
    | none => none
    | some Mask1 => applyActionsToModule Actions Mask1

/-- `bool isOptimizationEnabled(ActionTy::ActionKind Kind)`, for the set
`DisabledOptimizations`. -/
def isOptimizationEnabled (DisabledOptimizations : List ActionKind) (Kind : ActionKind) :
    Bool :=
  ¬ (Kind ∈ DisabledOptimizations)

/-- What `loadJITImage` asks about the type of a kernel argument: a pointer to a struct,
a pointer to another aggregate, a pointer to anything else, or no pointer at all. -/
inductive ArgTy where
  | pointerToStruct : ArgTy
  | pointerToAggregate : ArgTy
  | pointer : ArgTy
  | scalar : ArgTy
  deriving DecidableEq, Repr

/-- `Arg.getType()->isPointerTy()`. -/
def ArgTy.isPointerTy : ArgTy → Bool
  | ArgTy.scalar => false
  | _ => true

/-- The probe of lines 1554 to 1560: the first of 128, 64, 32, 16, 8 with
`!(Ptr & (A - 1))`, or `0`. -/
def probeAlignment (Ptr : Nat) : Nat :=
  match [128, 64, 32, 16, 8].find? (fun A => Ptr &&& (A - 1) = 0) with
  | some A => A
  | none => 0

/-- The body of the loop `for (auto &Arg : F->args())` of `loadJITImage`, lines 1536 to
1572, for the argument of type `Ty` at index `Idx`: the actions it appends. `none` when
`Args[Idx]` is read outside `Args`. -/
def argumentAction (DisabledOptimizations : List ActionKind) (Args : List Nat) (Ty : ArgTy)
    (Idx : Nat) : Option (List ActionTy) :=
  match Ty with
  | ArgTy.pointerToStruct => some []
  | ArgTy.pointerToAggregate => some []
  | ArgTy.pointer =>
    if ¬ isOptimizationEnabled DisabledOptimizations ActionKind.Alignment then some []
    else
      match Args[Idx]? with
      | none => none
      | some Ptr =>
        if probeAlignment Ptr ≠ 0 then
          some [ActionTy.ofIndexValue ActionKind.Alignment Idx (probeAlignment Ptr)]
        else some []
  | ArgTy.scalar =>
    if isOptimizationEnabled DisabledOptimizations ActionKind.Specialization then
      match Args[Idx]? with
      | none => none
      | some V => some [ActionTy.ofIndexValue ActionKind.Specialization Idx V]
    else some []

/-- The loop `for (auto &Arg : F->args())` of `loadJITImage`, lines 1534 to 1573, from
argument `Idx` on: the actions it appends. -/
def argumentActions (DisabledOptimizations : List ActionKind) (Args : List Nat) :
    List ArgTy → Nat → Option (List ActionTy)
  | [], _ => some []
  | Ty :: Tys, Idx =>
    match argumentAction DisabledOptimizations Args Ty Idx,
        argumentActions DisabledOptimizations Args Tys (Idx + 1) with
    | some A1, some A2 => some (A1 ++ A2)
    | _, _ => none

/-- The mask `loadJITImage` hands to `Kernel.setMask` at line 1623: `Mask(NumArgs, 0)`
after `applyActionsToModule` over the argument actions followed by `Geometry`, the
`NumThreads` and `NumTeams` actions of lines 1575 to 1600. `none` also when the function
has another number of arguments than `NumArgs`, where `loadJITImage` gives up. -/
def loadJITImageMask (DisabledOptimizations : List ActionKind) (ArgTys : List ArgTy)
    (Args : List Nat) (NumArgs : Nat) (Geometry : List ActionTy) : Option (List Nat) :=
  if ArgTys.length ≠ NumArgs then none
  else
    match argumentActions DisabledOptimizations Args ArgTys 0 with
    | none => none
    | some Actions => applyActionsToModule (Actions ++ Geometry) (List.replicate NumArgs 0)

/-- The launch request `loadJITImage` builds in lines 1462 to 1467 for kernel `Name` with
the words `Args`: the team count and the thread limit are recorded unless their baking is
disabled; no mask is set yet. -/
def launchRequest (DisabledOptimizations : List ActionKind) (Name : String)
    (Args : List Nat) (NumTeams ThreadLimit : Nat) : Kernel :=
  let K0 := (Kernel.new Name).setArgs Args Args.length
  let K1 := if isOptimizationEnabled DisabledOptimizations ActionKind.NumTeams then
    K0.setNumTeams NumTeams else K0
  if isOptimizationEnabled DisabledOptimizations ActionKind.NumThreads then
    K1.setNumThreads ThreadLimit else K1

/-- The descriptor `loadJITImage` caches after a miss of both caches: the launch request,
completed by `Kernel.setMask(Mask)` at line 1623. -/
def loadJITImageKernel (DisabledOptimizations : List ActionKind) (Name : String)
    (ArgTys : List ArgTy) (Args : List Nat) (NumTeams ThreadLimit : Nat)
    (Geometry : List ActionTy) : Option Kernel :=
  match loadJITImageMask DisabledOptimizations ArgTys Args Args.length Geometry with
  | none => none
  | some Mask => (launchRequest DisabledOptimizations Name Args NumTeams ThreadLimit).setMask Mask

end jit

namespace jit

/-- The descriptor cached for a launch of "saxpy" with the single pointer argument
`0x1000`, which is aligned to 128 bytes. -/
def alignedExample : Kernel :=
  { Name := "saxpy", NumTeams := 4, NumThreads := 128, NumArgs := 1,
    ArgumentsBuffer := [0x1000], Mask := [127], Arguments := ArgPtr.buffer }

/-- The descriptor cached for the same launch when specialization is disabled. -/
def unspecializedExample : Kernel :=
  { Name := "saxpy", NumTeams := 4, NumThreads := 128, NumArgs := 1,
    ArgumentsBuffer := [5], Mask := [0], Arguments := ArgPtr.buffer }

end jit

/-! ## Serialization -/

namespace jit

/-- The `n` bytes of the value `V`, least significant byte first. -/
def bytesLE : Nat → Nat → List Nat
  | 0, _ => []
  | n + 1, V => V % 256 :: bytesLE n (V / 256)

/-- A store of `Bytes` at offset `P` of `Buffer`; `none` when it reaches outside the
buffer. -/
def writeBytes (Buffer : List Nat) (P : Nat) (Bytes : List Nat) : Option (List Nat) :=
  if P + Bytes.length ≤ Buffer.length then
    some (Buffer.take P ++ Bytes ++ Buffer.drop (P + Bytes.length))
  else none

namespace Kernel

/-- `size_t Kernel::size() const`. -/
def size (K : Kernel) : Nat :=
  K.Name.length + 1 + 4 + 4 + 4 + K.NumArgs * 8 + K.NumArgs * 8

/-- The loop `for (I = 0; I < NumArgs; ++I) { *(uintptr_t *)P = Words[I]; P += 8; }` of
`serialize`, with `n` iterations left from index `I`. -/
def writeWords (Words : List Nat) : Nat → Nat → List Nat → Nat → Option (List Nat)
  | 0, _, Buffer, _ => some Buffer
  | n + 1, I, Buffer, P =>
    match Words[I]? with
    | none => none
    | some W =>
      match writeBytes Buffer P (bytesLE 8 W) with
      | none => none
      | some Buffer1 => writeWords Words n (I + 1) Buffer1 (P + 8)

/-- `void Kernel::serialize(char *Buffer) const`: the buffer after the call. `NumArgs` is
stored through an `int64_t` pointer, eight bytes, and `P` then moves on by four. -/
def serialize (K : Kernel) (Buffer : List Nat) : Option (List Nat) :=
  match writeBytes Buffer 0 (K.Name.data.map Char.toNat) with
  | none => none
  | some B1 =>
    match writeBytes B1 K.Name.length [0] with
    | none => none
    | some B2 =>
      match writeBytes B2 (K.Name.length + 1) (bytesLE 4 K.NumTeams) with
      | none => none
      | some B3 =>
        match writeBytes B3 (K.Name.length + 1 + 4) (bytesLE 4 K.NumThreads) with
        | none => none
        | some B4 =>
          match writeBytes B4 (K.Name.length + 1 + 4 + 4) (bytesLE 8 K.NumArgs) with
          | none => none
          | some B5 =>
            match writeWords K.ArgumentsBuffer K.NumArgs 0 B5 (K.Name.length + 1 + 4 + 4 + 4) with
            | none => none
            | some B6 =>
              writeWords K.Mask K.NumArgs 0 B6 (K.Name.length + 1 + 4 + 4 + 4 + 8 * K.NumArgs)

/-- The values of the members fit their types: the counts are `uint32_t`, the words
`uintptr_t`. -/
def InRange (K : Kernel) : Prop :=
  K.NumTeams < 2 ^ 32 ∧ K.NumThreads < 2 ^ 32 ∧ K.NumArgs < 2 ^ 32 ∧
    (∀ w, w ∈ K.ArgumentsBuffer → w < 2 ^ 64) ∧ (∀ w, w ∈ K.Mask → w < 2 ^ 64)

/-- The bytes of `[0, size())` after `serialize`: the name and its terminator, the three
counts in four bytes each, the argument words and the mask words. -/
def encode (K : Kernel) : List Nat :=
  K.Name.data.map Char.toNat ++ [0] ++ bytesLE 4 K.NumTeams ++ bytesLE 4 K.NumThreads ++
    bytesLE 4 K.NumArgs ++ (K.ArgumentsBuffer.map (bytesLE 8)).flatten ++
    (K.Mask.map (bytesLE 8)).flatten

end Kernel

/-- `size_t Image::size() const`. -/
def Image.size (I : Image) : Nat := I.K.size + 8 + (I.Bytes.length + 1)

/-- `void Image::serialize(char *Buffer) const`: the buffer after the call. -/
def Image.serialize (I : Image) (Buffer : List Nat) : Option (List Nat) :=
  match I.K.serialize Buffer with
  | none => none
  | some B1 =>
    match writeBytes B1 I.K.size (bytesLE 8 I.Bytes.length) with
    | none => none
    | some B2 =>
      match writeBytes B2 (I.K.size + 8) I.Bytes with
      | none => none
      | some B3 => writeBytes B3 (I.K.size + 8 + I.Bytes.length) [0]

/-- The constructor `Image(const char *Buffer)`. The image size is read as an `int64_t`;
`none` when it is negative or the byte range `[Start, End)` leaves the buffer. -/
def Image.ofBuffer (Buffer : List Nat) : Option Image :=
  match (Kernel.new "").materialize Buffer with
  | none => none
  | some (K, Offset) =>
    match Kernel.readU64 Buffer Offset with
    | none => none
    | some ImageSize =>
      if ImageSize ≥ 2 ^ 63 then none
      else if Offset + 8 + ImageSize ≤ Buffer.length then
        some { K := K, Bytes := (Buffer.drop (Offset + 8)).take ImageSize }
      else none

/-- A descriptor without arguments. -/
def noArgsExample : Kernel :=
  { Name := "k", NumTeams := 4, NumThreads := 128, NumArgs := 0, ArgumentsBuffer := [],
    Mask := [], Arguments := ArgPtr.buffer }

end jit

/-! ## Read-only values and global specialization -/

namespace jit

/-- The instruction classes `isReadOnlyValue` tells apart with `dyn_cast`: a
`GetElementPtrInst`, a `LoadInst`, and everything else, of which stores are named. -/
inductive ValueKind where
  | GetElementPtrInst : ValueKind
  | LoadInst : ValueKind
  | StoreInst : ValueKind
  | Other : ValueKind
  deriving DecidableEq, Repr

/-- An `llvm::Value` as `isReadOnlyValue` sees it: its class and its `users()`, each again
a value with users. A user that is reached on two paths is written out on both. Every
chain of uses is finite here: a use graph with a cycle, on which the recursion of the
source would not end, has no such value. -/
inductive Value where
  | mk (Kind : ValueKind) (Users : List Value) : Value

mutual
/-- `bool isReadOnlyValue(llvm::Value *V)`. -/
def isReadOnlyValue : Value → Bool
  | Value.mk _ Users => isReadOnlyValue.usersLoop Users
/-- The loop `for (auto U : V->users())` of `isReadOnlyValue` and the `return true` after
it. -/
def isReadOnlyValue.usersLoop : List Value → Bool
  | [] => true
  | Value.mk ValueKind.GetElementPtrInst GEPUsers :: Us =>
    if isReadOnlyValue.gepLoop GEPUsers then isReadOnlyValue.usersLoop Us else false
  | Value.mk ValueKind.LoadInst _ :: Us => isReadOnlyValue.usersLoop Us
  | Value.mk ValueKind.StoreInst _ :: _ => false
  | Value.mk ValueKind.Other _ :: _ => false
/-- The loop `for (auto GEPU : GEP->users()) if (!isReadOnlyValue(GEPU)) return false;`;
the result is whether the loop runs to its end. -/
def isReadOnlyValue.gepLoop : List Value → Bool
  | [] => true
  | GEPU :: Rest => if !isReadOnlyValue GEPU then false else isReadOnlyValue.gepLoop Rest
end

mutual
/-- The property in the words of the specification: every use of the value, reached
directly or through a chain of `GetElementPtrInst`, is a load. -/
def everyUseIsLoad : Value → Bool
  | Value.mk _ Users => everyUseIsLoad.uses Users
/-- Every use in the list is a load, directly or through pointer arithmetic. -/
def everyUseIsLoad.uses : List Value → Bool
  | [] => true
  | U :: Us => everyUseIsLoad.use U && everyUseIsLoad.uses Us
/-- The use is a load, or pointer arithmetic every use of which is such again. -/
def everyUseIsLoad.use : Value → Bool
  | Value.mk ValueKind.GetElementPtrInst GEPUsers => everyUseIsLoad.uses GEPUsers
  | Value.mk ValueKind.LoadInst _ => true
  | Value.mk ValueKind.StoreInst _ => false
  | Value.mk ValueKind.Other _ => false
end

/-- A global whose only use is a `getelementptr` through which a `store` writes. A store
has no users. -/
def storedThroughGEP : Value :=
  Value.mk ValueKind.Other
    [Value.mk ValueKind.GetElementPtrInst [Value.mk ValueKind.StoreInst []]]

/-- A global whose only use is a `getelementptr` through which a `load` reads; the loaded
value is an operand of one arithmetic instruction. -/
def loadedThroughGEP : Value :=
  Value.mk ValueKind.Other
    [Value.mk ValueKind.GetElementPtrInst
      [Value.mk ValueKind.LoadInst [Value.mk ValueKind.Other []]]]

/-- An `llvm::ConstantInt`: the width of its integer type in bits and its value. -/
structure ConstantInt where
  BitWidth : Nat
  Value : Nat
  deriving DecidableEq, Repr

/-- What `loadJITImage` and `specializeGloblaVariable` read and write of an
`llvm::GlobalVariable`: whether its value type is an aggregate, its uses, and its
initializer. -/
structure GlobalVariable where
  IsAggregateType : Bool
  Uses : Value
  Initializer : ConstantInt

/-- Two bytes at the start of `Addr`, read as one little-endian `uint16_t`. -/
def readU16 (Addr : List Nat) : Option Nat :=
  match Addr[0]?, Addr[1]? with
  | some b0, some b1 => some (b0 + 2 ^ 8 * b1)
  | _, _ => none

/-- `void specializeGloblaVariable(LLVMContext &Context, GlobalVariable &GV, size_t Size,
void *Addr)`: the global afterwards. `Addr` stands for the bytes of host memory from that
address on; `none` when a read leaves them. -/
def specializeGloblaVariable (GV : GlobalVariable) (Size : Nat) (Addr : List Nat) :
    Option GlobalVariable :=
  let C : Option (Option ConstantInt) :=
    if Size = 8 then
      match Addr[0]? with
      | some V => some (some { BitWidth := 8, Value := V })
      | none => none
    else if Size = 16 then
      match readU16 Addr with
      | some V => some (some { BitWidth := 16, Value := V })
      | none => none
    else if Size = 32 then
      match Kernel.readU32 Addr 0 with
      | some V => some (some { BitWidth := 32, Value := V })
      | none => none
    else if Size = 64 then
      match Kernel.readU64 Addr 0 with
      | some V => some (some { BitWidth := 64, Value := V })
      | none => none
    else some none
  match C with
  | none => none
  | some none => some GV
  | some (some C1) => some { GV with Initializer := C1 }

/-- The body of the loop `for (auto E = Image->EntriesBegin; ...)` of `loadJITImage`,
lines 1603 to 1619, for a host entry of `Size` bytes at `Addr`: `GV` is the global
`M.getGlobalVariable(E->name)` finds, if any, and the result is that global afterwards. -/
def specializeEntry (GV : Option GlobalVariable) (Size : Nat) (Addr : List Nat) :
    Option (Option GlobalVariable) :=
  if Size = 0 then some GV
  else
    match GV with
    | none => some none
    | some G =>
      if G.IsAggregateType then some (some G)
      else if ¬ isReadOnlyValue G.Uses then some (some G)
      else
        match specializeGloblaVariable G Size Addr with
        | none => none
        | some G1 => some (some G1)

/-- A read-only `i32` global with initializer 0, read by one `load`. -/
def counterGlobal : GlobalVariable :=
  { IsAggregateType := false, Uses := Value.mk ValueKind.Other [Value.mk ValueKind.LoadInst []],
    Initializer := { BitWidth := 32, Value := 0 } }

/-- A read-only `i64` global with initializer 0, read by one `load`. -/
def wideGlobal : GlobalVariable :=
  { IsAggregateType := false, Uses := Value.mk ValueKind.Other [Value.mk ValueKind.LoadInst []],
    Initializer := { BitWidth := 64, Value := 0 } }

end jit

/-! ## Image cache, the cache file -/

namespace jit

/-- `const char *ImageCacheTy::CacheFileName`. -/
def ImageCacheTy.CacheFileName : String := "libomptarget.jit.cuda.cache"

/-- The value of the `int32_t` whose bit pattern is the low 32 bits of `x`. -/
def toInt32 (x : Nat) : Int :=
  if x % 2 ^ 32 < 2 ^ 31 then ((x % 2 ^ 32 : Nat) : Int) else ((x % 2 ^ 32 : Nat) : Int) - 2 ^ 32

/-- The expression `Map[Key]`: an absent key is entered with an empty list. -/
def mapIndex {β : Type} (M : List (String × List β)) (Key : String) : List (String × List β) :=
  match mapFind M Key with
  | some _ => M
  | none => M ++ [(Key, [])]

/-- The loop `for (int J = 0; J < NumImages; ++J)` of the constructor of `ImageCacheTy`,
with `n` iterations left and `P` as offset into `Buffer`: the map and the offset after
it. -/
def ImageCacheTy.readImages (Buffer : List Nat) (Key : String) :
    Nat → Nat → List (String × List Image) → Option (List (String × List Image) × Nat)
  | 0, P, Map => some (Map, P)
  | n + 1, P, Map =>
    match Image.ofBuffer (Buffer.drop P) with
    | none => none
    | some I => ImageCacheTy.readImages Buffer Key n (P + I.size) (mapEmplaceBack Map Key I)

/-- The loop `for (int I = 0; I < NumKernels; ++I)` of the constructor of `ImageCacheTy`,
with `n` iterations left: the map after it. -/
def ImageCacheTy.readKernels (Buffer : List Nat) :
    Nat → Nat → List (String × List Image) → Option (List (String × List Image))
  | 0, _, Map => some Map
  | n + 1, P, Map =>
    match Kernel.readCString Buffer P with
    | none => none
    | some Chars =>
      match Kernel.readU32 Buffer (P + Chars.length + 1) with
      | none => none
      | some NumImages =>
        match ImageCacheTy.readImages Buffer (String.mk (Chars.map Char.ofNat))
            (toInt32 NumImages).toNat (P + Chars.length + 1 + 4)
            (mapIndex Map (String.mk (Chars.map Char.ofNat))) with
        | none => none
        | some (Map1, P1) => ImageCacheTy.readKernels Buffer n P1 Map1

/-- The constructor `ImageCacheTy()`. `Env` is the value of `LIBOMPTARGET_JIT_CUDA_CACHE`,
if set; `Files` gives the bytes of the file of a name, `none` when it cannot be opened.
The string `FileName` is set up from `Env` and not read again: the stream is opened on
`CacheFileName`. `none` when the assertion on the target name fails or the buffer is read
outside its bounds. -/
def ImageCacheTy.new (Env : Option String) (Files : String → Option (List Nat)) :
    Option ImageCacheTy :=
  let _FileName : String :=
    match Env with
    | some E => E
    | none => ImageCacheTy.CacheFileName
  match Files ImageCacheTy.CacheFileName with
  | none => some { OfflineBuffer := [], NewBuffer := [], Map := [] }
  | some Buffer =>
    if Buffer = [] then some { OfflineBuffer := Buffer, NewBuffer := [], Map := [] }
    else
      match Kernel.readCString Buffer 0 with
      | none => none
      | some TargetName =>
        if TargetName ≠ "nvptx64".data.map Char.toNat then none
        else
          match Kernel.readU32 Buffer (TargetName.length + 1) with
          | none => none
          | some NumKernels =>
            match ImageCacheTy.readKernels Buffer (toInt32 NumKernels).toNat
                (TargetName.length + 1 + 4) [] with
            | none => none
            | some Map => some { OfflineBuffer := Buffer, NewBuffer := [], Map := Map }

/-- The loop `for (auto &I : P.second)` of the destructor of `ImageCacheTy`: the bytes
written, each image serialized into a zeroed buffer of `I.size()` bytes. -/
def ImageCacheTy.writeImages : List Image → Option (List Nat)
  | [] => some []
  | I :: L =>
    match I.serialize (List.replicate I.size 0), ImageCacheTy.writeImages L with
    | some B, some Rest => some (B ++ Rest)
    | _, _ => none

/-- The loop `for (auto &P : Map)` of the destructor of `ImageCacheTy`: the bytes
written. -/
def ImageCacheTy.writeKernels : List (String × List Image) → Option (List Nat)
  | [] => some []
  | (Key, L) :: M =>
    match ImageCacheTy.writeImages L, ImageCacheTy.writeKernels M with
    | some B, some Rest =>
      some (Key.data.map Char.toNat ++ [0] ++ bytesLE 4 L.length ++ B ++ Rest)
    | _, _ => none

/-- The destructor `~ImageCacheTy()`: the name of the file it writes and the bytes
written; the inner `none` when the stream cannot be opened. `Writable` tells which names
can be opened for writing. The environment is not consulted. -/
def ImageCacheTy.delete (C : ImageCacheTy) (Writable : String → Bool) :
    Option (Option (String × List Nat)) :=
  if ¬ Writable ImageCacheTy.CacheFileName then some none
  else
    match ImageCacheTy.writeKernels C.Map with
    | none => none
    | some B =>
      some (some (ImageCacheTy.CacheFileName,
        "nvptx64".data.map Char.toNat ++ [0] ++ bytesLE 4 C.Map.length ++ B))

/-- The bytes of a cache file with one kernel key, "sm_70-k", and one image under it: the
descriptor `materializedExample` and the image bytes 1, 2. -/
def cacheFileExample : List Nat :=
  [110, 118, 112, 116, 120, 54, 52, 0, 1, 0, 0, 0,
   115, 109, 95, 55, 48, 45, 107, 0, 1, 0, 0, 0] ++ serializedExample ++
  [2, 0, 0, 0, 0, 0, 0, 0, 1, 2, 0]

/-- The image cache of `cacheFileExample`. -/
def cacheFileCache : ImageCacheTy :=
  { OfflineBuffer := cacheFileExample, NewBuffer := [],
    Map := [("sm_70-k", [{ K := materializedExample, Bytes := [1, 2] }])] }

/-- A file system that holds `cacheFileExample` under the name `Path` and nothing else. -/
def filesAt (Path : String) (Name : String) : Option (List Nat) :=
  if Name = Path then some cacheFileExample else none

end jit

/-! ## Loading a JIT image -/

namespace jit

/-- `bool isSPMDMode(llvm::Module &M, llvm::StringRef KernelName)`. `ExecMode` is the
initializer of the global `<KernelName>_exec_mode`, `none` when the module has no such
global. The initializer is narrowed to `int8_t` and tested against the SPMD flag. -/
def isSPMDMode (ExecMode : Option Int) : Bool :=
  match ExecMode with
  | none => false
  | some Init => decide ((Init % 2 ^ 8).toNat &&& OMP_TGT_EXEC_MODE_SPMD.toNat ≠ 0)

end jit

namespace DeviceRTLTy

/-- The value of an `int` after conversion to `uint64_t`. -/
def toUInt64 (x : Int) : Nat := (x % 2 ^ 64).toNat

/-- Lines 1526 to 1532 of `loadJITImage`: the variable `NumThreads` before the actions are
recorded. -/
def loadJITImageNumThreads (D : DeviceDataTy) (IsSPMDMode : Bool) (ThreadLimit : Int) : Int :=
  if IsSPMDMode then
    if (if ThreadLimit ≠ 0 then ThreadLimit else D.NumThreads) > D.ThreadsPerBlock then
      D.ThreadsPerBlock
    else (if ThreadLimit ≠ 0 then ThreadLimit else D.NumThreads)
  else 0

/-- Lines 1584 to 1596 of `loadJITImage`: the variable `NumBlocks`; `none` when the
division is by zero. All operands are `int`, the division truncates. -/
def loadJITImageNumBlocks (RTL : DeviceRTLTy) (D : DeviceDataTy) (IsSPMDMode : Bool)
    (NumTeams LoopTripCount NumThreads : Int) : Option Int :=
  let Blocks : Option Int :=
    if NumTeams ≤ 0 then
      if LoopTripCount > 0 ∧ RTL.EnvNumTeams < 0 then
        if IsSPMDMode then
          if NumThreads = 0 then none
          else some (Int.tdiv (LoopTripCount - 1) NumThreads + 1)
        else some 0
      else some D.NumTeams
    else some NumTeams
  match Blocks with
  | none => none
  | some B => some (if B > D.BlocksPerGrid then D.BlocksPerGrid else B)

/-- Lines 1575 to 1600 of `loadJITImage`: the `NumThreads` and `NumTeams` actions appended
after the argument actions. The two flags tell whether the kernel function carries the
attribute `omp_target_thread_limit`, respectively `omp_target_num_teams`. -/
def geometryActions (RTL : DeviceRTLTy) (D : DeviceDataTy)
    (DisabledOptimizations : List jit.ActionKind) (HasThreadLimitAttr HasNumTeamsAttr : Bool)
    (IsSPMDMode : Bool) (NumTeams ThreadLimit LoopTripCount : Int) :
    Option (List jit.ActionTy) :=
  let NumThreads := loadJITImageNumThreads D IsSPMDMode ThreadLimit
  let Threads : List jit.ActionTy :=
    if NumThreads ≠ 0 ∧
        jit.isOptimizationEnabled DisabledOptimizations jit.ActionKind.NumThreads = true ∧
        HasThreadLimitAttr = false then
      [jit.ActionTy.ofValue jit.ActionKind.NumThreads (toUInt64 NumThreads)]
    else []
  if jit.isOptimizationEnabled DisabledOptimizations jit.ActionKind.NumTeams = true ∧
      HasNumTeamsAttr = false then
    match loadJITImageNumBlocks RTL D IsSPMDMode NumTeams LoopTripCount NumThreads with
    | none => none
    | some NumBlocks =>
      if NumBlocks ≠ 0 then
        some (Threads ++ [jit.ActionTy.ofValue jit.ActionKind.NumTeams (toUInt64 NumBlocks)])
      else some Threads
  else some Threads

/-- What `loadJITImage` learns from the module lifted from the device image and from the
code generator: whether `createFromImage` gives a module, the argument types of the
kernel function (`none` when `M.getFunction` finds none), the initializer of the
execution-mode global before optimization, the two function attributes, whether
`CodeGen.optimize()` succeeds, the initializer of the execution-mode global of the merged
module, and the bytes `CodeGen.compileOptimized()` returns. -/
structure JITModuleTy where
  createFromImage : Bool
  getFunction : Option (List jit.ArgTy)
  ExecMode : Option Int
  HasThreadLimitAttr : Bool
  HasNumTeamsAttr : Bool
  optimize : Bool
  MergedExecMode : Option Int
  compileOptimized : Option (List Nat)

/-- What `cuModuleGetGlobal` answers for one host entry. -/
inductive GlobalTy where
  | notFound : GlobalTy
  | error : GlobalTy
  | found (CUSize : Nat) : GlobalTy
  deriving DecidableEq, Repr

/-- A host entry of the image, `E->size`, with what the driver answers for it:
`cuModuleGetGlobal` and whether `dataSubmit` succeeds. -/
structure EntryTy where
  size : Nat
  cuModuleGetGlobal : GlobalTy
  dataSubmit : Bool
  deriving DecidableEq, Repr

/-- What the driver answers after specialization: whether `loadCUmodule` gives a module,
the host entries, and the table `processCUmodule` returns, `0` for `nullptr`. -/
structure JITDriverTy where
  loadCUmodule : Bool
  Entries : List EntryTy
  processCUmodule : Nat
  deriving DecidableEq, Repr

/-- The two caches `loadJITImage` reads and writes: `jit::ImageCache` and
`TargetTableCaches[DeviceId]`. -/
structure JITCachesTy where
  ImageCache : jit.ImageCacheTy
  TableCache : jit.TargetTableCache
  deriving DecidableEq, Repr

/-- The loop over the host entries of lines 1730 to 1759; `false` when it leaves
`loadJITImage` with `nullptr`. -/
def loadJITImageGlobals : List EntryTy → Bool
  | [] => true
  | E :: Es =>
    if E.size = 0 then loadJITImageGlobals Es
    else
      match E.cuModuleGetGlobal with
      | GlobalTy.notFound => loadJITImageGlobals Es
      | GlobalTy.error => false
      | GlobalTy.found CUSize =>
        if CUSize ≠ E.size then false
        else if E.dataSubmit = false then false
        else loadJITImageGlobals Es

/-- Lines 1651 to 1676 of `loadJITImage`: the variable `NumThreads` the register budget is
computed from. `fail` stands for the `return nullptr` on a missing execution-mode global,
`undefined` for the failed assertion `NumThreads == 0` and for an overflow of `int`. -/
def registerThreads (D : DeviceDataTy) (IsSPMDMode : Bool) (NumThreads : Int)
    (MergedExecMode : Option Int) (ThreadLimit : Int) : Outcome Int :=
  if IsSPMDMode then Outcome.ok NumThreads
  else
    match MergedExecMode with
    | none => Outcome.fail
    | some Init =>
      if NumThreads ≠ 0 then Outcome.undefined
      else if jit.isSPMDMode (some Init) then
        Outcome.ok
          (if (if ThreadLimit ≠ 0 then ThreadLimit else D.NumThreads) > D.ThreadsPerBlock then
            D.ThreadsPerBlock
          else (if ThreadLimit ≠ 0 then ThreadLimit else D.NumThreads))
      else if (if ThreadLimit ≠ 0 then ThreadLimit else D.NumThreads) + D.WarpSize > INT_MAX ∨
          (if ThreadLimit ≠ 0 then ThreadLimit else D.NumThreads) + D.WarpSize < INT_MIN then
        Outcome.undefined
      else
        Outcome.ok
          (if (if ThreadLimit ≠ 0 then ThreadLimit else D.NumThreads) + D.WarpSize >
              D.ThreadsPerBlock then D.ThreadsPerBlock
          else (if ThreadLimit ≠ 0 then ThreadLimit else D.NumThreads) + D.WarpSize)

/-- Lines 1498 to 1682 of `loadJITImage`, the block `if (!FoundImage)` up to the call of
`ImageCache.insert`: the descriptor with its mask and the compiled bytes. The inner `none`
is a `return nullptr`; the outer `none` is a run without defined result. The attributes
and constants written into the module are not part of the embedding. -/
def loadJITImageSpecialize (RTL : DeviceRTLTy) (D : DeviceDataTy)
    (DisabledOptimizations : List jit.ActionKind) (M : JITModuleTy) (Name : String)
    (Args : List Nat) (NumTeams ThreadLimit LoopTripCount : Int) :
    Option (Option (jit.Kernel × List Nat)) :=
  if M.createFromImage = false then some none
  else
    match M.getFunction with
    | none => some none
    | some ArgTys =>
      if ArgTys.length ≠ Args.length then some none
      else
        match geometryActions RTL D DisabledOptimizations M.HasThreadLimitAttr
            M.HasNumTeamsAttr (jit.isSPMDMode M.ExecMode) NumTeams ThreadLimit
            LoopTripCount with
        | none => none
        | some Geometry =>
          match jit.loadJITImageKernel DisabledOptimizations Name ArgTys Args
              (toUnsigned NumTeams) (toUnsigned ThreadLimit) Geometry with
          | none => none
          | some Kernel =>
            if M.optimize = false then some none
            else
              match registerThreads D (jit.isSPMDMode M.ExecMode)
                  (loadJITImageNumThreads D (jit.isSPMDMode M.ExecMode) ThreadLimit)
                  M.MergedExecMode ThreadLimit with
              | Outcome.undefined => none
              | Outcome.fail => some none
              | Outcome.ok NumThreads =>
                if NumThreads = 0 then none
                else if D.MaxRegisters = INT_MIN ∧ NumThreads = -1 then none
                else
                  match M.compileOptimized with
                  | none => some none
                  | some OutputBuffer => some (some (Kernel, OutputBuffer))

/-- Lines 1717 to 1767 of `loadJITImage`: the module is loaded, the globals are
initialised, the table is built and entered into the table cache. The result is the
caches afterwards and the table returned, `0` for `nullptr`. -/
def loadJITImageTail (S : JITCachesTy) (Drv : JITDriverTy) (Kernel : jit.Kernel) :
    Option (JITCachesTy × Nat) :=
  if Drv.loadCUmodule = false then some (S, 0)
  else if loadJITImageGlobals Drv.Entries = false then some (S, 0)
  else if Drv.processCUmodule = 0 then some (S, 0)
  else
    match S.TableCache.insert Kernel Drv.processCUmodule with
    | none => none
    | some (TableCache, _) => some ({ S with TableCache := TableCache }, Drv.processCUmodule)

/-- `__tgt_target_table *DeviceRTLTy::loadJITImage(...)`: the caches after the call and
the table returned, `0` for `nullptr`. `D` is `DeviceData[DeviceId]`, `SM` its compute
capability as a string, `Name` is `Entry->name`, `Args` holds the `NumArgs` argument
words. `none` is a run without defined result. -/
def loadJITImage (RTL : DeviceRTLTy) (D : DeviceDataTy) (SM : String)
    (DisabledOptimizations : List jit.ActionKind) (S : JITCachesTy) (M : JITModuleTy)
    (Drv : JITDriverTy) (Name : String) (Args : List Nat)
    (NumTeams ThreadLimit LoopTripCount : Int) : Option (JITCachesTy × Nat) :=
  match S.TableCache.get (jit.launchRequest DisabledOptimizations Name Args
      (toUnsigned NumTeams) (toUnsigned ThreadLimit)) with
  | none => none
  | some T =>
    if T ≠ 0 then some (S, T)
    else
      match S.ImageCache.get (SM ++ "-" ++ Name)
          (jit.launchRequest DisabledOptimizations Name Args (toUnsigned NumTeams)
            (toUnsigned ThreadLimit)) with
      | none => none
      | some (some I) =>
        match (jit.launchRequest DisabledOptimizations Name Args (toUnsigned NumTeams)
            (toUnsigned ThreadLimit)).setMaskFrom I.K with
        | none => none
        | some Kernel => loadJITImageTail S Drv Kernel
      | some none =>
        match loadJITImageSpecialize RTL D DisabledOptimizations M Name Args NumTeams
            ThreadLimit LoopTripCount with
        | none => none
        | some none => some (S, 0)
        | some (some (Kernel, OutputBuffer)) =>
          match S.ImageCache.insert (SM ++ "-" ++ Name) Kernel OutputBuffer with
          | none => none
          | some (ImageCache, _) =>
            loadJITImageTail { S with ImageCache := ImageCache } Drv Kernel

/-- A module with the SPMD kernel "saxpy", which takes one pointer; its compilation
succeeds and gives the bytes 1, 2. -/
def moduleExample : JITModuleTy :=
  { createFromImage := true, getFunction := some [jit.ArgTy.pointer],
    ExecMode := some OMP_TGT_EXEC_MODE_SPMD, HasThreadLimitAttr := false,
    HasNumTeamsAttr := false, optimize := true,
    MergedExecMode := some OMP_TGT_EXEC_MODE_SPMD, compileOptimized := some [1, 2] }

/-- A driver that loads the module and returns the table at address 4096. -/
def jitDriverExample : JITDriverTy :=
  { loadCUmodule := true, Entries := [{ size := 0, cuModuleGetGlobal := GlobalTy.notFound,
                                        dataSubmit := true }],
    processCUmodule := 4096 }

/-- Both caches empty. -/
def cachesEmpty : JITCachesTy :=
  { ImageCache := jit.ImageCacheTy.empty, TableCache := { Map := [] } }

end DeviceRTLTy

namespace DeviceRTLTy

/-- A module with the kernel "saxpy" taking one scalar; otherwise as `moduleExample`. -/
def moduleScalar : JITModuleTy := { moduleExample with getFunction := some [jit.ArgTy.scalar] }

/-- A module whose kernel "saxpy" runs in Generic-transformed-to-SPMD mode; otherwise as
`moduleExample`. -/
def moduleGenericSPMD : JITModuleTy :=
  { moduleExample with ExecMode := some OMP_TGT_EXEC_MODE_GENERIC_SPMD,
                       MergedExecMode := some OMP_TGT_EXEC_MODE_GENERIC_SPMD }

/-- A module without the kernel function; otherwise as `moduleExample`. -/
def moduleNoKernel : JITModuleTy := { moduleExample with getFunction := none }

/-- A driver whose `loadCUmodule` fails. -/
def jitDriverLoadFails : JITDriverTy := { jitDriverExample with loadCUmodule := false }

/-- A driver that reports 8 bytes for a global the host declares with 4 bytes. -/
def jitDriverSizeMismatch : JITDriverTy :=
  { jitDriverExample with
    Entries := [{ size := 4, cuModuleGetGlobal := GlobalTy.found 8, dataSubmit := true }] }

/-- The descriptor cached for the launch of "saxpy" with the pointer `0x1000`, no team
count requested and a thread limit of 128. -/
def cachedSaxpy : jit.Kernel :=
  { Name := "saxpy", NumTeams := 0, NumThreads := 128, NumArgs := 1,
    ArgumentsBuffer := [0x1000], Mask := [127], Arguments := jit.ArgPtr.buffer }

/-- The image cache after that launch. -/
def imageCacheSaxpy : jit.ImageCacheTy :=
  { OfflineBuffer := [], NewBuffer := [[1, 2]],
    Map := [("sm_70-saxpy", [{ K := cachedSaxpy, Bytes := [1, 2] }])] }

/-- Both caches after that launch. -/
def cachesSaxpy : JITCachesTy :=
  { ImageCache := imageCacheSaxpy,
    TableCache := { Map := [("saxpy", [{ K := cachedSaxpy, Table := 4096 }])] } }

/-- The descriptor cached for the launch of "saxpy" with the scalar 5, 4 teams and a
thread limit of 128. -/
def cachedScalar : jit.Kernel :=
  { Name := "saxpy", NumTeams := 4, NumThreads := 128, NumArgs := 1,
    ArgumentsBuffer := [5], Mask := [5], Arguments := jit.ArgPtr.buffer }

/-- Both caches after that launch. -/
def cachesScalar : JITCachesTy :=
  { ImageCache := { OfflineBuffer := [], NewBuffer := [[1, 2]],
                    Map := [("sm_70-saxpy", [{ K := cachedScalar, Bytes := [1, 2] }])] },
    TableCache := { Map := [("saxpy", [{ K := cachedScalar, Table := 4096 }])] } }

end DeviceRTLTy

/-! ## Resource pool, handles in use -/

namespace ResourcePoolTy

/-- One call on a pool: `acquire`, or `release` with the handle given back. -/
inductive PoolOp where
  | acquire : PoolOp
  | release (R : Nat) : PoolOp
  deriving DecidableEq, Repr

/-- A pool together with the handles its callers hold: those `acquire` has handed out and
`release` has not yet taken back. The list is bookkeeping of the callers, the pool itself
does not store it. -/
structure PoolTrace where
  Pool : ResourcePoolTy
  Held : List Nat
  deriving DecidableEq, Repr

/-- The effect of one call: a successful `acquire` adds the handle to the held ones, a
failed one only leaves the pool it grew; `release` takes the handle off the held ones.
`none` when the call has no defined result. -/
def stepOp (Allocator : Nat → Option Nat) (S : PoolTrace) : PoolOp → Option PoolTrace
  | PoolOp.acquire =>
    match acquire Allocator S.Pool with
    | (P1, Outcome.ok R) => some { Pool := P1, Held := R :: S.Held }
    | (P1, Outcome.fail) => some { Pool := P1, Held := S.Held }
    | (_, Outcome.undefined) => none
  | PoolOp.release R =>
    match release S.Pool R with
    | some P1 => some { Pool := P1, Held := S.Held.erase R }
    | none => none

/-- The effect of a sequence of calls, first call first. -/
def runOps (Allocator : Nat → Option Nat) : List PoolOp → PoolTrace → Option PoolTrace
  | [], S => some S
  | Op :: Ops, S =>
    match stepOp Allocator S Op with
    | none => none
    | some S1 => runOps Allocator Ops S1

/-- Every `release` of the sequence gives back a handle that is held at that moment. -/
def releasesHeld (Allocator : Nat → Option Nat) : List PoolOp → PoolTrace → Bool
  | [], _ => true
  | Op :: Ops, S =>
    (match Op with
      | PoolOp.acquire => true
      | PoolOp.release R => decide (R ∈ S.Held)) &&
    (match stepOp Allocator S Op with
      | none => true
      | some S1 => releasesHeld Allocator Ops S1)

/-- The available region `[Next, size)` together with the held handles is free of
duplicates, the cursor counts the held handles and lies inside the buffer, and no later
call of the allocator returns one of these handles again. -/
def HandlesDistinct (Allocator : Nat → Option Nat) (S : PoolTrace) : Prop :=
  S.Pool.Next ≤ S.Pool.Resources.length ∧ S.Held.length = S.Pool.Next ∧
    (S.Pool.Resources.drop S.Pool.Next ++ S.Held).Nodup ∧
    ∀ R, R ∈ S.Pool.Resources.drop S.Pool.Next ++ S.Held →
      ∀ k, S.Pool.Created ≤ k → Allocator k ≠ some R

/-- The calls acquire, acquire, release of the first handle, acquire. -/
def opsExample : List PoolOp :=
  [PoolOp.acquire, PoolOp.acquire, PoolOp.release 1000, PoolOp.acquire]

/-- `void ResourcePoolTy::clear()`: the pool afterwards and the handles passed to
`Allocator.destroy`, one for every slot of the buffer, in order. -/
def clear (P : ResourcePoolTy) : ResourcePoolTy × List Nat :=
  ({ P with Resources := [] }, P.Resources)

end ResourcePoolTy

/-! ## Matching -/

namespace jit

namespace Kernel

theorem matchLoop_eq_true_iff (A K : Kernel) (n I : Nat) :
    matchLoop A K n I = some true ↔
      ∀ j, j < n → ∃ a m k, A.argAt (I + j) = some a ∧ A.Mask[I + j]? = some m ∧
        K.argAt (I + j) = some k ∧ a &&& m = k &&& m := by
  induction n generalizing I with
  | zero => simp [matchLoop]
  | succ n ih =>
    constructor
    · intro h j hj
      unfold matchLoop at h
      split at h
      · rename_i a m k ha hm hk
        split at h
        · simp at h
        · rename_i hne
          rcases Nat.eq_zero_or_pos j with rfl | hpos
          · exact ⟨a, m, k, by simpa using ha, by simpa using hm, by simpa using hk,
              by simpa using hne⟩
          · have := (ih (I + 1)).1 h (j - 1) (by omega)
            have e : I + 1 + (j - 1) = I + j := by omega
            rwa [e] at this
      · simp at h
    · intro h
      obtain ⟨a, m, k, ha, hm, hk, hbits⟩ := h 0 (by omega)
      simp only [Nat.add_zero] at ha hm hk
      unfold matchLoop
      simp only [ha, hm, hk, hbits, ne_eq, not_true_eq_false, if_false]
      refine (ih (I + 1)).2 ?_
      intro j hj
      have := h (j + 1) (by omega)
      have e : I + (j + 1) = I + 1 + j := by omega
      rwa [e] at this

theorem matchLoop_isSome (A K : Kernel) (n I : Nat)
    (h : ∀ j, j < n → (A.argAt (I + j)).isSome ∧ (A.Mask[I + j]?).isSome ∧
      (K.argAt (I + j)).isSome) :
    (matchLoop A K n I).isSome := by
  induction n generalizing I with
  | zero => simp [matchLoop]
  | succ n ih =>
    obtain ⟨ha, hm, hk⟩ := h 0 (by omega)
    simp only [Nat.add_zero] at ha hm hk
    obtain ⟨a, ha⟩ := Option.isSome_iff_exists.1 ha
    obtain ⟨m, hm⟩ := Option.isSome_iff_exists.1 hm
    obtain ⟨k, hk⟩ := Option.isSome_iff_exists.1 hk
    unfold matchLoop
    simp only [ha, hm, hk]
    split
    · simp
    · refine ih (I + 1) ?_
      intro j hj
      have := h (j + 1) (by omega)
      have e : I + (j + 1) = I + 1 + j := by omega
      rwa [e] at this

end Kernel

end jit

namespace jit

namespace Kernel

theorem matchLoop_congr (A K K2 : Kernel) (h : ∀ i, K2.argAt i = K.argAt i) (n I : Nat) :
    matchLoop A K2 n I = matchLoop A K n I := by
  induction n generalizing I with
  | zero => rfl
  | succ n ih => simp only [matchLoop, h, ih]

theorem opEq_congr (A K K2 : Kernel) (hArgs : K2.Arguments = K.Arguments)
    (hBuf : K2.ArgumentsBuffer = K.ArgumentsBuffer) (hNum : K2.NumArgs = K.NumArgs)
    (hTeams : K2.NumTeams = K.NumTeams) (hThreads : K2.NumThreads = K.NumThreads) :
    A.opEq K2 = A.opEq K := by
  have h : ∀ i, K2.argAt i = K.argAt i := by
    intro i
    simp only [argAt, hArgs, hBuf]
  simp only [opEq, match_, hNum, hTeams, hThreads, matchLoop_congr A K K2 h]

theorem opEq_eq_matchLoop (A B : Kernel) (hA : A.Owned) (hArgs : A.NumArgs = B.NumArgs)
    (hTeams : A.NumTeams = B.NumTeams) (hThreads : A.NumThreads = B.NumThreads) :
    A.opEq B = matchLoop A B A.NumArgs 0 := by
  obtain ⟨h1, h2, h3⟩ := hA
  simp [opEq, match_, h1, h2, h3, hArgs, hTeams, hThreads]

theorem argAt_isSome_of_owned (A : Kernel) (hA : A.Owned) (i : Nat) (hi : i < A.NumArgs) :
    (A.argAt i).isSome ∧ (A.Mask[i]?).isSome := by
  obtain ⟨h1, h2, h3⟩ := hA
  constructor
  · simp only [argAt, h1]
    rw [List.getElem?_eq_getElem (by omega)]
    rfl
  · rw [List.getElem?_eq_getElem (by omega)]
    rfl

end Kernel

end jit

namespace jit

/-- C1: a cached descriptor `A` that owns its arguments and has a mask of `NumArgs` words
matches every descriptor `B` of the same name, team count, thread count and argument
count whose arguments agree with those of `A` on the bits of the mask of `A`; bits
outside that mask are never looked at. -/
theorem Kernel.opEq_of_masked_bits_agree (A B : Kernel) (hA : A.Owned) (hB : B.Readable)
    (_hName : A.Name = B.Name) (hTeams : A.NumTeams = B.NumTeams)
    (hThreads : A.NumThreads = B.NumThreads) (hArgs : A.NumArgs = B.NumArgs)
    (hBits : ∀ i a b m, A.argAt i = some a → B.argAt i = some b → A.Mask[i]? = some m →
      a &&& m = b &&& m) :
    A.opEq B = some true := by
  rw [Kernel.opEq_eq_matchLoop A B hA hArgs hTeams hThreads,
    Kernel.matchLoop_eq_true_iff]
  intro j hj
  obtain ⟨ha, hm⟩ := Kernel.argAt_isSome_of_owned A hA j hj
  have hb := hB j (hArgs ▸ hj)
  obtain ⟨a, ha⟩ := Option.isSome_iff_exists.1 ha
  obtain ⟨m, hm⟩ := Option.isSome_iff_exists.1 hm
  obtain ⟨b, hb⟩ := Option.isSome_iff_exists.1 hb
  refine ⟨a, m, b, ?_, ?_, ?_, hBits j a b m ha hb hm⟩
  · simpa using ha
  · simpa using hm
  · simpa using hb

/-- C1, witness: `queryExample` differs from `cachedExample` in bits outside the mask
(`0x...10a8` against `0x...1000` under the mask `0x...ff00`) and is matched. -/
theorem Kernel.opEq_of_masked_bits_agree_witness :
    cachedExample.argAt 0 ≠ queryExample.argAt 0 ∧
      cachedExample.opEq queryExample = some true :=
  ⟨by decide,
   Kernel.opEq_of_masked_bits_agree cachedExample queryExample
    ⟨rfl, rfl, rfl⟩
    (by
      intro i hi
      have hi2 : i < 2 := hi
      interval_cases i <;> rfl)
    rfl rfl rfl rfl
    (by
      intro i a b m ha hb hm
      match i with
      | 0 =>
        simp [Kernel.argAt, cachedExample, queryExample, Kernel.setArgs, Kernel.setNumTeams,
          Kernel.setNumThreads, Kernel.new] at ha hb hm
        subst ha hb hm
        decide
      | 1 =>
        simp [Kernel.argAt, cachedExample, queryExample, Kernel.setArgs, Kernel.setNumTeams,
          Kernel.setNumThreads, Kernel.new] at ha hb hm
        subst ha hb hm
        decide
      | n + 2 =>
        simp [Kernel.argAt, cachedExample] at ha)⟩

end jit

namespace jit

/-- C2: when `A == B` returns true the two descriptors have the same argument count, team
count and thread count and every argument agrees on the bits of the mask of `A`;
conversely, for an owned `A` and a readable `B`, a difference in one of the counts or in
a masked bit makes `A == B` return false. -/
theorem Kernel.opEq_true_imp_agree (A B : Kernel) :
    (A.opEq B = some true →
      A.NumArgs = B.NumArgs ∧ A.NumTeams = B.NumTeams ∧ A.NumThreads = B.NumThreads ∧
        ∀ i, i < A.NumArgs → ∃ a b m, A.argAt i = some a ∧ B.argAt i = some b ∧
          A.Mask[i]? = some m ∧ a &&& m = b &&& m) ∧
    (A.Owned → B.Readable →
      (A.NumArgs ≠ B.NumArgs ∨ A.NumTeams ≠ B.NumTeams ∨ A.NumThreads ≠ B.NumThreads ∨
        ∃ i a b m, A.argAt i = some a ∧ B.argAt i = some b ∧ A.Mask[i]? = some m ∧
          a &&& m ≠ b &&& m) →
      A.opEq B = some false) := by
  have key : A.opEq B = some true →
      A.NumArgs = B.NumArgs ∧ A.NumTeams = B.NumTeams ∧ A.NumThreads = B.NumThreads ∧
        ∀ i, i < A.NumArgs → ∃ a b m, A.argAt i = some a ∧ B.argAt i = some b ∧
          A.Mask[i]? = some m ∧ a &&& m = b &&& m := by
    intro h
    unfold Kernel.opEq Kernel.match_ at h
    split at h
    · simp at h
    split at h
    · simp at h
    split at h
    · simp at h
    split at h
    · simp at h
    rename_i _ _ hN hT
    have hN2 : A.NumArgs = B.NumArgs := by simpa using hN
    have hT2 : A.NumTeams = B.NumTeams ∧ A.NumThreads = B.NumThreads := by
      constructor <;> by_contra hc <;> simp [hc] at hT
    refine ⟨hN2, hT2.1, hT2.2, ?_⟩
    intro i hi
    obtain ⟨a, m, b, ha, hm, hb, hab⟩ := (Kernel.matchLoop_eq_true_iff A B _ 0).1 h i hi
    exact ⟨a, b, m, by simpa using ha, by simpa using hb, by simpa using hm, hab⟩
  refine ⟨key, ?_⟩
  intro hA hB hdiff
  by_cases hN : A.NumArgs = B.NumArgs
  swap
  · obtain ⟨h1, h2, h3⟩ := hA
    simp [Kernel.opEq, Kernel.match_, h1, h2, h3, hN]
  by_cases hT : A.NumTeams = B.NumTeams ∧ A.NumThreads = B.NumThreads
  swap
  · obtain ⟨h1, h2, h3⟩ := hA
    have hT2 : A.NumTeams ≠ B.NumTeams ∨ A.NumThreads ≠ B.NumThreads := by
      by_contra hc
      push_neg at hc
      exact hT hc
    simp [Kernel.opEq, Kernel.match_, h1, h2, h3, hN, hT2]
  have hsome : (A.opEq B).isSome := by
    rw [Kernel.opEq_eq_matchLoop A B hA hN hT.1 hT.2]
    refine Kernel.matchLoop_isSome A B _ 0 ?_
    intro j hj
    obtain ⟨ha, hm⟩ := Kernel.argAt_isSome_of_owned A hA j hj
    have hb := hB j (hN ▸ hj)
    simp only [Nat.zero_add]
    exact ⟨ha, hm, hb⟩
  obtain ⟨r, hr⟩ := Option.isSome_iff_exists.1 hsome
  cases r with
  | false => exact hr
  | true =>
    exfalso
    obtain ⟨_, _, _, hall⟩ := key hr
    rcases hdiff with h | h | h | ⟨i, a, b, m, ha, hb, hm, hne⟩
    · exact h hN
    · exact h hT.1
    · exact h hT.2
    · have hi : i < A.NumArgs := by
        obtain ⟨h1, h2, h3⟩ := hA
        have : i < A.Mask.length := by
          by_contra hc
          rw [List.getElem?_eq_none (by omega)] at hm
          simp at hm
        omega
      obtain ⟨a2, b2, m2, ha2, hb2, hm2, hab⟩ := hall i hi
      rw [ha] at ha2
      rw [hb] at hb2
      rw [hm] at hm2
      cases ha2
      cases hb2
      cases hm2
      exact hne hab

/-- C2, witness: `cachedExample` matches `queryExample`, so counts and masked bits agree;
a request for 8 teams instead of 4 is answered with false. -/
theorem Kernel.opEq_true_imp_agree_witness :
    (cachedExample.NumArgs = queryExample.NumArgs ∧
      cachedExample.NumTeams = queryExample.NumTeams ∧
      cachedExample.NumThreads = queryExample.NumThreads ∧
      ∀ i, i < cachedExample.NumArgs → ∃ a b m, cachedExample.argAt i = some a ∧
        queryExample.argAt i = some b ∧ cachedExample.Mask[i]? = some m ∧
        a &&& m = b &&& m) ∧
    cachedExample.opEq (queryExample.setNumTeams 8) = some false :=
  ⟨(Kernel.opEq_true_imp_agree cachedExample queryExample).1 (by decide),
   (Kernel.opEq_true_imp_agree cachedExample (queryExample.setNumTeams 8)).2
     ⟨rfl, rfl, rfl⟩
     (by
       intro i hi
       have hi2 : i < 2 := hi
       interval_cases i <;> rfl)
     (Or.inr (Or.inl (by decide)))⟩

end jit

namespace jit

theorem mapFind_mem {β : Type} (M : List (String × β)) (Key : String) (v : β)
    (h : mapFind M Key = some v) : (Key, v) ∈ M := by
  induction M with
  | nil => simp [mapFind] at h
  | cons p M ih =>
    obtain ⟨k, w⟩ := p
    unfold mapFind at h
    split at h
    · rename_i hk
      cases h
      subst hk
      exact List.mem_cons_self _ _
    · exact List.mem_cons_of_mem _ (ih h)

theorem mem_mapEmplaceBack {β : Type} (M : List (String × List β)) (Key : String) (x : β)
    (k : String) (L : List β) (h : (k, L) ∈ mapEmplaceBack M Key x) :
    (k, L) ∈ M ∨ (k = Key ∧ ∃ L0, L = L0 ++ [x] ∧ (L0 = [] ∨ (Key, L0) ∈ M)) := by
  induction M with
  | nil =>
    simp only [mapEmplaceBack, List.mem_singleton, Prod.mk.injEq] at h
    exact Or.inr ⟨h.1, [], by simp [h.2], Or.inl rfl⟩
  | cons p M ih =>
    obtain ⟨k0, L0⟩ := p
    unfold mapEmplaceBack at h
    split at h
    · rename_i hk
      rcases List.mem_cons.1 h with h | h
      · simp only [Prod.mk.injEq] at h
        refine Or.inr ⟨h.1.trans hk, L0, h.2, Or.inr ?_⟩
        subst hk
        exact List.mem_cons_self _ _
      · exact Or.inl (List.mem_cons_of_mem _ h)
    · rcases List.mem_cons.1 h with h | h
      · exact Or.inl (h ▸ List.mem_cons_self _ _)
      · rcases ih h with h | ⟨hk, L1, hL, hmem⟩
        · exact Or.inl (List.mem_cons_of_mem _ h)
        · refine Or.inr ⟨hk, L1, hL, ?_⟩
          rcases hmem with h | h
          · exact Or.inl h
          · exact Or.inr (List.mem_cons_of_mem _ h)

theorem TargetTableCache.tableGetLoop_found (K : Kernel) (L : List TargetTable) (p : Nat)
    (h : TargetTableCache.getLoop K L = some p) (hp : p ≠ 0) :
    ∃ T, T ∈ L ∧ T.K.opEq K = some true ∧ T.Table = p := by
  induction L with
  | nil =>
    simp only [TargetTableCache.getLoop, Option.some.injEq] at h
    exact absurd h.symm hp
  | cons T L ih =>
    unfold TargetTableCache.getLoop at h
    split at h
    · simp at h
    · rename_i hm
      simp only [Option.some.injEq] at h
      exact ⟨T, List.mem_cons_self _ _, hm, h⟩
    · obtain ⟨T2, hmem, h2⟩ := ih h
      exact ⟨T2, List.mem_cons_of_mem _ hmem, h2⟩

/-- C3, as the specification states it, fails: `cachedExample` ("saxpy") and
`renamedExample` ("daxpy") have different names and still `==` returns true. -/
theorem Kernel.opEq_names_differ_counterexample :
    cachedExample.Name ≠ renamedExample.Name ∧
      cachedExample.opEq renamedExample = some true := by
  decide

/-- C3, amended: `Kernel::match` never reads a name, so `A == B` gives the same answer
whatever the two names are. Names are told apart by the cache instead:
`TargetTableCache::insert` files a descriptor under its own name, and a table that
`TargetTableCache::get` returns belongs to an entry of the same name as the query that
matches the query. -/
theorem Kernel.opEq_ignores_name :
    (∀ (A B : Kernel) (n : String),
      A.opEq { B with Name := n } = A.opEq B ∧ Kernel.opEq { A with Name := n } B = A.opEq B) ∧
    (∀ (C C2 : TargetTableCache) (K : Kernel) (Table p : Nat),
      C.NameKeyed → C.insert K Table = some (C2, p) → C2.NameKeyed) ∧
    (∀ (C : TargetTableCache) (K : Kernel) (p : Nat),
      C.NameKeyed → C.get K = some p → p ≠ 0 →
        ∃ L T, mapFind C.Map K.Name = some L ∧ T ∈ L ∧ T.K.Name = K.Name ∧
          T.K.opEq K = some true ∧ T.Table = p) := by
  refine ⟨?_, ?_, ?_⟩
  · intro A B n
    refine ⟨Kernel.opEq_congr A B _ rfl rfl rfl rfl rfl, ?_⟩
    have h : ∀ m I, Kernel.matchLoop { A with Name := n } B m I = Kernel.matchLoop A B m I := by
      intro m
      induction m with
      | zero => intro I; rfl
      | succ m ih =>
        intro I
        simp only [Kernel.matchLoop, ih]
        rfl
    simp only [Kernel.opEq, Kernel.match_, h]
  · intro C C2 K Table p hC hins
    unfold TargetTableCache.insert at hins
    split at hins
    · simp at hins
    · split at hins
      · simp only [Option.some.injEq, Prod.mk.injEq] at hins
        rw [← hins.1]
        exact hC
      · simp only [Option.some.injEq, Prod.mk.injEq] at hins
        rw [← hins.1]
        intro k L T hkL hT
        rcases mem_mapEmplaceBack _ _ _ _ _ hkL with h | ⟨hk, L0, hL, hL0⟩
        · exact hC k L T h hT
        · subst hL
          rcases List.mem_append.1 hT with h | h
          · rcases hL0 with h0 | h0
            · subst h0
              simp at h
            · rw [hk]
              exact hC _ _ _ h0 h
          · simp only [List.mem_singleton] at h
            rw [h, hk]
            rfl
  · intro C K p hC hget hp
    unfold TargetTableCache.get at hget
    split at hget
    · simp only [Option.some.injEq] at hget
      exact absurd hget.symm hp
    · rename_i L hL
      obtain ⟨T, hmem, hmatch, hT⟩ := TargetTableCache.tableGetLoop_found K L p hget hp
      exact ⟨L, T, hL, hmem, hC _ _ _ (mapFind_mem _ _ _ hL) hmem, hmatch, hT⟩

end jit

namespace jit

/-- C3, witness: the cache obtained by inserting `cachedExample` into an empty cache
files it under "saxpy", and the table returned for `queryExample` comes from that entry
of the same name. -/
theorem Kernel.opEq_ignores_name_witness :
    ∃ L T, mapFind tableCacheExample.Map queryExample.Name = some L ∧ T ∈ L ∧
      T.K.Name = queryExample.Name ∧ T.K.opEq queryExample = some true ∧ T.Table = 4096 :=
  Kernel.opEq_ignores_name.2.2 tableCacheExample queryExample 4096
    (Kernel.opEq_ignores_name.2.1 { Map := [] } tableCacheExample cachedExample 4096 4096
      (by intro k L T h; simp at h) (by decide))
    (by decide) (by decide)

theorem ImageCacheTy.imageGetLoop_congr (K K2 : Kernel) (h : ∀ A : Kernel, A.opEq K2 = A.opEq K)
    (L : List Image) : ImageCacheTy.getLoop K2 L = ImageCacheTy.getLoop K L := by
  induction L with
  | nil => rfl
  | cons I L ih => simp only [ImageCacheTy.getLoop, Image.match_, h, ih]

theorem TargetTableCache.tableGetLoop_congr (K K2 : Kernel)
    (h : ∀ A : Kernel, A.opEq K2 = A.opEq K) (L : List TargetTable) :
    TargetTableCache.getLoop K2 L = TargetTableCache.getLoop K L := by
  induction L with
  | nil => rfl
  | cons T L ih => simp only [TargetTableCache.getLoop, TargetTable.match_, h, ih]

theorem ImageCacheTy.imageGetLoop_found (K : Kernel) (L : List Image) (I : Image)
    (h : ImageCacheTy.getLoop K L = some (some I)) : I ∈ L ∧ I.K.opEq K = some true := by
  induction L with
  | nil => simp [ImageCacheTy.getLoop] at h
  | cons J L ih =>
    unfold ImageCacheTy.getLoop at h
    split at h
    · simp at h
    · rename_i hm
      simp only [Option.some.injEq] at h
      subst h
      exact ⟨List.mem_cons_self _ _, hm⟩
    · exact ⟨List.mem_cons_of_mem _ (ih h).1, (ih h).2⟩

/-- C4: only the mask of the left operand of `==` is read, and the caches put their own
entry there. Replacing the mask of the query `B` by any other mask `M` changes neither
`A == B` nor the result of `ImageCacheTy::get` or `TargetTableCache::get`;
`Image::match` and `TargetTable::match` are `==` with the stored descriptor on the left,
and an entry that one of the two `get` functions returns is one whose own descriptor,
on the left of `==`, matches the query. -/
theorem Kernel.opEq_mask_of_query_unused (A B : Kernel) (M : List Nat) (I : Image)
    (T : TargetTable) (IC : ImageCacheTy) (Key : String) (TC : TargetTableCache) :
    A.opEq { B with Mask := M } = A.opEq B ∧
      I.match_ B = I.K.opEq B ∧ T.match_ B = T.K.opEq B ∧
      IC.get Key { B with Mask := M } = IC.get Key B ∧
      TC.get { B with Mask := M } = TC.get B ∧
      (∀ J, IC.get Key B = some (some J) → J.K.opEq B = some true) ∧
      (∀ p, TC.get B = some p → p ≠ 0 →
        ∃ E : TargetTable, E.K.opEq B = some true ∧ E.Table = p) := by
  have h : ∀ A : Kernel, A.opEq { B with Mask := M } = A.opEq B :=
    fun A => Kernel.opEq_congr A B _ rfl rfl rfl rfl rfl
  refine ⟨h A, rfl, rfl, ?_, ?_, ?_, ?_⟩
  · simp only [ImageCacheTy.get, ImageCacheTy.imageGetLoop_congr B _ h]
  · simp only [TargetTableCache.get, TargetTableCache.tableGetLoop_congr B _ h]
  · intro J hJ
    unfold ImageCacheTy.get at hJ
    split at hJ
    · simp at hJ
    · exact (ImageCacheTy.imageGetLoop_found B _ J hJ).2
  · intro p hp hne
    unfold TargetTableCache.get at hp
    split at hp
    · simp only [Option.some.injEq] at hp
      exact absurd hp.symm hne
    · obtain ⟨E, _, hE, hT⟩ := TargetTableCache.tableGetLoop_found B _ p hp hne
      exact ⟨E, hE, hT⟩

/-- C4, witness: the image and table caches that hold `cachedExample` answer the request
`queryExample`, whose own mask is empty, with their entry, and the entry matches with
its descriptor on the left. -/
theorem Kernel.opEq_mask_of_query_unused_witness :
    cachedExample.opEq queryExample = some true ∧
      ∃ E : TargetTable, E.K.opEq queryExample = some true ∧ E.Table = 4096 :=
  ⟨(Kernel.opEq_mask_of_query_unused cachedExample queryExample [] ⟨cachedExample, [1, 2]⟩
      ⟨cachedExample, 4096⟩ imageCacheExample "sm_70-saxpy" tableCacheExample).2.2.2.2.2.1
      ⟨cachedExample, [1, 2]⟩ (by decide),
   (Kernel.opEq_mask_of_query_unused cachedExample queryExample [] ⟨cachedExample, [1, 2]⟩
      ⟨cachedExample, 4096⟩ imageCacheExample "sm_70-saxpy" tableCacheExample).2.2.2.2.2.2
      4096 (by decide) (by decide)⟩

end jit

namespace jit

namespace Kernel

theorem readWords_length (Buffer : List Nat) (n P : Nat) (ws : List Nat)
    (h : readWords Buffer n P = some ws) : ws.length = n := by
  induction n generalizing P ws with
  | zero =>
    simp only [readWords, Option.some.injEq] at h
    subst h
    rfl
  | succ n ih =>
    unfold readWords at h
    split at h
    · rename_i w ws2 _ hws
      simp only [Option.some.injEq] at h
      subst h
      simp [ih _ _ hws]
    · simp at h

theorem readArgs_isSome_of_readable (K : Kernel) (h : K.Readable) : K.readArgs.isSome := by
  unfold readArgs
  unfold Readable argAt at h
  split
  · rename_i hnull
    by_cases h0 : K.NumArgs = 0
    · simp [h0]
    · have := h 0 (by omega)
      simp [hnull] at this
  · rename_i hbuf
    have hle : K.NumArgs ≤ K.ArgumentsBuffer.length := by
      by_contra hc
      have := h K.ArgumentsBuffer.length (by omega)
      simp [hbuf] at this
    simp [hle]
  · rename_i words hview
    have hle : K.NumArgs ≤ words.length := by
      by_contra hc
      have := h words.length (by omega)
      simp [hview] at this
    simp [hle]

theorem setMask_of_readable (K : Kernel) (M : List Nat) (h : K.Readable) :
    ∃ K2, K.setMask M = some K2 ∧ K2.Mask = M ∧ K2.NumArgs = K.NumArgs := by
  unfold setMask
  split
  · obtain ⟨ws, hws⟩ := Option.isSome_iff_exists.1 (readArgs_isSome_of_readable K h)
    simp [hws]
  · simp

end Kernel

/-- C5, as the specification states it, fails: a fresh descriptor satisfies
`Mask.size() == NumArgs`, and `setArgs` with two arguments breaks it, because the mask
stays empty. -/
theorem Kernel.maskInv_setArgs_counterexample :
    (Kernel.new "saxpy").MaskInv ∧
      ¬ ((Kernel.new "saxpy").setArgs [0x7f00000010a8, 5] 2).MaskInv := by
  unfold Kernel.MaskInv
  decide

/-- C5, amended: `Mask.size() == NumArgs` holds for a fresh descriptor and is preserved
by `setNumTeams`, `setNumThreads` and copying. `materialize` and `setMask` from a
descriptor establish it, `setMask` from a vector establishes it exactly when the vector
has `NumArgs` elements, and after `setArgs(Args, Num)` it holds exactly when the mask,
which `setArgs` leaves alone, already had `Num` elements. -/
theorem Kernel.maskInv_operations :
    (∀ n : String, (Kernel.new n).MaskInv) ∧
    (∀ (K : Kernel) (v : Nat), K.MaskInv →
      (K.setNumTeams v).MaskInv ∧ (K.setNumThreads v).MaskInv ∧ K.copy.MaskInv) ∧
    (∀ (K K2 : Kernel) (Buffer : List Nat) (n : Nat),
      K.materialize Buffer = some (K2, n) → K2.MaskInv) ∧
    (∀ K Other : Kernel, K.Readable → K.NumArgs = Other.NumArgs → Other.MaskInv →
      ∃ K2, K.setMaskFrom Other = some K2 ∧ K2.MaskInv) ∧
    (∀ (K : Kernel) (M : List Nat), K.Readable →
      ∃ K2, K.setMask M = some K2 ∧ (K2.MaskInv ↔ M.length = K.NumArgs)) ∧
    (∀ (K : Kernel) (Args : List Nat) (Num : Nat),
      (K.setArgs Args Num).MaskInv ↔ K.Mask.length = Num % 2 ^ 32) := by
  refine ⟨fun _ => rfl, ?_, ?_, ?_, ?_, ?_⟩
  · intro K v h
    exact ⟨h, h, h⟩
  · intro K K2 Buffer n h
    unfold Kernel.materialize at h
    split at h
    · simp at h
    · simp only at h
      split at h
      · split at h
        · rename_i hM
          simp only [Option.some.injEq, Prod.mk.injEq] at h
          rw [← h.1]
          exact Kernel.readWords_length _ _ _ _ hM
        · simp at h
      · simp at h
  · intro K Other hK hN hO
    obtain ⟨K2, h1, h2, h3⟩ := Kernel.setMask_of_readable K Other.Mask hK
    refine ⟨K2, ?_, ?_⟩
    · unfold Kernel.MaskInv at hO
      simp [Kernel.setMaskFrom, hN, hO, h1]
    · unfold Kernel.MaskInv at hO ⊢
      rw [h2, h3, hN, hO]
  · intro K M hK
    obtain ⟨K2, h1, h2, h3⟩ := Kernel.setMask_of_readable K M hK
    refine ⟨K2, h1, ?_⟩
    unfold Kernel.MaskInv
    rw [h2, h3]
  · intro K Args Num
    rfl

end jit

namespace jit

/-- C5, witness: `materialize` on `serializedExample` yields a descriptor with one
argument and one mask word, and `setMask` with a two-word mask on the two-argument
request `queryExample` yields a descriptor that satisfies the invariant. -/
theorem Kernel.maskInv_operations_witness :
    materializedExample.MaskInv ∧
      ∃ K2, queryExample.setMask [0xffffffffffffff00, 0xffffffffffffffff] = some K2 ∧
        (K2.MaskInv ↔
          [0xffffffffffffff00, 0xffffffffffffffff].length = queryExample.NumArgs) :=
  ⟨Kernel.maskInv_operations.2.2.1 (Kernel.new "") materializedExample serializedExample 30
      (by decide),
   Kernel.maskInv_operations.2.2.2.2.1 queryExample [0xffffffffffffff00, 0xffffffffffffffff]
      (by
        intro i hi
        have hi2 : i < 2 := hi
        interval_cases i <;> rfl)⟩

end jit

/-! ## Launch geometry -/

namespace DeviceRTLTy

theorem toUnsigned_of_nonneg (x : Int) (h0 : 0 ≤ x) (h1 : x ≤ INT_MAX) :
    toUnsigned x = x.toNat := by
  unfold toUnsigned
  unfold INT_MAX at h1
  rw [Int.emod_eq_of_lt h0 (by omega)]

theorem CudaThreadsPerBlock_eq_spec (D : DeviceDataTy) (ExecutionMode Max ThreadLimit C : Int)
    (h : CudaThreadsPerBlock D ExecutionMode Max ThreadLimit = some C) :
    C = threadCountSpec D ExecutionMode Max ThreadLimit := by
  unfold CudaThreadsPerBlock at h
  unfold threadCountSpec
  by_cases hT : ThreadLimit > 0
  · by_cases hG : ExecutionMode = OMP_TGT_EXEC_MODE_GENERIC
    · by_cases hO : ThreadLimit + D.WarpSize > INT_MAX ∨ ThreadLimit + D.WarpSize < INT_MIN
      · simp [hT, hG, hO] at h
      · simp only [hT, hG, hO, if_true, if_false, Option.some.injEq] at h
        simp only [hT, hG, if_true, min_def]
        split_ifs at h ⊢ <;> omega
    · simp only [hT, hG, if_true, if_false, Option.some.injEq] at h
      simp only [hT, hG, if_true, if_false, min_def]
      split_ifs at h ⊢ <;> omega
  · simp only [hT, if_false, Option.some.injEq] at h
    simp only [hT, if_false, min_def]
    split_ifs at h ⊢ <;> omega

theorem CudaThreadsPerBlock_isSome (D : DeviceDataTy) (ExecutionMode Max ThreadLimit : Int)
    (hovf : 0 < ThreadLimit → ExecutionMode = OMP_TGT_EXEC_MODE_GENERIC →
      ThreadLimit + D.WarpSize ≤ INT_MAX) (hW : INT_MIN ≤ D.WarpSize) :
    CudaThreadsPerBlock D ExecutionMode Max ThreadLimit =
      some (threadCountSpec D ExecutionMode Max ThreadLimit) := by
  have hsome : ∃ C, CudaThreadsPerBlock D ExecutionMode Max ThreadLimit = some C := by
    unfold CudaThreadsPerBlock
    by_cases hT : ThreadLimit > 0
    · by_cases hG : ExecutionMode = OMP_TGT_EXEC_MODE_GENERIC
      · have h1 := hovf hT hG
        have h2 : ¬ (ThreadLimit + D.WarpSize > INT_MAX ∨ ThreadLimit + D.WarpSize < INT_MIN) := by
          unfold INT_MIN at hW ⊢
          omega
        simp [hT, hG, h2]
      · simp [hT, hG]
    · simp [hT]
  obtain ⟨C, hC⟩ := hsome
  rw [hC, CudaThreadsPerBlock_eq_spec D ExecutionMode Max ThreadLimit C hC]

end DeviceRTLTy

namespace DeviceRTLTy

theorem runTargetTeamRegion_eq (RTL : DeviceRTLTy) (D : DeviceDataTy) (Drv : LaunchDriverTy)
    (K : KernelTy) (TeamNum ThreadLimit : Int) (T : Nat) (Max C : Int)
    (hctx : Drv.cuCtxSetCurrent = true) (hMax : kernelLimit Drv K = some Max)
    (hC : CudaThreadsPerBlock D K.ExecutionMode Max ThreadLimit = some C) :
    runTargetTeamRegion RTL D Drv (some K) TeamNum ThreadLimit T =
      match CudaBlocksPerGrid RTL D K.ExecutionMode TeamNum T C with
      | Outcome.ok Blocks => Outcome.ok { CudaBlocksPerGrid := Blocks, CudaThreadsPerBlock := C }
      | Outcome.fail => Outcome.fail
      | Outcome.undefined => Outcome.undefined := by
  simp [runTargetTeamRegion, hctx, hMax, hC]

theorem runTargetTeamRegion_ok_inv (RTL : DeviceRTLTy) (D : DeviceDataTy)
    (Drv : LaunchDriverTy) (KernelInfo : Option KernelTy) (TeamNum ThreadLimit : Int) (T : Nat)
    (L : LaunchTy)
    (h : runTargetTeamRegion RTL D Drv KernelInfo TeamNum ThreadLimit T = Outcome.ok L) :
    ∃ K Max, KernelInfo = some K ∧ Drv.cuCtxSetCurrent = true ∧
      kernelLimit Drv K = some Max ∧
      CudaThreadsPerBlock D K.ExecutionMode Max ThreadLimit = some L.CudaThreadsPerBlock ∧
      CudaBlocksPerGrid RTL D K.ExecutionMode TeamNum T L.CudaThreadsPerBlock =
        Outcome.ok L.CudaBlocksPerGrid := by
  unfold runTargetTeamRegion at h
  split at h
  · simp at h
  rename_i hctx
  split at h
  · simp at h
  rename_i K
  split at h
  · split at h <;> simp at h
  rename_i Max hMax
  split at h
  · simp at h
  rename_i C hC
  split at h
  · rename_i B hB
    simp only [Outcome.ok.injEq] at h
    subst h
    exact ⟨K, Max, rfl, by simpa using hctx, hMax, hC, hB⟩
  · simp at h
  · simp at h

theorem CudaBlocksPerGrid_le (RTL : DeviceRTLTy) (D : DeviceDataTy) (ExecutionMode : Int)
    (TeamNum : Int) (T : Nat) (C : Int) (B : Nat)
    (h : CudaBlocksPerGrid RTL D ExecutionMode TeamNum T C = Outcome.ok B) :
    B ≤ toUnsigned D.BlocksPerGrid := by
  unfold CudaBlocksPerGrid at h
  simp only at h
  split at h
  · simp only [Outcome.ok.injEq] at h
    subst h
    split_ifs <;> omega
  · simp at h
  · simp at h

theorem toUnsigned_le_of_nonneg (x : Int) (h0 : 0 ≤ x) : (toUnsigned x : Int) ≤ x := by
  unfold toUnsigned
  have h1 : 0 ≤ x % 2 ^ 32 := Int.emod_nonneg _ (by norm_num)
  rw [Int.toNat_of_nonneg h1]
  omega

end DeviceRTLTy

namespace DeviceRTLTy

/-- C6: a launch in SPMD mode with no requested team count, a known trip count `T`, no
`OMP_NUM_TEAMS` setting and a final thread count `C > 0` reaches the driver with
`min(((T - 1) / C) + 1, BlocksPerGrid)` teams, the limit of the device being read as an
`unsigned int`, and with `C` threads. -/
theorem runTargetTeamRegion_spmd_trip_count (RTL : DeviceRTLTy) (D : DeviceDataTy)
    (Drv : LaunchDriverTy) (K : KernelTy) (TeamNum ThreadLimit : Int) (T : Nat) (Max C : Int)
    (hctx : Drv.cuCtxSetCurrent = true) (hMax : kernelLimit Drv K = some Max)
    (hSPMD : K.ExecutionMode = OMP_TGT_EXEC_MODE_SPMD) (hTeam : TeamNum ≤ 0)
    (hT0 : 0 < T) (hT32 : T < 2 ^ 32) (hEnv : RTL.EnvNumTeams < 0)
    (hC : CudaThreadsPerBlock D K.ExecutionMode Max ThreadLimit = some C)
    (hpos : 0 < C) (hmax : C ≤ INT_MAX) :
    runTargetTeamRegion RTL D Drv (some K) TeamNum ThreadLimit T =
      Outcome.ok { CudaBlocksPerGrid := min ((T - 1) / C.toNat + 1) (toUnsigned D.BlocksPerGrid),
                   CudaThreadsPerBlock := C } := by
  rw [runTargetTeamRegion_eq RTL D Drv K TeamNum ThreadLimit T Max C hctx hMax hC]
  have hu : toUnsigned C = C.toNat := toUnsigned_of_nonneg C (by omega) hmax
  have hCn : 0 < C.toNat := by omega
  have h1 : (T + 2 ^ 32 - 1) % 2 ^ 32 = T - 1 := by omega
  have h2 : (T - 1) / C.toNat ≤ T - 1 := Nat.div_le_self _ _
  have h3 : ((T - 1) / C.toNat + 1) % 2 ^ 32 = (T - 1) / C.toNat + 1 :=
    Nat.mod_eq_of_lt (by omega)
  have hne : ¬ (OMP_TGT_EXEC_MODE_SPMD = OMP_TGT_EXEC_MODE_GENERIC_SPMD) := by decide
  have hcond : (T > 0 ∧ RTL.EnvNumTeams < 0) := ⟨hT0, hEnv⟩
  have hz : ¬ (C.toNat = 0) := by omega
  unfold CudaBlocksPerGrid
  simp only [hSPMD]
  rw [if_pos hTeam, if_pos hcond, if_neg hne, if_pos trivial, hu, if_neg hz, h1, h3]
  have hmin : ∀ B u : Nat, (if B > u then u else B) = min B u := by
    intro B u
    simp only [min_def]
    split_ifs <;> omega
  simp only [hmin]

/-- C6, witness: on `deviceExample` a trip count of 1000 with 128 threads gives
`(999 / 128) + 1 = 8` teams, below the limit of 65535. -/
theorem runTargetTeamRegion_spmd_trip_count_witness :
    runTargetTeamRegion envUnset deviceExample driverExample
        (some { ExecutionMode := OMP_TGT_EXEC_MODE_SPMD, MaxThreadsPerBlock := 0 }) 0 0 1000 =
      Outcome.ok { CudaBlocksPerGrid := 8, CudaThreadsPerBlock := 128 } :=
  runTargetTeamRegion_spmd_trip_count envUnset deviceExample driverExample
    { ExecutionMode := OMP_TGT_EXEC_MODE_SPMD, MaxThreadsPerBlock := 0 } 0 0 1000 512 128
    rfl rfl rfl (by decide) (by decide) (by decide) (by decide) (by decide) (by decide)
    (by decide)

/-- C7: an explicitly requested team count `R` with `0 < R <= BlocksPerGrid` reaches the
driver unchanged, for every trip count, execution mode and environment setting. -/
theorem runTargetTeamRegion_requested_teams (RTL : DeviceRTLTy) (D : DeviceDataTy)
    (Drv : LaunchDriverTy) (K : KernelTy) (TeamNum ThreadLimit : Int) (T : Nat) (Max C : Int)
    (hctx : Drv.cuCtxSetCurrent = true) (hMax : kernelLimit Drv K = some Max)
    (hC : CudaThreadsPerBlock D K.ExecutionMode Max ThreadLimit = some C)
    (hR : 0 < TeamNum) (hcap : TeamNum ≤ D.BlocksPerGrid) (hBPG : D.BlocksPerGrid ≤ INT_MAX) :
    ∃ L, runTargetTeamRegion RTL D Drv (some K) TeamNum ThreadLimit T = Outcome.ok L ∧
      (L.CudaBlocksPerGrid : Int) = TeamNum ∧ L.CudaThreadsPerBlock = C := by
  rw [runTargetTeamRegion_eq RTL D Drv K TeamNum ThreadLimit T Max C hctx hMax hC]
  have hu1 : toUnsigned TeamNum = TeamNum.toNat :=
    toUnsigned_of_nonneg TeamNum (by omega) (by omega)
  have hu2 : toUnsigned D.BlocksPerGrid = D.BlocksPerGrid.toNat :=
    toUnsigned_of_nonneg _ (by omega) hBPG
  have hT : ¬ (TeamNum ≤ 0) := by omega
  have hle : ¬ (TeamNum.toNat > D.BlocksPerGrid.toNat) := by omega
  refine ⟨{ CudaBlocksPerGrid := TeamNum.toNat, CudaThreadsPerBlock := C }, ?_, ?_, rfl⟩
  · simp only [CudaBlocksPerGrid, hT, hu1, hu2, hle, if_false]
  · simp only [Int.toNat_of_nonneg (le_of_lt hR)]

/-- C7, witness: 300 requested teams on `deviceExample` reach the driver as 300 teams,
although the trip count 1000 would give 8. -/
theorem runTargetTeamRegion_requested_teams_witness :
    ∃ L, runTargetTeamRegion envUnset deviceExample driverExample
        (some { ExecutionMode := OMP_TGT_EXEC_MODE_SPMD, MaxThreadsPerBlock := 0 })
        300 0 1000 = Outcome.ok L ∧
      (L.CudaBlocksPerGrid : Int) = 300 ∧ L.CudaThreadsPerBlock = 128 :=
  runTargetTeamRegion_requested_teams envUnset deviceExample driverExample
    { ExecutionMode := OMP_TGT_EXEC_MODE_SPMD, MaxThreadsPerBlock := 0 } 300 0 1000 512 128
    rfl rfl (by decide) (by decide) (by decide) (by decide)

end DeviceRTLTy

namespace DeviceRTLTy

/-- C8: the thread count handed to the driver is
`min(min(t0, ThreadsPerBlock), MaxThreadsPerBlock)`, where `t0` is `ThreadLimit`, plus
`WarpSize` in Generic mode, when `ThreadLimit > 0`, and the default of the device
otherwise. Every launch has this thread count, and the launch takes place with it
whenever the driver calls succeed, adding the warp stays within `int` and the team count
is computed. -/
theorem runTargetTeamRegion_thread_count (RTL : DeviceRTLTy) (D : DeviceDataTy)
    (Drv : LaunchDriverTy) (K : KernelTy) (TeamNum ThreadLimit : Int) (T : Nat) (Max : Int)
    (hMax : kernelLimit Drv K = some Max) :
    (∀ L, runTargetTeamRegion RTL D Drv (some K) TeamNum ThreadLimit T = Outcome.ok L →
      L.CudaThreadsPerBlock = threadCountSpec D K.ExecutionMode Max ThreadLimit) ∧
    (Drv.cuCtxSetCurrent = true →
      (0 < ThreadLimit → K.ExecutionMode = OMP_TGT_EXEC_MODE_GENERIC →
        ThreadLimit + D.WarpSize ≤ INT_MAX) →
      INT_MIN ≤ D.WarpSize →
      ∀ B, CudaBlocksPerGrid RTL D K.ExecutionMode TeamNum T
          (threadCountSpec D K.ExecutionMode Max ThreadLimit) = Outcome.ok B →
        runTargetTeamRegion RTL D Drv (some K) TeamNum ThreadLimit T =
          Outcome.ok { CudaBlocksPerGrid := B,
                       CudaThreadsPerBlock :=
                         threadCountSpec D K.ExecutionMode Max ThreadLimit }) := by
  constructor
  · intro L h
    obtain ⟨K2, Max2, hK, _, hMax2, hC, _⟩ :=
      runTargetTeamRegion_ok_inv RTL D Drv (some K) TeamNum ThreadLimit T L h
    cases hK
    rw [hMax] at hMax2
    cases hMax2
    exact CudaThreadsPerBlock_eq_spec D _ _ _ _ hC
  · intro hctx hovf hW B hB
    rw [runTargetTeamRegion_eq RTL D Drv K TeamNum ThreadLimit T Max _ hctx hMax
      (CudaThreadsPerBlock_isSome D K.ExecutionMode Max ThreadLimit hovf hW), hB]

/-- C8, witness: the scenario of the specification. The device allows 1024 threads, the
kernel 512, the request is 800 threads in Generic mode with warps of 32: `800 + 32 = 832`
passes the device limit and is capped at 512 by the kernel. -/
theorem runTargetTeamRegion_thread_count_witness :
    min (800 + 32) deviceExample.ThreadsPerBlock = 832 ∧
      runTargetTeamRegion envUnset deviceExample driverExample
          (some { ExecutionMode := OMP_TGT_EXEC_MODE_GENERIC, MaxThreadsPerBlock := 0 })
          0 800 0 =
        Outcome.ok { CudaBlocksPerGrid := 128, CudaThreadsPerBlock := 512 } :=
  ⟨by decide,
   (runTargetTeamRegion_thread_count envUnset deviceExample driverExample
      { ExecutionMode := OMP_TGT_EXEC_MODE_GENERIC, MaxThreadsPerBlock := 0 } 0 800 0 512
      rfl).2 rfl (by decide) (by decide) 128 (by decide)⟩

/-- C10: a launch on a device with a non-negative grid limit never exceeds the limits:
the thread count is at most `ThreadsPerBlock` of the device and at most the
`MaxThreadsPerBlock` of the kernel, and the team count is at most `BlocksPerGrid`. When
the kernel limit, the warp size and the default thread count are positive as well, the
same bounds hold for the block size as the driver receives it, converted to
`unsigned int`. -/
theorem runTargetTeamRegion_within_limits (RTL : DeviceRTLTy) (D : DeviceDataTy)
    (Drv : LaunchDriverTy) (KernelInfo : Option KernelTy) (TeamNum ThreadLimit : Int) (T : Nat)
    (L : LaunchTy)
    (h : runTargetTeamRegion RTL D Drv KernelInfo TeamNum ThreadLimit T = Outcome.ok L)
    (hBPG : 0 ≤ D.BlocksPerGrid) :
    ∃ K Max, KernelInfo = some K ∧ kernelLimit Drv K = some Max ∧
      L.CudaThreadsPerBlock ≤ D.ThreadsPerBlock ∧ L.CudaThreadsPerBlock ≤ Max ∧
      (L.CudaBlocksPerGrid : Int) ≤ D.BlocksPerGrid ∧
      (0 < D.ThreadsPerBlock → D.ThreadsPerBlock ≤ INT_MAX → 0 < Max → 0 ≤ D.WarpSize →
        0 < D.NumThreads →
        0 < L.blockDimX ∧ (L.blockDimX : Int) ≤ D.ThreadsPerBlock ∧
          (L.blockDimX : Int) ≤ Max) := by
  obtain ⟨K, Max, hK, _, hMax, hC, hB⟩ :=
    runTargetTeamRegion_ok_inv RTL D Drv KernelInfo TeamNum ThreadLimit T L h
  have hspec := CudaThreadsPerBlock_eq_spec D _ _ _ _ hC
  have hle := CudaBlocksPerGrid_le RTL D _ _ _ _ _ hB
  have hu := toUnsigned_le_of_nonneg D.BlocksPerGrid hBPG
  have h1 : L.CudaThreadsPerBlock ≤ D.ThreadsPerBlock := by
    rw [hspec]
    unfold threadCountSpec
    exact le_trans (min_le_left _ _) (min_le_right _ _)
  have h2 : L.CudaThreadsPerBlock ≤ Max := by
    rw [hspec]
    unfold threadCountSpec
    exact min_le_right _ _
  refine ⟨K, Max, hK, hMax, h1, h2, ?_, ?_⟩
  · have : (L.CudaBlocksPerGrid : Int) ≤ (toUnsigned D.BlocksPerGrid : Int) := by
      exact_mod_cast hle
    omega
  · intro hTPB hTPBmax hMaxpos hW hNT
    have hpos : 0 < L.CudaThreadsPerBlock := by
      rw [hspec]
      unfold threadCountSpec
      refine lt_min (lt_min ?_ hTPB) hMaxpos
      split_ifs <;> omega
    have hu2 : toUnsigned L.CudaThreadsPerBlock = L.CudaThreadsPerBlock.toNat :=
      toUnsigned_of_nonneg _ (le_of_lt hpos) (le_trans h1 hTPBmax)
    unfold LaunchTy.blockDimX
    rw [hu2]
    omega

/-- C10, witness: the launch of the scenario, 800 threads requested in Generic mode with
70000 teams, reaches the driver with 512 threads and 65535 teams. -/
theorem runTargetTeamRegion_within_limits_witness :
    ∃ K Max, some { ExecutionMode := OMP_TGT_EXEC_MODE_GENERIC, MaxThreadsPerBlock := 0 } =
        some K ∧ kernelLimit driverExample K = some Max ∧
      (512 : Int) ≤ deviceExample.ThreadsPerBlock ∧ (512 : Int) ≤ Max ∧
      ((65535 : Nat) : Int) ≤ deviceExample.BlocksPerGrid ∧
      (0 < deviceExample.ThreadsPerBlock → deviceExample.ThreadsPerBlock ≤ INT_MAX →
        0 < Max → 0 ≤ deviceExample.WarpSize → 0 < deviceExample.NumThreads →
        0 < LaunchTy.blockDimX { CudaBlocksPerGrid := 65535, CudaThreadsPerBlock := 512 } ∧
          (LaunchTy.blockDimX { CudaBlocksPerGrid := 65535, CudaThreadsPerBlock := 512 } : Int)
            ≤ deviceExample.ThreadsPerBlock ∧
          (LaunchTy.blockDimX { CudaBlocksPerGrid := 65535, CudaThreadsPerBlock := 512 } : Int)
            ≤ Max) :=
  runTargetTeamRegion_within_limits envUnset deviceExample driverExample
    (some { ExecutionMode := OMP_TGT_EXEC_MODE_GENERIC, MaxThreadsPerBlock := 0 }) 70000 800 0
    { CudaBlocksPerGrid := 65535, CudaThreadsPerBlock := 512 } (by decide) (by decide)

end DeviceRTLTy

namespace DeviceRTLTy

theorem ite_gt_eq_min (B u : Nat) : (if B > u then u else B) = min B u := by
  simp only [min_def]
  split_ifs <;> omega

/-- C9, as the specification states it, fails: with `OMP_NUM_TEAMS=4`, no requested team
count and a known trip count of 1000 on 128 threads, the launch uses the default of 4
teams and not the 8 teams the trip count gives, which the same launch uses when the
variable is unset. -/
theorem runTargetTeamRegion_env_num_teams_counterexample :
    initDevice envTeams4 initDriverExample = some deviceTeams4 ∧
      runTargetTeamRegion envTeams4 deviceTeams4 driverExample
          (some { ExecutionMode := OMP_TGT_EXEC_MODE_SPMD, MaxThreadsPerBlock := 0 })
          0 0 1000 =
        Outcome.ok { CudaBlocksPerGrid := 4, CudaThreadsPerBlock := 128 } ∧
      initDevice envUnset initDriverExample = some deviceExample ∧
      runTargetTeamRegion envUnset deviceExample driverExample
          (some { ExecutionMode := OMP_TGT_EXEC_MODE_SPMD, MaxThreadsPerBlock := 0 })
          0 0 1000 =
        Outcome.ok { CudaBlocksPerGrid := 8, CudaThreadsPerBlock := 128 } := by
  decide

/-- C9, amended: for a launch whose driver calls succeed and whose thread count is `C`, a
requested team count (`TeamNum > 0`) is always used. Without one, the value derived from
the trip count is used when the trip count is known and `OMP_NUM_TEAMS` is not set
(`EnvNumTeams < 0`): the trip count itself in Generic and Generic-SPMD mode,
`((T - 1) / C) + 1` in SPMD mode. In every other case, a known trip count with
`OMP_NUM_TEAMS` set included, the default of the device is used, which `initDevice` sets
to `OMP_NUM_TEAMS` when that is positive and to 128 otherwise, capped at `BlocksPerGrid`.
The value chosen is capped at `BlocksPerGrid`, read as an `unsigned int`. -/
theorem runTargetTeamRegion_team_priority (RTL : DeviceRTLTy) (D : DeviceDataTy)
    (Drv : LaunchDriverTy) (K : KernelTy) (TeamNum ThreadLimit : Int) (T : Nat) (Max C : Int)
    (hctx : Drv.cuCtxSetCurrent = true) (hMax : kernelLimit Drv K = some Max)
    (hC : CudaThreadsPerBlock D K.ExecutionMode Max ThreadLimit = some C) :
    (0 < TeamNum →
      runTargetTeamRegion RTL D Drv (some K) TeamNum ThreadLimit T =
        Outcome.ok { CudaBlocksPerGrid := min (toUnsigned TeamNum) (toUnsigned D.BlocksPerGrid),
                     CudaThreadsPerBlock := C }) ∧
    (TeamNum ≤ 0 → 0 < T → RTL.EnvNumTeams < 0 →
      (K.ExecutionMode = OMP_TGT_EXEC_MODE_GENERIC_SPMD ∨
          K.ExecutionMode = OMP_TGT_EXEC_MODE_GENERIC →
        runTargetTeamRegion RTL D Drv (some K) TeamNum ThreadLimit T =
          Outcome.ok { CudaBlocksPerGrid := min T (toUnsigned D.BlocksPerGrid),
                       CudaThreadsPerBlock := C }) ∧
      (K.ExecutionMode = OMP_TGT_EXEC_MODE_SPMD → T < 2 ^ 32 → toUnsigned C ≠ 0 →
        runTargetTeamRegion RTL D Drv (some K) TeamNum ThreadLimit T =
          Outcome.ok { CudaBlocksPerGrid :=
                         min ((T - 1) / toUnsigned C + 1) (toUnsigned D.BlocksPerGrid),
                       CudaThreadsPerBlock := C })) ∧
    (TeamNum ≤ 0 → (T = 0 ∨ 0 ≤ RTL.EnvNumTeams) →
      runTargetTeamRegion RTL D Drv (some K) TeamNum ThreadLimit T =
        Outcome.ok { CudaBlocksPerGrid :=
                       min (toUnsigned D.NumTeams) (toUnsigned D.BlocksPerGrid),
                     CudaThreadsPerBlock := C }) ∧
    (∀ Init, initDevice RTL Init = some D →
      D.NumTeams =
        min (if RTL.EnvNumTeams > 0 then RTL.EnvNumTeams else DefaultNumTeams)
          D.BlocksPerGrid) := by
  rw [runTargetTeamRegion_eq RTL D Drv K TeamNum ThreadLimit T Max C hctx hMax hC]
  refine ⟨?_, ?_, ?_, ?_⟩
  · intro hT
    have hT2 : ¬ (TeamNum ≤ 0) := by omega
    unfold CudaBlocksPerGrid
    simp only []
    rw [if_neg hT2]
    simp only [ite_gt_eq_min]
  · intro hTeam hT0 hEnv
    have hcond : (T > 0 ∧ RTL.EnvNumTeams < 0) := ⟨hT0, hEnv⟩
    constructor
    · intro hmode
      unfold CudaBlocksPerGrid
      simp only []
      rw [if_pos hTeam, if_pos hcond]
      rcases hmode with hm | hm
      · rw [if_pos hm]
        simp only [ite_gt_eq_min]
      · have h1 : ¬ (K.ExecutionMode = OMP_TGT_EXEC_MODE_GENERIC_SPMD) := by
          rw [hm]; decide
        have h2 : ¬ (K.ExecutionMode = OMP_TGT_EXEC_MODE_SPMD) := by
          rw [hm]; decide
        rw [if_neg h1, if_neg h2, if_pos hm]
        simp only [ite_gt_eq_min]
    · intro hm hT32 hz
      have h1 : ¬ (K.ExecutionMode = OMP_TGT_EXEC_MODE_GENERIC_SPMD) := by
        rw [hm]; decide
      have e1 : (T + 2 ^ 32 - 1) % 2 ^ 32 = T - 1 := by omega
      have hpos : 0 < toUnsigned C := Nat.pos_of_ne_zero hz
      have e2 : (T - 1) / toUnsigned C ≤ T - 1 := Nat.div_le_self _ _
      have e3 : ((T - 1) / toUnsigned C + 1) % 2 ^ 32 = (T - 1) / toUnsigned C + 1 :=
        Nat.mod_eq_of_lt (by omega)
      unfold CudaBlocksPerGrid
      simp only []
      rw [if_pos hTeam, if_pos hcond, if_neg h1, if_pos hm, if_neg hz, e1, e3]
      simp only [ite_gt_eq_min]
  · intro hTeam hdef
    have hcond : ¬ (T > 0 ∧ RTL.EnvNumTeams < 0) := by
      rcases hdef with h | h
      · omega
      · omega
    unfold CudaBlocksPerGrid
    simp only []
    rw [if_pos hTeam, if_neg hcond]
    simp only [ite_gt_eq_min]
  · intro Init hInit
    unfold initDevice at hInit
    split at hInit
    · simp at hInit
    · simp only [] at hInit
      split at hInit
      · simp at hInit
      · simp only [Option.some.injEq] at hInit
        subst hInit
        simp only [min_def]
        split_ifs <;> omega

end DeviceRTLTy

namespace DeviceRTLTy

/-- C9, witness: on `deviceTeams4`, set up under `OMP_NUM_TEAMS=4`, a request for 300 teams
launches 300 teams and a launch without a request launches the default of 4 teams for a
trip count of 1000; with the variable unset the trip count gives 8 teams. -/
theorem runTargetTeamRegion_team_priority_witness :
    runTargetTeamRegion envTeams4 deviceTeams4 driverExample
        (some { ExecutionMode := OMP_TGT_EXEC_MODE_SPMD, MaxThreadsPerBlock := 0 })
        300 0 1000 =
      Outcome.ok { CudaBlocksPerGrid := 300, CudaThreadsPerBlock := 128 } ∧
    runTargetTeamRegion envTeams4 deviceTeams4 driverExample
        (some { ExecutionMode := OMP_TGT_EXEC_MODE_SPMD, MaxThreadsPerBlock := 0 })
        0 0 1000 =
      Outcome.ok { CudaBlocksPerGrid := 4, CudaThreadsPerBlock := 128 } ∧
    runTargetTeamRegion envUnset deviceExample driverExample
        (some { ExecutionMode := OMP_TGT_EXEC_MODE_SPMD, MaxThreadsPerBlock := 0 })
        0 0 1000 =
      Outcome.ok { CudaBlocksPerGrid := 8, CudaThreadsPerBlock := 128 } ∧
    deviceTeams4.NumTeams = 4 :=
  ⟨(runTargetTeamRegion_team_priority envTeams4 deviceTeams4 driverExample
      { ExecutionMode := OMP_TGT_EXEC_MODE_SPMD, MaxThreadsPerBlock := 0 } 300 0 1000 512 128
      rfl rfl (by decide)).1 (by decide),
   (runTargetTeamRegion_team_priority envTeams4 deviceTeams4 driverExample
      { ExecutionMode := OMP_TGT_EXEC_MODE_SPMD, MaxThreadsPerBlock := 0 } 0 0 1000 512 128
      rfl rfl (by decide)).2.2.1 (by decide) (Or.inr (by decide)),
   ((runTargetTeamRegion_team_priority envUnset deviceExample driverExample
      { ExecutionMode := OMP_TGT_EXEC_MODE_SPMD, MaxThreadsPerBlock := 0 } 0 0 1000 512 128
      rfl rfl (by decide)).2.1 (by decide) (by decide) (by decide)).2 rfl (by decide)
      (by decide),
   (runTargetTeamRegion_team_priority envTeams4 deviceTeams4 driverExample
      { ExecutionMode := OMP_TGT_EXEC_MODE_SPMD, MaxThreadsPerBlock := 0 } 0 0 1000 512 128
      rfl rfl (by decide)).2.2.2 initDriverExample (by decide)⟩

end DeviceRTLTy

/-! ## Image cache, insertion and lookup -/

namespace jit

theorem Kernel.copy_eq (K : Kernel) : K.copy = K := by
  cases K with
  | mk Name NumTeams NumThreads NumArgs ArgumentsBuffer Mask Arguments =>
    simp only [Kernel.copy, Kernel.mk.injEq, true_and]
    split
    · rename_i h
      exact h.symm
    · rfl

theorem Kernel.opEq_self_of_owned (K : Kernel) (h : K.Owned) : K.opEq K = some true := by
  rw [Kernel.opEq_eq_matchLoop K K h rfl rfl rfl, Kernel.matchLoop_eq_true_iff]
  intro j hj
  obtain ⟨ha, hm⟩ := Kernel.argAt_isSome_of_owned K h j hj
  obtain ⟨a, ha⟩ := Option.isSome_iff_exists.1 ha
  obtain ⟨m, hm⟩ := Option.isSome_iff_exists.1 hm
  exact ⟨a, m, a, by simpa using ha, by simpa using hm, by simpa using ha, rfl⟩

theorem Kernel.opEq_isSome_of_owned (A B : Kernel) (hA : A.Owned) (hB : B.Readable) :
    (A.opEq B).isSome := by
  by_cases hN : A.NumArgs = B.NumArgs
  swap
  · obtain ⟨h1, h2, h3⟩ := hA
    simp [Kernel.opEq, Kernel.match_, h1, h2, h3, hN]
  by_cases hT : A.NumTeams = B.NumTeams ∧ A.NumThreads = B.NumThreads
  swap
  · obtain ⟨h1, h2, h3⟩ := hA
    have hT2 : A.NumTeams ≠ B.NumTeams ∨ A.NumThreads ≠ B.NumThreads := by
      by_contra hc
      push_neg at hc
      exact hT hc
    simp [Kernel.opEq, Kernel.match_, h1, h2, h3, hN, hT2]
  rw [Kernel.opEq_eq_matchLoop A B hA hN hT.1 hT.2]
  refine Kernel.matchLoop_isSome A B _ 0 ?_
  intro j hj
  obtain ⟨ha, hm⟩ := Kernel.argAt_isSome_of_owned A hA j hj
  have hb := hB j (hN ▸ hj)
  simp only [Nat.zero_add]
  exact ⟨ha, hm, hb⟩

theorem mapFind_mapEmplaceBack {β : Type} (M : List (String × List β)) (Key : String) (x : β) :
    mapFind (mapEmplaceBack M Key x) Key = some (mapAt M Key ++ [x]) := by
  induction M with
  | nil => simp [mapEmplaceBack, mapFind, mapAt]
  | cons p M ih =>
    obtain ⟨k, L⟩ := p
    by_cases hk : k = Key
    · simp [mapEmplaceBack, mapFind, mapAt, hk]
    · simp only [mapEmplaceBack, mapFind, hk, if_false, ih, mapAt]

theorem sum_length_mapEmplaceBack {β : Type} (M : List (String × List β)) (Key : String)
    (x : β) :
    ((mapEmplaceBack M Key x).map (fun p => p.2.length)).sum =
      (M.map (fun p => p.2.length)).sum + 1 := by
  induction M with
  | nil => simp [mapEmplaceBack]
  | cons p M ih =>
    obtain ⟨k, L⟩ := p
    by_cases hk : k = Key
    · simp [mapEmplaceBack, hk]
      omega
    · simp [mapEmplaceBack, hk, ih]
      omega

theorem ImageCacheTy.getLoop_cons_false (K : Kernel) (J : Image) (L : List Image)
    (h : J.match_ K = some false) :
    ImageCacheTy.getLoop K (J :: L) = ImageCacheTy.getLoop K L := by
  rw [ImageCacheTy.getLoop]
  simp only [h]

theorem ImageCacheTy.getLoop_append (K : Kernel) (L L2 : List Image)
    (h : ImageCacheTy.getLoop K L = some none) :
    ImageCacheTy.getLoop K (L ++ L2) = ImageCacheTy.getLoop K L2 := by
  induction L with
  | nil => rfl
  | cons J L ih =>
    rw [ImageCacheTy.getLoop] at h
    split at h
    · simp at h
    · simp at h
    · rename_i hm
      rw [List.cons_append, ImageCacheTy.getLoop_cons_false K J _ hm]
      exact ih h

theorem ImageCacheTy.getLoop_eq_none_iff (K : Kernel) (L : List Image) :
    ImageCacheTy.getLoop K L = some none ↔ ∀ J, J ∈ L → J.match_ K = some false := by
  induction L with
  | nil => simp [ImageCacheTy.getLoop]
  | cons J L ih =>
    unfold ImageCacheTy.getLoop
    constructor
    · intro h
      split at h
      · simp at h
      · simp at h
      · rename_i hm
        intro J2 hJ2
        rcases List.mem_cons.1 hJ2 with h2 | h2
        · rw [h2]; exact hm
        · exact (ih.1 h) J2 h2
    · intro h
      have hJ := h J (List.mem_cons_self _ _)
      simp only [hJ]
      exact ih.2 (fun J2 hJ2 => h J2 (List.mem_cons_of_mem _ hJ2))

theorem ImageCacheTy.getLoop_eq_some_iff (K : Kernel) (L : List Image) (I : Image) :
    ImageCacheTy.getLoop K L = some (some I) ↔
      ∃ L1 L2, L = L1 ++ I :: L2 ∧ (∀ J, J ∈ L1 → J.match_ K = some false) ∧
        I.match_ K = some true := by
  induction L with
  | nil => simp [ImageCacheTy.getLoop]
  | cons J L ih =>
    unfold ImageCacheTy.getLoop
    constructor
    · intro h
      split at h
      · simp at h
      · rename_i hm
        simp only [Option.some.injEq] at h
        subst h
        exact ⟨[], L, rfl, by simp, hm⟩
      · rename_i hm
        obtain ⟨L1, L2, hL, hall, hI⟩ := ih.1 h
        refine ⟨J :: L1, L2, by simp [hL], ?_, hI⟩
        intro J2 hJ2
        rcases List.mem_cons.1 hJ2 with h2 | h2
        · rw [h2]; exact hm
        · exact hall J2 h2
    · rintro ⟨L1, L2, hL, hall, hI⟩
      cases L1 with
      | nil =>
        simp only [List.nil_append, List.cons.injEq] at hL
        rw [hL.1]
        simp only [hI]
      | cons J1 L1 =>
        simp only [List.cons_append, List.cons.injEq] at hL
        have hJ : J.match_ K = some false := by
          rw [hL.1]
          exact hall J1 (List.mem_cons_self _ _)
        simp only [hJ]
        exact ih.2 ⟨L1, L2, hL.2, fun J2 hJ2 => hall J2 (List.mem_cons_of_mem _ hJ2), hI⟩

theorem ImageCacheTy.getLoop_isSome (K : Kernel) (L : List Image)
    (h : ∀ J, J ∈ L → (J.match_ K).isSome) : (ImageCacheTy.getLoop K L).isSome := by
  induction L with
  | nil => simp [ImageCacheTy.getLoop]
  | cons J L ih =>
    unfold ImageCacheTy.getLoop
    obtain ⟨r, hr⟩ := Option.isSome_iff_exists.1 (h J (List.mem_cons_self _ _))
    cases r with
    | true => simp [hr]
    | false =>
      simp only [hr]
      exact ih (fun J2 hJ2 => h J2 (List.mem_cons_of_mem _ hJ2))

end jit

namespace jit

/-- C11: `ImageCacheTy::insert` is idempotent. When `get(Key, K)` already returns an
entry `E`, `insert(Key, K, buffer)` returns `E` and leaves the cache as it is: no list
grows and the buffer is not retained. Hence a second insertion of an owned descriptor
returns the entry of the first one and changes nothing, and the two insertions together
add at most one image. -/
theorem ImageCacheTy.insert_idempotent :
    (∀ (C : ImageCacheTy) (Key : String) (K : Kernel) (MB : List Nat) (E : Image),
      C.get Key K = some (some E) → C.insert Key K MB = some (C, E)) ∧
    (∀ (C C1 : ImageCacheTy) (Key : String) (K : Kernel) (MB1 MB2 : List Nat) (E1 : Image),
      K.Owned → C.insert Key K MB1 = some (C1, E1) →
        C1.insert Key K MB2 = some (C1, E1) ∧ C1.numImages ≤ C.numImages + 1) := by
  have first : ∀ (C : ImageCacheTy) (Key : String) (K : Kernel) (MB : List Nat) (E : Image),
      C.get Key K = some (some E) → C.insert Key K MB = some (C, E) := by
    intro C Key K MB E h
    simp [ImageCacheTy.insert, h]
  refine ⟨first, ?_⟩
  intro C C1 Key K MB1 MB2 E1 hK hins
  unfold ImageCacheTy.insert at hins
  split at hins
  · simp at hins
  · rename_i I hget
    simp only [Option.some.injEq, Prod.mk.injEq] at hins
    obtain ⟨h1, h2⟩ := hins
    subst h1 h2
    exact ⟨first C Key K MB2 I hget, Nat.le_succ _⟩
  · rename_i hget
    simp only [Option.some.injEq, Prod.mk.injEq] at hins
    obtain ⟨h1, h2⟩ := hins
    subst h1 h2
    constructor
    · apply first
      have hold : ImageCacheTy.getLoop K (mapAt C.Map Key) = some none := by
        unfold ImageCacheTy.get at hget
        unfold mapAt
        split at hget
        · rename_i hf
          simp [hf, ImageCacheTy.getLoop]
        · rename_i L hf
          simpa [hf] using hget
      simp only [ImageCacheTy.get, mapFind_mapEmplaceBack]
      rw [ImageCacheTy.getLoop_append K _ _ hold, ImageCacheTy.getLoop]
      have hself : Image.match_ { K := K.copy, Bytes := MB1 } K = some true := by
        simp only [Image.match_, Kernel.copy_eq]
        exact Kernel.opEq_self_of_owned K hK
      simp only [hself]
    · simp only [ImageCacheTy.numImages, sum_length_mapEmplaceBack]
      exact Nat.le_refl _

/-- C11, witness: inserting `cachedExample` into an empty cache and then once more, with
another buffer, gives the cache and the image of the first insertion, which holds one
image. -/
theorem ImageCacheTy.insert_idempotent_witness :
    ImageCacheTy.insert imageCacheExample "sm_70-saxpy" cachedExample [9, 9] =
        some (imageCacheExample, { K := cachedExample, Bytes := [1, 2] }) ∧
      imageCacheExample.numImages ≤ ImageCacheTy.empty.numImages + 1 :=
  ImageCacheTy.insert_idempotent.2 ImageCacheTy.empty imageCacheExample "sm_70-saxpy"
    cachedExample [1, 2] [9, 9] { K := cachedExample, Bytes := [1, 2] } ⟨rfl, rfl, rfl⟩
    (by decide)

/-- C12: `ImageCacheTy::get` returns the first match. It returns the image `I` exactly
when the list filed under `Key` splits into images that do not match `K`, then `I`, which
matches, then the rest; it returns no entry exactly when the key is absent or no image of
its list matches. The lookup has a result whenever the images of the list own their
arguments and the query is readable, and `insert` appends at the back, so that the order
of the list is the order of insertion. -/
theorem ImageCacheTy.get_first_match (C : ImageCacheTy) (Key : String) (K : Kernel) :
    (∀ I, C.get Key K = some (some I) ↔
      ∃ L L1 L2, mapFind C.Map Key = some L ∧ L = L1 ++ I :: L2 ∧
        (∀ J, J ∈ L1 → J.match_ K = some false) ∧ I.match_ K = some true) ∧
    (C.get Key K = some none ↔
      mapFind C.Map Key = none ∨
        ∃ L, mapFind C.Map Key = some L ∧ ∀ J, J ∈ L → J.match_ K = some false) ∧
    ((∀ J, J ∈ C.imagesAt Key → J.K.Owned) → K.Readable → (C.get Key K).isSome) ∧
    (∀ (MB : List Nat) (C1 : ImageCacheTy) (E : Image),
      C.get Key K = some none → C.insert Key K MB = some (C1, E) →
        C1.imagesAt Key = C.imagesAt Key ++ [E]) := by
  refine ⟨?_, ?_, ?_, ?_⟩
  · intro I
    unfold ImageCacheTy.get
    cases hf : mapFind C.Map Key with
    | none => simp
    | some L =>
      simp only [Option.some.injEq]
      rw [ImageCacheTy.getLoop_eq_some_iff]
      constructor
      · rintro ⟨L1, L2, h⟩
        exact ⟨L, L1, L2, rfl, h⟩
      · rintro ⟨L0, L1, L2, h0, h⟩
        subst h0
        exact ⟨L1, L2, h⟩
  · unfold ImageCacheTy.get
    cases hf : mapFind C.Map Key with
    | none => simp
    | some L =>
      simp only
      rw [ImageCacheTy.getLoop_eq_none_iff]
      constructor
      · intro h
        exact Or.inr ⟨L, rfl, h⟩
      · intro h
        rcases h with h | ⟨L0, h0, h⟩
        · simp at h
        · simp only [Option.some.injEq] at h0
          subst h0
          exact h
  · intro hO hK
    unfold ImageCacheTy.get
    unfold ImageCacheTy.imagesAt mapAt at hO
    cases hf : mapFind C.Map Key with
    | none => simp
    | some L =>
      simp only [hf] at hO
      exact ImageCacheTy.getLoop_isSome K L
        (fun J hJ => Kernel.opEq_isSome_of_owned J.K K (hO J hJ) hK)
  · intro MB C1 E hget hins
    simp only [ImageCacheTy.insert, hget, Option.some.injEq, Prod.mk.injEq] at hins
    obtain ⟨h1, h2⟩ := hins
    subst h1 h2
    simp only [ImageCacheTy.imagesAt]
    rw [mapAt, mapFind_mapEmplaceBack]

/-- C12, witness: in `imageCacheTwo` the image for 8 teams comes first and does not match
the request `queryExample` for 4 teams; the lookup returns the second image. The order is
that of insertion: a cache holding the first image gets `cachedExample` appended. -/
theorem ImageCacheTy.get_first_match_witness :
    (∃ L L1 L2, mapFind imageCacheTwo.Map "sm_70-saxpy" = some L ∧
        L = L1 ++ { K := cachedExample, Bytes := [1, 2] } :: L2 ∧
        (∀ J, J ∈ L1 → J.match_ queryExample = some false) ∧
        Image.match_ { K := cachedExample, Bytes := [1, 2] } queryExample = some true) ∧
      (ImageCacheTy.get ImageCacheTy.empty "sm_70-saxpy" queryExample).isSome :=
  ⟨((ImageCacheTy.get_first_match imageCacheTwo "sm_70-saxpy" queryExample).1
      { K := cachedExample, Bytes := [1, 2] }).1 (by decide),
   (ImageCacheTy.get_first_match ImageCacheTy.empty "sm_70-saxpy" queryExample).2.2.1
      (by intro J hJ; simp [ImageCacheTy.imagesAt, mapAt, ImageCacheTy.empty, mapFind] at hJ)
      (by
        intro i hi
        have hi2 : i < 2 := hi
        interval_cases i <;> rfl)⟩

end jit

/-! ## Resource pool -/

namespace ResourcePoolTy

theorem resizeLoop_next_length (Allocator : Nat → Option Nat) (n : Nat) (P : ResourcePoolTy) :
    (resizeLoop Allocator n P).2.Next = P.Next ∧
      P.Resources.length ≤ (resizeLoop Allocator n P).2.Resources.length ∧
      ((resizeLoop Allocator n P).1 = true →
        (resizeLoop Allocator n P).2.Resources.length = P.Resources.length + n) := by
  induction n generalizing P with
  | zero => simp [resizeLoop]
  | succ n ih =>
    unfold resizeLoop
    cases hA : Allocator P.Created with
    | none => simp
    | some NewItem =>
      simp only
      obtain ⟨h1, h2, h3⟩ :=
        ih { P with Resources := P.Resources ++ [NewItem], Created := P.Created + 1 }
      simp only [List.length_append, List.length_singleton] at h2 h3
      refine ⟨h1, by omega, ?_⟩
      intro ht
      have := h3 ht
      omega

/-- The buffer holds the handles of the first calls of the allocator, in order. -/
theorem resizeLoop_fresh (Allocator : Nat → Option Nat) (hA : ∀ k, (Allocator k).isSome)
    (n : Nat) (P : ResourcePoolTy) (hC : P.Created = P.Resources.length)
    (hF : ∀ i, i < P.Resources.length → P.Resources[i]? = Allocator i) :
    (resizeLoop Allocator n P).1 = true ∧
      (resizeLoop Allocator n P).2.Created = (resizeLoop Allocator n P).2.Resources.length ∧
      ∀ i, i < (resizeLoop Allocator n P).2.Resources.length →
        (resizeLoop Allocator n P).2.Resources[i]? = Allocator i := by
  induction n generalizing P with
  | zero => exact ⟨rfl, hC, hF⟩
  | succ n ih =>
    unfold resizeLoop
    obtain ⟨NewItem, hN⟩ := Option.isSome_iff_exists.1 (hA P.Created)
    simp only [hN]
    apply ih
    · simp [hC]
    · intro i hi
      simp only [List.length_append, List.length_singleton] at hi
      by_cases hlt : i < P.Resources.length
      · rw [List.getElem?_append_left hlt]
        exact hF i hlt
      · have hi2 : i = P.Resources.length := by omega
        rw [List.getElem?_append_right (by omega), hi2, ← hC, hN]
        simp

theorem acquire_fresh (Allocator : Nat → Option Nat) (hA : ∀ k, (Allocator k).isSome)
    (P : ResourcePoolTy) (hI : P.CursorInv) (hC : P.Created = P.Resources.length)
    (hF : ∀ i, i < P.Resources.length → P.Resources[i]? = Allocator i) :
    ∃ R, (acquire Allocator P).2 = Outcome.ok R ∧ Allocator P.Next = some R ∧
      (acquire Allocator P).1.Next = P.Next + 1 ∧ (acquire Allocator P).1.CursorInv ∧
      (acquire Allocator P).1.Created = (acquire Allocator P).1.Resources.length ∧
      ∀ i, i < (acquire Allocator P).1.Resources.length →
        (acquire Allocator P).1.Resources[i]? = Allocator i := by
  unfold CursorInv at hI
  by_cases hfull : P.Next = P.Resources.length
  · have hgt : (if P.Resources.length ≠ 0 then P.Resources.length * 2 else 1) >
        P.Resources.length := by
      split_ifs <;> omega
    obtain ⟨h1, h2, h3⟩ := resizeLoop_fresh Allocator hA
      ((if P.Resources.length ≠ 0 then P.Resources.length * 2 else 1) - P.Resources.length)
      P hC hF
    obtain ⟨g1, g2, g3⟩ := resizeLoop_next_length Allocator
      ((if P.Resources.length ≠ 0 then P.Resources.length * 2 else 1) - P.Resources.length) P
    have glen := g3 h1
    generalize hres : resizeLoop Allocator
      ((if P.Resources.length ≠ 0 then P.Resources.length * 2 else 1) - P.Resources.length)
      P = res at h1 h2 h3 g1 glen
    obtain ⟨ok, P1⟩ := res
    simp only at h1 h2 h3 g1 glen
    subst h1
    have hlt : P1.Next < P1.Resources.length := by omega
    have hget : P1.Resources[P1.Next]? = Allocator P.Next := by
      rw [h3 _ hlt, g1]
    obtain ⟨R, hR⟩ := Option.isSome_iff_exists.1 (hA P.Next)
    rw [hR] at hget
    refine ⟨R, ?_⟩
    simp only [acquire, hfull, if_true, resize, hgt, hres, hget]
    refine ⟨trivial, ?_, ?_, ?_, h2, h3⟩
    · rw [← hfull]; exact hR
    · omega
    · unfold CursorInv
      simp only
      omega
  · have hlt : P.Next < P.Resources.length := by omega
    have hget : P.Resources[P.Next]? = Allocator P.Next := hF _ hlt
    obtain ⟨R, hR⟩ := Option.isSome_iff_exists.1 (hA P.Next)
    rw [hR] at hget
    refine ⟨R, ?_⟩
    simp only [acquire, hfull, if_false, hget]
    refine ⟨trivial, hR, trivial, ?_, hC, hF⟩
    unfold CursorInv
    simp only
    omega

end ResourcePoolTy

namespace ResourcePoolTy

theorem acquireMany_fresh (Allocator : Nat → Option Nat) (hA : ∀ k, (Allocator k).isSome)
    (n : Nat) (P : ResourcePoolTy) (hI : P.CursorInv) (hC : P.Created = P.Resources.length)
    (hF : ∀ i, i < P.Resources.length → P.Resources[i]? = Allocator i) :
    ∃ hs : List Nat, (acquireMany Allocator n P).2 = hs.map Outcome.ok ∧ hs.length = n ∧
      ∀ i, i < n → hs[i]? = Allocator (P.Next + i) := by
  induction n generalizing P with
  | zero => exact ⟨[], rfl, rfl, fun i hi => absurd hi (Nat.not_lt_zero i)⟩
  | succ n ih =>
    obtain ⟨R, hR, hAR, hNext, hI1, hC1, hF1⟩ := acquire_fresh Allocator hA P hI hC hF
    obtain ⟨hs, h1, h2, h3⟩ := ih (acquire Allocator P).1 hI1 hC1 hF1
    refine ⟨R :: hs, ?_, by simp [h2], ?_⟩
    · simp only [acquireMany, hR, h1, List.map_cons]
    · intro i hi
      cases i with
      | zero => simpa using hAR.symm
      | succ i =>
        have := h3 i (by omega)
        rw [hNext] at this
        simp only [List.getElem?_cons_succ, this]
        congr 1
        omega

/-- C16: on a pool created with capacity 0 whose allocator always succeeds and never hands
out a handle twice, `N` consecutive calls of `acquire` all succeed, and the `N` handles
they return are pairwise distinct. -/
theorem acquireMany_distinct (Allocator : Nat → Option Nat)
    (hA : ∀ k, (Allocator k).isSome)
    (hinj : ∀ i j h, Allocator i = some h → Allocator j = some h → i = j)
    (N : Nat) (_hN : 1 ≤ N) :
    ∃ hs : List Nat,
      (acquireMany Allocator N (ResourcePoolTy.new Allocator 0)).2 = hs.map Outcome.ok ∧
        hs.length = N ∧ hs.Nodup := by
  obtain ⟨hs, h1, h2, h3⟩ := acquireMany_fresh Allocator hA N (ResourcePoolTy.new Allocator 0)
    (by simp [CursorInv, ResourcePoolTy.new]) (by simp [ResourcePoolTy.new])
    (by intro i hi; simp [ResourcePoolTy.new] at hi)
  refine ⟨hs, h1, h2, ?_⟩
  rw [List.nodup_iff_getElem?_ne_getElem?]
  intro i j hij hj heq
  rw [h2] at hj
  have hi := h3 i (by omega)
  have hj2 := h3 j hj
  obtain ⟨R, hR⟩ := Option.isSome_iff_exists.1 (hA ((ResourcePoolTy.new Allocator 0).Next + i))
  rw [hR] at hi
  rw [heq] at hi
  rw [hi] at hj2
  have := hinj _ _ R hR hj2.symm
  omega

/-- C16, witness: five calls of `acquire` on an empty pool over `allocatorExample` return
the handles 1000 to 1004. -/
theorem acquireMany_distinct_witness :
    (acquireMany allocatorExample 5 (ResourcePoolTy.new allocatorExample 0)).2 =
        [1000, 1001, 1002, 1003, 1004].map Outcome.ok ∧
      ∃ hs : List Nat,
        (acquireMany allocatorExample 5 (ResourcePoolTy.new allocatorExample 0)).2 =
            hs.map Outcome.ok ∧ hs.length = 5 ∧ hs.Nodup :=
  ⟨by decide,
   acquireMany_distinct allocatorExample (fun _ => rfl)
    (by
      intro i j h hi hj
      simp only [allocatorExample, Option.some.injEq] at hi hj
      omega)
    5 (by decide)⟩

/-- C17: the cursor invariant `Next <= Resources.size()` holds for a new pool and is kept
by every call of `acquire`, whether it succeeds or fails: a full buffer grows to twice its
size, or to 1 when it is empty, before the handle is handed out. It is kept as well by
every call of `release` made while `Next > 0`. -/
theorem cursorInv_preserved (Allocator : Nat → Option Nat) :
    (∀ Size, (ResourcePoolTy.new Allocator Size).CursorInv) ∧
    (∀ P : ResourcePoolTy, P.CursorInv →
      (acquire Allocator P).1.CursorInv ∧ (acquire Allocator P).2 ≠ Outcome.undefined ∧
        (∀ R, (acquire Allocator P).2 = Outcome.ok R →
          (acquire Allocator P).1.Next = P.Next + 1 ∧
          (acquire Allocator P).1.Resources.length =
            if P.Next = P.Resources.length then
              (if P.Resources.length ≠ 0 then P.Resources.length * 2 else 1)
            else P.Resources.length)) ∧
    (∀ (P : ResourcePoolTy) (R : Nat), P.CursorInv → 0 < P.Next →
      ∃ P1, release P R = some P1 ∧ P1.CursorInv ∧ P1.Next = P.Next - 1) := by
  refine ⟨?_, ?_, ?_⟩
  · intro Size
    unfold ResourcePoolTy.new
    split
    · rename_i hS
      have hgt : Size > 0 := Nat.pos_of_ne_zero hS
      simp only [resize, List.length_nil, hgt, if_true, Nat.sub_zero]
      obtain ⟨h1, _, _⟩ := resizeLoop_next_length Allocator Size
        { Next := 0, Resources := [], Created := 0 }
      unfold CursorInv
      simp only at h1
      omega
    · simp [CursorInv]
  · intro P hI
    unfold CursorInv at hI
    by_cases hfull : P.Next = P.Resources.length
    · have hgt : (if P.Resources.length ≠ 0 then P.Resources.length * 2 else 1) >
          P.Resources.length := by
        split_ifs <;> omega
      obtain ⟨g1, g2, g3⟩ := resizeLoop_next_length Allocator
        ((if P.Resources.length ≠ 0 then P.Resources.length * 2 else 1) -
          P.Resources.length) P
      generalize hres : resizeLoop Allocator
        ((if P.Resources.length ≠ 0 then P.Resources.length * 2 else 1) -
          P.Resources.length) P = res at g1 g2 g3
      obtain ⟨ok, P1⟩ := res
      simp only at g1 g2 g3
      cases ok with
      | false =>
        simp only [acquire, hfull, if_true, resize, hgt, hres, CursorInv]
        refine ⟨by omega, by simp, by simp⟩
      | true =>
        have glen := g3 rfl
        have hlt : P1.Next < P1.Resources.length := by omega
        obtain ⟨R, hR⟩ : ∃ R, P1.Resources[P1.Next]? = some R :=
          ⟨P1.Resources[P1.Next], List.getElem?_eq_getElem hlt⟩
        simp only [acquire, hfull, if_true, resize, hgt, hres, hR, CursorInv]
        refine ⟨by omega, by simp, ?_⟩
        intro R2 _
        refine ⟨by omega, ?_⟩
        rw [glen]
        omega
    · have hlt : P.Next < P.Resources.length := by omega
      obtain ⟨R, hR⟩ : ∃ R, P.Resources[P.Next]? = some R :=
        ⟨P.Resources[P.Next], List.getElem?_eq_getElem hlt⟩
      simp only [acquire, hfull, if_false, hR, CursorInv]
      refine ⟨by omega, by simp, ?_⟩
      intro R2 _
      exact ⟨trivial, trivial⟩
  · intro P R hI hpos
    unfold CursorInv at hI
    have hcond : 0 < P.Next ∧ P.Next - 1 < P.Resources.length := ⟨hpos, by omega⟩
    refine ⟨{ P with Next := P.Next - 1, Resources := P.Resources.set (P.Next - 1) R },
      by simp only [release, hcond, and_self, if_true], ?_, rfl⟩
    unfold CursorInv
    simp only [List.length_set]
    omega

/-- C17, witness: over `allocatorFailing` the third call of `acquire` fails and leaves
the cursor at 2, the fourth call grows the buffer and succeeds; after the first two
calls a release brings the cursor back to 1. -/
theorem cursorInv_preserved_witness :
    (acquireMany allocatorFailing 4 (ResourcePoolTy.new allocatorFailing 0)).2 =
        [Outcome.ok 1000, Outcome.ok 1001, Outcome.fail, Outcome.ok 1003] ∧
      ∃ P1, release (acquireMany allocatorFailing 2 (ResourcePoolTy.new allocatorFailing 0)).1
          1000 = some P1 ∧ P1.CursorInv ∧
        P1.Next =
          (acquireMany allocatorFailing 2 (ResourcePoolTy.new allocatorFailing 0)).1.Next - 1 :=
  ⟨by decide,
   (cursorInv_preserved allocatorFailing).2.2
    (acquireMany allocatorFailing 2 (ResourcePoolTy.new allocatorFailing 0)).1 1000
    (by unfold CursorInv; decide) (by decide)⟩

end ResourcePoolTy

/-! ## Actions and the argument mask -/

namespace jit

theorem Kernel.opEq_eq_true_iff_of_owned (A B : Kernel) (hA : A.Owned) (hB : B.Readable)
    (hArgs : A.NumArgs = B.NumArgs) (hTeams : A.NumTeams = B.NumTeams)
    (hThreads : A.NumThreads = B.NumThreads) :
    A.opEq B = some true ↔
      ∀ i a b m, A.argAt i = some a → B.argAt i = some b → A.Mask[i]? = some m →
        a &&& m = b &&& m := by
  rw [Kernel.opEq_eq_matchLoop A B hA hArgs hTeams hThreads, Kernel.matchLoop_eq_true_iff]
  constructor
  · intro h i a b m ha hb hm
    have hi : i < A.NumArgs := by
      obtain ⟨_, _, h3⟩ := hA
      by_contra hc
      rw [List.getElem?_eq_none (by omega)] at hm
      simp at hm
    obtain ⟨a2, m2, b2, ha2, hm2, hb2, hab⟩ := h i hi
    simp only [Nat.zero_add] at ha2 hm2 hb2
    rw [ha] at ha2
    rw [hb] at hb2
    rw [hm] at hm2
    cases ha2
    cases hb2
    cases hm2
    exact hab
  · intro h j hj
    obtain ⟨ha, hm⟩ := Kernel.argAt_isSome_of_owned A hA j hj
    have hb := hB j (hArgs ▸ hj)
    obtain ⟨a, ha⟩ := Option.isSome_iff_exists.1 ha
    obtain ⟨m, hm⟩ := Option.isSome_iff_exists.1 hm
    obtain ⟨b, hb⟩ := Option.isSome_iff_exists.1 hb
    exact ⟨a, m, b, by simpa using ha, by simpa using hm, by simpa using hb,
      h j a b m ha hb hm⟩

theorem setMaskWord_spec (Mask Mask1 : List Nat) (Index : Int) (V : Nat)
    (h : setMaskWord Mask Index V = some Mask1) :
    Mask1.length = Mask.length ∧ 0 ≤ Index ∧ Mask1[Index.toNat]? = some V ∧
      ∀ j : Nat, Index ≠ (j : Int) → Mask1[j]? = Mask[j]? := by
  unfold setMaskWord at h
  split at h
  · rename_i hc
    simp only [Option.some.injEq] at h
    subst h
    refine ⟨List.length_set _ _ _, hc.1, ?_, ?_⟩
    · rw [List.getElem?_set]
      simp [hc.2]
    · intro j hj
      rw [List.getElem?_set]
      have : ¬ (Index.toNat = j) := by omega
      simp [this]
  · simp at h

theorem applyAction_other (A : ActionTy) (Mask Mask1 : List Nat)
    (h : applyAction A Mask = some Mask1) :
    Mask1.length = Mask.length ∧ ∀ j : Nat, A.Index ≠ (j : Int) → Mask1[j]? = Mask[j]? := by
  unfold applyAction at h
  split at h
  · split at h
    · simp at h
    · split at h
      · simp at h
      · obtain ⟨h1, _, _, h4⟩ := setMaskWord_spec _ _ _ _ h
        exact ⟨h1, h4⟩
  · split at h
    · simp at h
    · split at h
      · simp at h
      · obtain ⟨h1, _, _, h4⟩ := setMaskWord_spec _ _ _ _ h
        exact ⟨h1, h4⟩
  · split at h
    · simp at h
    · split at h
      · simp at h
      · simp only [Option.some.injEq] at h
        subst h
        exact ⟨rfl, fun _ _ => rfl⟩
  · split at h
    · simp at h
    · split at h
      · simp at h
      · simp only [Option.some.injEq] at h
        subst h
        exact ⟨rfl, fun _ _ => rfl⟩
  · simp at h

theorem applyActionsToModule_other (Actions : List ActionTy) (Mask Mask1 : List Nat)
    (h : applyActionsToModule Actions Mask = some Mask1) :
    Mask1.length = Mask.length ∧
      ∀ j : Nat, (∀ X, X ∈ Actions → X.Index ≠ (j : Int)) → Mask1[j]? = Mask[j]? := by
  induction Actions generalizing Mask with
  | nil =>
    simp only [applyActionsToModule, Option.some.injEq] at h
    subst h
    exact ⟨rfl, fun _ _ => rfl⟩
  | cons A Actions ih =>
    rw [applyActionsToModule] at h
    split at h
    · simp at h
    · rename_i M1 hA
      obtain ⟨h1, h2⟩ := applyAction_other A Mask M1 hA
      obtain ⟨h3, h4⟩ := ih M1 h
      refine ⟨h3.trans h1, ?_⟩
      intro j hj
      rw [h4 j (fun X hX => hj X (List.mem_cons_of_mem _ hX)),
        h2 j (hj A (List.mem_cons_self _ _))]

theorem applyActionsToModule_append (Xs Ys : List ActionTy) (Mask : List Nat) :
    applyActionsToModule (Xs ++ Ys) Mask =
      match applyActionsToModule Xs Mask with
      | none => none
      | some Mask1 => applyActionsToModule Ys Mask1 := by
  induction Xs generalizing Mask with
  | nil => rfl
  | cons A Xs ih =>
    simp only [List.cons_append, applyActionsToModule]
    cases applyAction A Mask with
    | none => rfl
    | some M1 => exact ih M1

/-- The mask word of argument `i` after a list of actions in which the last action on `i`
is the one at hand. -/
theorem applyActionsToModule_last (Pre Post : List ActionTy) (X : ActionTy)
    (Mask Mask1 : List Nat) (i : Nat)
    (hPost : ∀ Y, Y ∈ Post → Y.Index ≠ (i : Int))
    (h : applyActionsToModule (Pre ++ X :: Post) Mask = some Mask1) :
    ∃ M0 M1, applyActionsToModule Pre Mask = some M0 ∧ applyAction X M0 = some M1 ∧
      Mask1[i]? = M1[i]? ∧ Mask1.length = Mask.length := by
  rw [applyActionsToModule_append] at h
  split at h
  · simp at h
  · rename_i M0 hPre
    rw [applyActionsToModule] at h
    split at h
    · simp at h
    · rename_i M1 hM1
      obtain ⟨h1, h2⟩ := applyActionsToModule_other Post M1 Mask1 h
      obtain ⟨h3, _⟩ := applyAction_other X M0 M1 hM1
      obtain ⟨h4, _⟩ := applyActionsToModule_other Pre Mask M0 hPre
      exact ⟨M0, M1, hPre, hM1, h2 i hPost, by omega⟩

end jit

namespace jit

theorem argumentAction_spec (D : List ActionKind) (Args : List Nat) (Ty : ArgTy)
    (Idx : Nat) (Acts : List ActionTy) (h : argumentAction D Args Ty Idx = some Acts) :
    ∀ X, X ∈ Acts → X.Index = (Idx : Int) ∧
      ((X.Kind = ActionKind.Alignment ∧ Ty = ArgTy.pointer ∧
          isOptimizationEnabled D ActionKind.Alignment = true) ∨
       (X.Kind = ActionKind.Specialization ∧ Ty = ArgTy.scalar ∧
          isOptimizationEnabled D ActionKind.Specialization = true)) := by
  intro X hX
  cases Ty with
  | pointerToStruct =>
    simp only [argumentAction, Option.some.injEq] at h
    subst h
    simp at hX
  | pointerToAggregate =>
    simp only [argumentAction, Option.some.injEq] at h
    subst h
    simp at hX
  | pointer =>
    simp only [argumentAction] at h
    split at h
    · simp only [Option.some.injEq] at h
      subst h
      simp at hX
    · rename_i hen
      split at h
      · simp at h
      · split at h
        · simp only [Option.some.injEq] at h
          subst h
          simp only [List.mem_singleton] at hX
          subst hX
          exact ⟨rfl, Or.inl ⟨rfl, rfl, by simpa using hen⟩⟩
        · simp only [Option.some.injEq] at h
          subst h
          simp at hX
  | scalar =>
    simp only [argumentAction] at h
    split at h
    · rename_i hen
      split at h
      · simp at h
      · simp only [Option.some.injEq] at h
        subst h
        simp only [List.mem_singleton] at hX
        subst hX
        exact ⟨rfl, Or.inr ⟨rfl, rfl, hen⟩⟩
    · simp only [Option.some.injEq] at h
      subst h
      simp at hX

theorem argumentActions_spec (D : List ActionKind) (Args : List Nat) (Tys : List ArgTy)
    (Idx : Nat) (Acts : List ActionTy) (h : argumentActions D Args Tys Idx = some Acts) :
    ∀ X, X ∈ Acts → ∃ k, X.Index = ((Idx + k : Nat) : Int) ∧
      ((X.Kind = ActionKind.Alignment ∧ Tys[k]? = some ArgTy.pointer ∧
          isOptimizationEnabled D ActionKind.Alignment = true) ∨
       (X.Kind = ActionKind.Specialization ∧ Tys[k]? = some ArgTy.scalar ∧
          isOptimizationEnabled D ActionKind.Specialization = true)) := by
  induction Tys generalizing Idx Acts with
  | nil =>
    simp only [argumentActions, Option.some.injEq] at h
    subst h
    intro X hX
    simp at hX
  | cons Ty Tys ih =>
    rw [argumentActions] at h
    split at h
    swap
    · simp at h
    rename_i A1 A2 hHere hRest
    simp only [Option.some.injEq] at h
    subst h
    intro X hX
    rcases List.mem_append.1 hX with hX1 | hX2
    · obtain ⟨h1, h2⟩ := argumentAction_spec D Args Ty Idx A1 hHere X hX1
      refine ⟨0, by simpa using h1, ?_⟩
      rcases h2 with ⟨a, b, c⟩ | ⟨a, b, c⟩
      · exact Or.inl ⟨a, by simp [b], c⟩
      · exact Or.inr ⟨a, by simp [b], c⟩
    · obtain ⟨k, hk1, hk2⟩ := ih (Idx + 1) A2 hRest X hX2
      refine ⟨k + 1, ?_, ?_⟩
      · rw [hk1]
        congr 1
        omega
      · simpa using hk2

theorem launchRequest_fields (D : List ActionKind) (Name : String) (Args : List Nat)
    (NumTeams ThreadLimit : Nat) :
    (launchRequest D Name Args NumTeams ThreadLimit).Name = Name ∧
      (launchRequest D Name Args NumTeams ThreadLimit).NumArgs = Args.length % 2 ^ 32 ∧
      (launchRequest D Name Args NumTeams ThreadLimit).Arguments = ArgPtr.view Args ∧
      (launchRequest D Name Args NumTeams ThreadLimit).NumTeams =
        (if isOptimizationEnabled D ActionKind.NumTeams then NumTeams % 2 ^ 32 else 0) ∧
      (launchRequest D Name Args NumTeams ThreadLimit).NumThreads =
        (if isOptimizationEnabled D ActionKind.NumThreads then ThreadLimit % 2 ^ 32 else 0) := by
  unfold launchRequest
  simp only
  split_ifs <;> simp [Kernel.setArgs, Kernel.setNumTeams, Kernel.setNumThreads, Kernel.new]

/-- The descriptor `loadJITImage` caches owns the words of the call, and its mask has one
word for each of them. -/
theorem loadJITImageKernel_spec (D : List ActionKind) (Name : String) (Tys : List ArgTy)
    (Args : List Nat) (NumTeams ThreadLimit : Nat) (Geometry : List ActionTy) (Kc : Kernel)
    (hlen : Args.length < 2 ^ 32)
    (h : loadJITImageKernel D Name Tys Args NumTeams ThreadLimit Geometry = some Kc) :
    ∃ Acts, argumentActions D Args Tys 0 = some Acts ∧ Tys.length = Args.length ∧
      applyActionsToModule (Acts ++ Geometry) (List.replicate Args.length 0) = some Kc.Mask ∧
      Kc.Mask.length = Args.length ∧ Kc.Owned ∧ Kc.ArgumentsBuffer = Args ∧
      Kc.NumArgs = Args.length ∧
      Kc.NumTeams = (launchRequest D Name Args NumTeams ThreadLimit).NumTeams ∧
      Kc.NumThreads = (launchRequest D Name Args NumTeams ThreadLimit).NumThreads := by
  unfold loadJITImageKernel at h
  split at h
  · simp at h
  rename_i Mask hMask
  unfold loadJITImageMask at hMask
  split at hMask
  · simp at hMask
  rename_i hTys
  split at hMask
  · simp at hMask
  rename_i Acts hActs
  obtain ⟨hMlen, _⟩ := applyActionsToModule_other _ _ _ hMask
  simp only [List.length_replicate] at hMlen
  obtain ⟨_, f2, f3, _, _⟩ := launchRequest_fields D Name Args NumTeams ThreadLimit
  rw [Nat.mod_eq_of_lt hlen] at f2
  have hread : (launchRequest D Name Args NumTeams ThreadLimit).readArgs = some Args := by
    simp [Kernel.readArgs, f2, f3]
  simp only [Kernel.setMask, f3, hread] at h
  simp only [ne_eq, reduceCtorEq, not_false_eq_true, if_true, Option.some.injEq] at h
  subst h
  refine ⟨Acts, hActs, by simpa using hTys, hMask, hMlen, ⟨rfl, ?_, ?_⟩, rfl, f2, rfl, rfl⟩
  · simp [f2]
  · simp [f2, hMlen]

theorem opEq_launchRequest_iff (D : List ActionKind) (Name : String) (Args Args2 : List Nat)
    (NumTeams ThreadLimit : Nat) (Kc : Kernel) (hlen : Args.length < 2 ^ 32)
    (hlen2 : Args2.length = Args.length) (hO : Kc.Owned) (hB : Kc.ArgumentsBuffer = Args)
    (hN : Kc.NumArgs = Args.length)
    (hT : Kc.NumTeams = (launchRequest D Name Args NumTeams ThreadLimit).NumTeams)
    (hTh : Kc.NumThreads = (launchRequest D Name Args NumTeams ThreadLimit).NumThreads) :
    Kc.opEq (launchRequest D Name Args2 NumTeams ThreadLimit) = some true ↔
      ∀ (j a b m : Nat), Args[j]? = some a → Args2[j]? = some b → Kc.Mask[j]? = some m →
        a &&& m = b &&& m := by
  obtain ⟨_, f2, f3, f4, f5⟩ := launchRequest_fields D Name Args2 NumTeams ThreadLimit
  obtain ⟨_, _, _, g4, g5⟩ := launchRequest_fields D Name Args NumTeams ThreadLimit
  rw [hlen2, Nat.mod_eq_of_lt hlen] at f2
  have hRead : (launchRequest D Name Args2 NumTeams ThreadLimit).Readable := by
    intro i hi
    rw [f2] at hi
    simp only [Kernel.argAt, f3]
    rw [List.getElem?_eq_getElem (by omega)]
    rfl
  rw [Kernel.opEq_eq_true_iff_of_owned Kc _ hO hRead (by rw [hN, f2]) (by rw [hT, g4, f4])
    (by rw [hTh, g5, f5])]
  have hA : ∀ j, Kc.argAt j = Args[j]? := by
    intro j
    simp only [Kernel.argAt, hO.1, hB]
  have hA2 : ∀ j, (launchRequest D Name Args2 NumTeams ThreadLimit).argAt j = Args2[j]? := by
    intro j
    simp only [Kernel.argAt, f3]
  simp only [hA, hA2]

end jit

namespace jit

/-- C18, as the specification states it, fails: for the pointer `0x1000` the Alignment
action has the value 128 and the mask word is 127, the bits below 128, which are thus the
ones compared. A later call with the pointer `0x1008`, which differs in bits below 128
only, does not match the cached entry. -/
theorem alignment_mask_counterexample :
    loadJITImageKernel [] "saxpy" [ArgTy.pointer] [0x1000] 4 128 [] = some alignedExample ∧
      alignedExample.Mask = [128 - 1] ∧ 0x1000 ^^^ 0x1008 < 128 ∧
      alignedExample.opEq (launchRequest [] "saxpy" [0x1008] 4 128) = some false := by
  decide

/-- C18, amended: an Alignment action with value `A` recorded for argument `i` makes
`applyActionsToModule` set `mask[i] = A - 1`. For a power of two `A` the bits of
argument `i` below `A` are therefore the significant ones and the bits from `A` upwards
are not compared: a call whose other arguments agree with the cached entry matches it
exactly when argument `i` agrees with the cached one in the bits below `A`. -/
theorem applyActionsToModule_alignment_mask :
    (∀ (Pre Post : List ActionTy) (Mask Mask1 : List Nat) (i A : Nat),
      0 < A → A < 2 ^ 64 → (∀ Y, Y ∈ Post → Y.Index ≠ (i : Int)) →
      applyActionsToModule
          (Pre ++ ActionTy.ofIndexValue ActionKind.Alignment i A :: Post) Mask = some Mask1 →
        Mask1[i]? = some (A - 1)) ∧
    (∀ (A0 B : Kernel) (i k p q : Nat), A0.Owned → B.Readable →
      A0.NumArgs = B.NumArgs → A0.NumTeams = B.NumTeams → A0.NumThreads = B.NumThreads →
      A0.Mask[i]? = some (2 ^ k - 1) → A0.argAt i = some p → B.argAt i = some q →
      (∀ (j a b m : Nat), j ≠ i → A0.argAt j = some a → B.argAt j = some b →
        A0.Mask[j]? = some m → a &&& m = b &&& m) →
        (A0.opEq B = some true ↔ p % 2 ^ k = q % 2 ^ k)) := by
  constructor
  · intro Pre Post Mask Mask1 i A hA0 hA64 hPost h
    obtain ⟨M0, M1, _, hX, hi, _⟩ := applyActionsToModule_last Pre Post _ Mask Mask1 i hPost h
    have hne : ¬ ((i : Int) = -1) := by omega
    simp only [applyAction, ActionTy.ofIndexValue, hne, if_false, not_true_eq_false] at hX
    obtain ⟨_, _, h3, _⟩ := setMaskWord_spec _ _ _ _ hX
    have e : (A + 2 ^ 64 - 1) % 2 ^ 64 = A - 1 := by omega
    simp only [Int.toNat_ofNat] at h3
    rw [hi, h3, e]
  · intro A0 B i k p q hO hR hN hT hTh hM hp hq hrest
    rw [Kernel.opEq_eq_true_iff_of_owned A0 B hO hR hN hT hTh]
    constructor
    · intro h
      have := h i p q _ hp hq hM
      simpa [Nat.and_pow_two_sub_one_eq_mod] using this
    · intro h j a b m ha hb hm
      by_cases hj : j = i
      · subst hj
        rw [hp] at ha
        rw [hq] at hb
        rw [hM] at hm
        cases ha
        cases hb
        cases hm
        simpa [Nat.and_pow_two_sub_one_eq_mod] using h
      · exact hrest j a b m hj ha hb hm

/-- C18, witness: the Alignment action of value 128 on argument 0 turns the mask `[0]`
into `[127]`, and the entry cached for the pointer `0x1000` matches the pointer `0x2000`,
which agrees with it in the seven low bits. -/
theorem applyActionsToModule_alignment_mask_witness :
    ([127] : List Nat)[0]? = some (128 - 1) ∧
      (alignedExample.opEq (launchRequest [] "saxpy" [0x2000] 4 128) = some true ↔
        0x1000 % 2 ^ 7 = 0x2000 % 2 ^ 7) :=
  ⟨applyActionsToModule_alignment_mask.1 [] [] [0] [127] 0 128 (by decide) (by decide)
      (by intro Y hY; simp at hY) (by decide),
   applyActionsToModule_alignment_mask.2 alignedExample
      (launchRequest [] "saxpy" [0x2000] 4 128) 0 7 0x1000 0x2000 ⟨rfl, rfl, rfl⟩
      (by
        intro i hi
        have hi2 : i < 1 := hi
        interval_cases i
        rfl)
      rfl rfl rfl rfl rfl rfl
      (by
        intro j a b m hj ha _ _
        cases j with
        | zero => exact absurd rfl hj
        | succ j => simp [Kernel.argAt, alignedExample] at ha)⟩

end jit

namespace jit

/-- C20, as the specification states it, fails: with specialization disabled the mask word
of the scalar argument stays 0, and the cached descriptor matches a later call that
passes 4 where the cached call passed 5. -/
theorem disabled_mask_counterexample :
    loadJITImageKernel [ActionKind.Specialization] "saxpy" [ArgTy.scalar] [5] 4 128 [] =
        some unspecializedExample ∧
      unspecializedExample.Mask = [0] ∧
      unspecializedExample.opEq
          (launchRequest [ActionKind.Specialization] "saxpy" [4] 4 128) = some true := by
  decide

/-- C20, amended: when alignment or specialization is disabled, `loadJITImage` generates
no action of that kind, and the mask words of the arguments the kind applies to, pointers
for alignment and scalars for specialization, keep their initial value 0. These arguments
then take no part in matching: the cached descriptor matches every later request for the
same kernel, team count and thread limit that differs from the cached call in such
arguments only. -/
theorem loadJITImageKernel_disabled (D : List ActionKind) (Name : String)
    (Tys : List ArgTy) (Args : List Nat) (NumTeams ThreadLimit : Nat)
    (Geometry : List ActionTy) (Kc : Kernel) (hlen : Args.length < 2 ^ 32)
    (hGeo : ∀ X, X ∈ Geometry → X.Index = -1)
    (h : loadJITImageKernel D Name Tys Args NumTeams ThreadLimit Geometry = some Kc) :
    (∀ (K : ActionKind) (Idx : Nat) (Acts : List ActionTy),
      (K = ActionKind.Alignment ∨ K = ActionKind.Specialization) → K ∈ D →
      argumentActions D Args Tys Idx = some Acts → ∀ X, X ∈ Acts → X.Kind ≠ K) ∧
    (∀ (i : Nat) (Ty : ArgTy), Tys[i]? = some Ty →
      ((ActionKind.Alignment ∈ D ∧ Ty.isPointerTy = true) ∨
        (ActionKind.Specialization ∈ D ∧ Ty = ArgTy.scalar)) →
      Kc.Mask[i]? = some 0) ∧
    (∀ Args2 : List Nat, Args2.length = Args.length →
      (∀ i : Nat, Args2[i]? = Args[i]? ∨
        ∃ Ty, Tys[i]? = some Ty ∧
          ((ActionKind.Alignment ∈ D ∧ Ty.isPointerTy = true) ∨
            (ActionKind.Specialization ∈ D ∧ Ty = ArgTy.scalar))) →
      Kc.opEq (launchRequest D Name Args2 NumTeams ThreadLimit) = some true) := by
  obtain ⟨Acts, hActs, hTys, hMask, hMlen, hO, hB, hN, hT, hTh⟩ :=
    loadJITImageKernel_spec D Name Tys Args NumTeams ThreadLimit Geometry Kc hlen h
  have part1 : ∀ (K : ActionKind) (Idx : Nat) (Acts : List ActionTy),
      (K = ActionKind.Alignment ∨ K = ActionKind.Specialization) → K ∈ D →
      argumentActions D Args Tys Idx = some Acts → ∀ X, X ∈ Acts → X.Kind ≠ K := by
    intro K Idx Acts2 hK hD hA X hX hXK
    obtain ⟨k, _, hk⟩ := argumentActions_spec D Args Tys Idx Acts2 hA X hX
    rcases hk with ⟨a, _, c⟩ | ⟨a, _, c⟩
    · rw [a] at hXK
      subst hXK
      simp [isOptimizationEnabled, hD] at c
    · rw [a] at hXK
      subst hXK
      simp [isOptimizationEnabled, hD] at c
  have part2 : ∀ (i : Nat) (Ty : ArgTy), Tys[i]? = some Ty →
      ((ActionKind.Alignment ∈ D ∧ Ty.isPointerTy = true) ∨
        (ActionKind.Specialization ∈ D ∧ Ty = ArgTy.scalar)) →
      Kc.Mask[i]? = some 0 := by
    intro i Ty hTy hdis
    have hi : i < Args.length := by
      rw [← hTys]
      by_contra hc
      rw [List.getElem?_eq_none (by omega)] at hTy
      simp at hTy
    obtain ⟨_, hother⟩ := applyActionsToModule_other _ _ _ hMask
    rw [hother i]
    · rw [List.getElem?_eq_getElem (by simpa using hi)]
      simp
    · intro X hX hXi
      rcases List.mem_append.1 hX with hX1 | hX2
      · obtain ⟨k, hk1, hk2⟩ := argumentActions_spec D Args Tys 0 Acts hActs X hX1
        have hki : k = i := by
          rw [hk1] at hXi
          omega
        subst hki
        rcases hk2 with ⟨_, b, c⟩ | ⟨_, b, c⟩
        · rw [hTy] at b
          cases b
          rcases hdis with ⟨d, _⟩ | ⟨_, e⟩
          · simp [isOptimizationEnabled, d] at c
          · cases e
        · rw [hTy] at b
          cases b
          rcases hdis with ⟨_, e⟩ | ⟨d, _⟩
          · simp [ArgTy.isPointerTy] at e
          · simp [isOptimizationEnabled, d] at c
      · have := hGeo X hX2
        omega
  refine ⟨part1, part2, ?_⟩
  intro Args2 hlen2 hdiff
  rw [opEq_launchRequest_iff D Name Args Args2 NumTeams ThreadLimit Kc hlen hlen2 hO hB hN hT
    hTh]
  intro j a b m ha hb hm
  rcases hdiff j with hsame | ⟨Ty, hTy, hdis⟩
  · rw [hsame, ha] at hb
    cases hb
    rfl
  · rw [part2 j Ty hTy hdis] at hm
    cases hm
    simp

/-- C20, witness: with specialization disabled the descriptor cached for the scalar 5 has
the mask word 0 and matches a later call with the scalar 4. -/
theorem loadJITImageKernel_disabled_witness :
    unspecializedExample.Mask[0]? = some 0 ∧
      unspecializedExample.opEq
          (launchRequest [ActionKind.Specialization] "saxpy" [4] 4 128) = some true :=
  ⟨(loadJITImageKernel_disabled [ActionKind.Specialization] "saxpy" [ArgTy.scalar] [5] 4 128
      [] unspecializedExample (by decide) (by intro X hX; simp at hX) (by decide)).2.1
      0 ArgTy.scalar rfl (Or.inr ⟨by decide, rfl⟩),
   (loadJITImageKernel_disabled [ActionKind.Specialization] "saxpy" [ArgTy.scalar] [5] 4 128
      [] unspecializedExample (by decide) (by intro X hX; simp at hX) (by decide)).2.2
      [4] rfl
      (by
        intro i
        cases i with
        | zero => exact Or.inr ⟨ArgTy.scalar, rfl, Or.inr ⟨by decide, rfl⟩⟩
        | succ i => exact Or.inl rfl)⟩

end jit

/-! ## Serialization -/

namespace jit

theorem bytesLE_length (n V : Nat) : (bytesLE n V).length = n := by
  induction n generalizing V with
  | zero => rfl
  | succ n ih => simp [bytesLE, ih]

theorem writeBytes_isSome_iff (Buffer : List Nat) (P : Nat) (Bytes : List Nat) :
    (writeBytes Buffer P Bytes).isSome ↔ P + Bytes.length ≤ Buffer.length := by
  unfold writeBytes
  split <;> simp_all

theorem writeBytes_length (Buffer Out : List Nat) (P : Nat) (Bytes : List Nat)
    (h : writeBytes Buffer P Bytes = some Out) : Out.length = Buffer.length := by
  unfold writeBytes at h
  split at h
  · simp only [Option.some.injEq] at h
    subst h
    simp only [List.length_append, List.length_take, List.length_drop]
    omega
  · simp at h

theorem writeBytes_append (Pre Suf Out : List Nat) (P : Nat) (Bytes : List Nat)
    (hP : P = Pre.length) (h : writeBytes (Pre ++ Suf) P Bytes = some Out) :
    Out = (Pre ++ Bytes) ++ Suf.drop Bytes.length ∧ Bytes.length ≤ Suf.length := by
  unfold writeBytes at h
  split at h
  · rename_i hle
    simp only [Option.some.injEq] at h
    subst h
    subst hP
    simp only [List.length_append] at hle
    refine ⟨?_, by omega⟩
    rw [List.take_left', List.drop_append_eq_append_drop]
    · simp [List.drop_eq_nil_of_le]
    · rfl
  · simp at h

namespace Kernel

theorem writeWords_length (Words : List Nat) (n I : Nat) (Buffer Out : List Nat) (P : Nat)
    (h : writeWords Words n I Buffer P = some Out) : Out.length = Buffer.length := by
  induction n generalizing I Buffer P with
  | zero =>
    simp only [writeWords, Option.some.injEq] at h
    rw [h]
  | succ n ih =>
    rw [writeWords] at h
    split at h
    · simp at h
    · split at h
      · simp at h
      · rename_i B1 hB1
        rw [ih _ _ _ h, writeBytes_length _ _ _ _ hB1]

theorem writeWords_isSome (Words : List Nat) (n I : Nat) (Buffer : List Nat) (P : Nat)
    (hI : I + n ≤ Words.length) (hP : n = 0 ∨ P + 8 * n ≤ Buffer.length) :
    (writeWords Words n I Buffer P).isSome := by
  induction n generalizing I Buffer P with
  | zero => simp [writeWords]
  | succ n ih =>
    rw [writeWords]
    have hlt : I < Words.length := by omega
    rw [List.getElem?_eq_getElem hlt]
    simp only
    have hw : (writeBytes Buffer P (bytesLE 8 Words[I])).isSome := by
      rw [writeBytes_isSome_iff, bytesLE_length]
      omega
    obtain ⟨B1, hB1⟩ := Option.isSome_iff_exists.1 hw
    simp only [hB1]
    apply ih
    · omega
    · rw [writeBytes_length _ _ _ _ hB1]
      omega

theorem writeWords_bound (Words : List Nat) (n I : Nat) (Buffer Out : List Nat) (P : Nat)
    (h : writeWords Words n I Buffer P = some Out) :
    n = 0 ∨ P + 8 * n ≤ Buffer.length := by
  induction n generalizing I Buffer P with
  | zero => exact Or.inl rfl
  | succ n ih =>
    right
    rw [writeWords] at h
    split at h
    · simp at h
    · split at h
      · simp at h
      · rename_i B1 hB1
        have h1 : P + 8 ≤ Buffer.length := by
          have := (writeBytes_isSome_iff Buffer P _).1 (by rw [hB1]; rfl)
          rwa [bytesLE_length] at this
        rcases ih _ _ _ h with h0 | h2
        · omega
        · rw [writeBytes_length _ _ _ _ hB1] at h2
          omega

theorem writeWords_append (Words : List Nat) (n I : Nat) (Pre Suf Out : List Nat) (P : Nat)
    (hP : P = Pre.length) (h : writeWords Words n I (Pre ++ Suf) P = some Out) :
    Out = (Pre ++ (((Words.drop I).take n).map (bytesLE 8)).flatten) ++ Suf.drop (8 * n) := by
  induction n generalizing I Pre Suf P with
  | zero =>
    simp only [writeWords, Option.some.injEq] at h
    simp [← h]
  | succ n ih =>
    rw [writeWords] at h
    split at h
    · simp at h
    · rename_i W hW
      split at h
      · simp at h
      · rename_i B1 hB1
        obtain ⟨hB, _⟩ := writeBytes_append Pre Suf B1 P _ hP hB1
        rw [hB] at h
        have := ih (I + 1) (Pre ++ bytesLE 8 W) (Suf.drop (bytesLE 8 W).length) (P + 8)
          (by simp [hP, bytesLE_length]) h
        rw [this]
        have hdrop : Words.drop I = W :: Words.drop (I + 1) := by
          have hlt : I < Words.length := by
            by_contra hc
            rw [List.getElem?_eq_none (by omega)] at hW
            simp at hW
          rw [List.drop_eq_getElem_cons hlt]
          rw [List.getElem?_eq_getElem hlt] at hW
          simp only [Option.some.injEq] at hW
          rw [hW]
        rw [hdrop]
        simp only [List.take_succ_cons, List.map_cons, List.flatten_cons, List.append_assoc,
          bytesLE_length, List.drop_drop]
        have e : 8 + 8 * n = 8 * (n + 1) := by omega
        rw [e]

end Kernel

end jit

namespace jit

theorem bytesLE_append (m n V : Nat) :
    bytesLE (m + n) V = bytesLE m V ++ bytesLE n (V / 256 ^ m) := by
  induction m generalizing V with
  | zero => simp [bytesLE]
  | succ m ih =>
    have e : m + 1 + n = (m + n) + 1 := by omega
    rw [e, bytesLE, bytesLE, ih, Nat.pow_succ, Nat.div_div_eq_div_mul, Nat.mul_comm]
    rfl

namespace Kernel

theorem name_bytes_length (K : Kernel) : (K.Name.data.map Char.toNat).length = K.Name.length := by
  rw [List.length_map]
  rfl

/-- The buffer sizes for which `serialize` stays inside the buffer. -/
theorem serialize_isSome_iff (K : Kernel) (Buffer : List Nat)
    (hA : K.ArgumentsBuffer.length = K.NumArgs) (hM : K.Mask.length = K.NumArgs) :
    (K.serialize Buffer).isSome ↔
      (if K.NumArgs = 0 then K.size + 4 else K.size) ≤ Buffer.length := by
  constructor
  · intro h
    obtain ⟨Out, hOut⟩ := Option.isSome_iff_exists.1 h
    unfold serialize at hOut
    split at hOut
    · simp at hOut
    rename_i B1 hB1
    split at hOut
    · simp at hOut
    rename_i B2 hB2
    split at hOut
    · simp at hOut
    rename_i B3 hB3
    split at hOut
    · simp at hOut
    rename_i B4 hB4
    split at hOut
    · simp at hOut
    rename_i B5 hB5
    split at hOut
    · simp at hOut
    rename_i B6 hB6
    have l1 := writeBytes_length _ _ _ _ hB1
    have l2 := writeBytes_length _ _ _ _ hB2
    have l3 := writeBytes_length _ _ _ _ hB3
    have l4 := writeBytes_length _ _ _ _ hB4
    have l5 := writeBytes_length _ _ _ _ hB5
    have l6 := writeWords_length _ _ _ _ _ _ hB6
    have c5 := (writeBytes_isSome_iff B4 _ _).1 (by rw [hB5]; rfl)
    rw [bytesLE_length] at c5
    have c7 := writeWords_bound _ _ _ _ _ _ hOut
    unfold size
    split
    · omega
    · rcases c7 with c7 | c7
      · omega
      · omega
  · intro h
    unfold size at h
    have hlen : K.Name.length + 17 ≤ Buffer.length ∧
        K.Name.length + 13 + 16 * K.NumArgs ≤ Buffer.length := by
      split at h <;> omega
    obtain ⟨B1, hB1⟩ := Option.isSome_iff_exists.1
      ((writeBytes_isSome_iff Buffer 0 (K.Name.data.map Char.toNat)).2
        (by rw [name_bytes_length]; omega))
    have l1 := writeBytes_length _ _ _ _ hB1
    obtain ⟨B2, hB2⟩ := Option.isSome_iff_exists.1
      ((writeBytes_isSome_iff B1 K.Name.length [0]).2 (by simp only [List.length_singleton]; omega))
    have l2 := writeBytes_length _ _ _ _ hB2
    obtain ⟨B3, hB3⟩ := Option.isSome_iff_exists.1
      ((writeBytes_isSome_iff B2 (K.Name.length + 1) (bytesLE 4 K.NumTeams)).2
        (by rw [bytesLE_length]; omega))
    have l3 := writeBytes_length _ _ _ _ hB3
    obtain ⟨B4, hB4⟩ := Option.isSome_iff_exists.1
      ((writeBytes_isSome_iff B3 (K.Name.length + 1 + 4) (bytesLE 4 K.NumThreads)).2
        (by rw [bytesLE_length]; omega))
    have l4 := writeBytes_length _ _ _ _ hB4
    obtain ⟨B5, hB5⟩ := Option.isSome_iff_exists.1
      ((writeBytes_isSome_iff B4 (K.Name.length + 1 + 4 + 4) (bytesLE 8 K.NumArgs)).2
        (by rw [bytesLE_length]; omega))
    have l5 := writeBytes_length _ _ _ _ hB5
    obtain ⟨B6, hB6⟩ := Option.isSome_iff_exists.1
      (writeWords_isSome K.ArgumentsBuffer K.NumArgs 0 B5 (K.Name.length + 1 + 4 + 4 + 4)
        (by omega) (Or.inr (by omega)))
    have l6 := writeWords_length _ _ _ _ _ _ hB6
    have h7 := writeWords_isSome K.Mask K.NumArgs 0 B6
      (K.Name.length + 1 + 4 + 4 + 4 + 8 * K.NumArgs) (by omega) (Or.inr (by omega))
    simp only [serialize, hB1, hB2, hB3, hB4, hB5, hB6]
    exact h7

/-- After `serialize` the buffer starts with the encoding of the descriptor. -/
theorem serialize_content (K : Kernel) (Buffer Out : List Nat)
    (hA : K.ArgumentsBuffer.length = K.NumArgs) (hM : K.Mask.length = K.NumArgs)
    (h : K.serialize Buffer = some Out) :
    ∃ Rest, Out = K.encode ++ Rest ∧ Out.length = Buffer.length := by
  unfold serialize at h
  split at h
  · simp at h
  rename_i B1 hB1
  split at h
  · simp at h
  rename_i B2 hB2
  split at h
  · simp at h
  rename_i B3 hB3
  split at h
  · simp at h
  rename_i B4 hB4
  split at h
  · simp at h
  rename_i B5 hB5
  split at h
  · simp at h
  rename_i B6 hB6
  have l1 := writeBytes_length _ _ _ _ hB1
  have l2 := writeBytes_length _ _ _ _ hB2
  have l3 := writeBytes_length _ _ _ _ hB3
  have l4 := writeBytes_length _ _ _ _ hB4
  have l5 := writeBytes_length _ _ _ _ hB5
  have l6 := writeWords_length _ _ _ _ _ _ hB6
  have l7 := writeWords_length _ _ _ _ _ _ h
  have hn := name_bytes_length K
  obtain ⟨e1, _⟩ := writeBytes_append [] Buffer B1 0 _ rfl hB1
  rw [e1] at hB2
  obtain ⟨e2, _⟩ := writeBytes_append _ _ B2 _ _
    (by simp only [List.length_append, List.length_nil, hn]; omega) hB2
  rw [e2] at hB3
  obtain ⟨e3, _⟩ := writeBytes_append _ _ B3 _ _
    (by simp only [List.length_append, List.length_nil, List.length_singleton, hn]; omega)
    hB3
  rw [e3] at hB4
  obtain ⟨e4, _⟩ := writeBytes_append _ _ B4 _ _
    (by simp only [List.length_append, List.length_nil, List.length_singleton, hn,
          bytesLE_length]; omega) hB4
  rw [e4] at hB5
  obtain ⟨e5, _⟩ := writeBytes_append _ _ B5 _ _
    (by simp only [List.length_append, List.length_nil, List.length_singleton, hn,
          bytesLE_length]; omega) hB5
  have e8 : bytesLE 8 K.NumArgs = bytesLE 4 K.NumArgs ++ bytesLE 4 (K.NumArgs / 256 ^ 4) :=
    bytesLE_append 4 4 K.NumArgs
  rw [e8, ← List.append_assoc _ (bytesLE 4 K.NumArgs), List.append_assoc _ (bytesLE 4 _)] at e5
  rw [e5] at hB6
  have e6 := writeWords_append _ _ _ _ _ B6 _
    (by simp only [List.length_append, List.length_nil, List.length_singleton, hn,
          bytesLE_length]; omega) hB6
  have t1 : (K.ArgumentsBuffer.drop 0).take K.NumArgs = K.ArgumentsBuffer := by
    rw [List.drop_zero, ← hA, List.take_length]
  have t2 : (K.Mask.drop 0).take K.NumArgs = K.Mask := by
    rw [List.drop_zero, ← hM, List.take_length]
  rw [t1] at e6
  rw [e6] at h
  have hflat : ((K.ArgumentsBuffer.map (bytesLE 8)).flatten).length = 8 * K.NumArgs := by
    rw [← hA]
    generalize K.ArgumentsBuffer = ws
    induction ws with
    | nil => rfl
    | cons w ws ih =>
      simp only [List.map_cons, List.flatten_cons, List.length_append, bytesLE_length, ih,
        List.length_cons]
      omega
  have e7 := writeWords_append _ _ _ _ _ Out _
    (by simp only [List.length_append, List.length_nil, List.length_singleton, hn,
          bytesLE_length, hflat]; omega) h
  rw [t2] at e7
  have hlen : Out.length = Buffer.length := by omega
  generalize List.drop (8 * K.NumArgs) _ = S at e7
  refine ⟨S, ?_, hlen⟩
  rw [e7]
  unfold encode
  simp only [List.nil_append, List.append_assoc]

end Kernel

end jit

namespace jit

namespace Kernel

theorem readCString_append (Chars Tail : List Nat) (h : ∀ b, b ∈ Chars → b ≠ 0) :
    readCString (Chars ++ 0 :: Tail) 0 = some Chars := by
  have htw : (Chars ++ 0 :: Tail).takeWhile (fun b => decide (b ≠ 0)) = Chars := by
    induction Chars with
    | nil => simp [List.takeWhile]
    | cons c Chars ih =>
      have hc : c ≠ 0 := h c (List.mem_cons_self _ _)
      simp only [List.cons_append, List.takeWhile_cons, hc, ne_eq, not_false_eq_true,
        decide_True, if_true, List.cons.injEq, true_and]
      exact ih (fun b hb => h b (List.mem_cons_of_mem _ hb))
  unfold readCString
  simp only [List.drop_zero, htw, List.length_append, List.length_cons]
  rw [if_pos (by omega)]

theorem getElem?_append_offset (Pre X : List Nat) (k : Nat) :
    (Pre ++ X)[Pre.length + k]? = X[k]? := by
  rw [List.getElem?_append_right (by omega)]
  congr 1
  omega

theorem readU32_append (Pre Tail : List Nat) (V : Nat) :
    readU32 (Pre ++ (bytesLE 4 V ++ Tail)) Pre.length = some (V % 2 ^ 32) := by
  unfold readU32
  have h0 := getElem?_append_offset Pre (bytesLE 4 V ++ Tail) 0
  have h1 := getElem?_append_offset Pre (bytesLE 4 V ++ Tail) 1
  have h2 := getElem?_append_offset Pre (bytesLE 4 V ++ Tail) 2
  have h3 := getElem?_append_offset Pre (bytesLE 4 V ++ Tail) 3
  simp only [Nat.add_zero] at h0
  rw [h0, h1, h2, h3]
  simp only [bytesLE, List.cons_append, List.nil_append, List.getElem?_cons_zero,
    List.getElem?_cons_succ, Option.some.injEq]
  omega

theorem readU64_append (Pre Tail : List Nat) (W : Nat) :
    readU64 (Pre ++ (bytesLE 8 W ++ Tail)) Pre.length = some (W % 2 ^ 64) := by
  unfold readU64
  have e8 : bytesLE 8 W = bytesLE 4 W ++ bytesLE 4 (W / 256 ^ 4) := bytesLE_append 4 4 W
  have hlo : readU32 (Pre ++ (bytesLE 8 W ++ Tail)) Pre.length = some (W % 2 ^ 32) := by
    rw [e8, List.append_assoc]
    exact readU32_append Pre _ W
  have hhi : readU32 (Pre ++ (bytesLE 8 W ++ Tail)) (Pre.length + 4) =
      some (W / 256 ^ 4 % 2 ^ 32) := by
    rw [e8, List.append_assoc, ← List.append_assoc Pre]
    have := readU32_append (Pre ++ bytesLE 4 W) Tail (W / 256 ^ 4)
    simpa only [List.length_append, bytesLE_length] using this
  rw [hlo, hhi]
  simp only [Option.some.injEq]
  omega

theorem readWords_append (Words : List Nat) (Pre Tail : List Nat) :
    readWords (Pre ++ ((Words.map (bytesLE 8)).flatten ++ Tail)) Words.length Pre.length =
      some (Words.map (fun w => w % 2 ^ 64)) := by
  induction Words generalizing Pre with
  | nil => rfl
  | cons W Words ih =>
    simp only [List.map_cons, List.flatten_cons, List.length_cons, List.append_assoc]
    rw [readWords, readU64_append]
    have := ih (Pre ++ bytesLE 8 W)
    simp only [List.length_append, bytesLE_length, List.append_assoc] at this
    rw [this]

end Kernel

end jit

namespace jit

namespace Kernel

theorem flatten_bytesLE_length (Words : List Nat) :
    ((Words.map (bytesLE 8)).flatten).length = 8 * Words.length := by
  induction Words with
  | nil => rfl
  | cons w ws ih =>
    simp only [List.map_cons, List.flatten_cons, List.length_append, bytesLE_length, ih,
      List.length_cons]
    omega

theorem map_mod_eq_self (Words : List Nat) (h : ∀ w, w ∈ Words → w < 2 ^ 64) :
    Words.map (fun w => w % 2 ^ 64) = Words := by
  induction Words with
  | nil => rfl
  | cons w ws ih =>
    rw [List.map_cons, Nat.mod_eq_of_lt (h w (List.mem_cons_self _ _)),
      ih (fun v hv => h v (List.mem_cons_of_mem _ hv))]

theorem name_roundtrip (Name : String) :
    String.mk ((Name.data.map Char.toNat).map Char.ofNat) = Name := by
  have h : (Name.data.map Char.toNat).map Char.ofNat = Name.data := by
    rw [List.map_map]
    have : (Char.ofNat ∘ Char.toNat) = id := by
      funext c
      simp
    rw [this, List.map_id]
  rw [h]

/-- Reading back the encoding of an owned descriptor whose members fit their types and
whose name has no NUL character gives the descriptor and its size. -/
theorem materialize_encode (K K0 : Kernel) (Rest : List Nat) (hO : K.Owned) (hR : K.InRange)
    (hName : ∀ c, c ∈ K.Name.data → c.toNat ≠ 0) :
    K0.materialize (K.encode ++ Rest) = some (K, K.size) := by
  obtain ⟨hArg, hAlen, hMlen⟩ := hO
  obtain ⟨hT, hTh, hN, hAw, hMw⟩ := hR
  have hn := name_bytes_length K
  have hnb : ∀ b, b ∈ K.Name.data.map Char.toNat → b ≠ 0 := by
    intro b hb
    obtain ⟨c, hc, rfl⟩ := List.mem_map.1 hb
    exact hName c hc
  have b1 : K.encode ++ Rest = K.Name.data.map Char.toNat ++
      0 :: (bytesLE 4 K.NumTeams ++ (bytesLE 4 K.NumThreads ++ (bytesLE 4 K.NumArgs ++
        ((K.ArgumentsBuffer.map (bytesLE 8)).flatten ++
          ((K.Mask.map (bytesLE 8)).flatten ++ Rest))))) := by
    simp only [encode, List.append_assoc, List.singleton_append, List.cons_append,
      List.nil_append]
  have r1 := readCString_append (K.Name.data.map Char.toNat)
    (bytesLE 4 K.NumTeams ++ (bytesLE 4 K.NumThreads ++ (bytesLE 4 K.NumArgs ++
      ((K.ArgumentsBuffer.map (bytesLE 8)).flatten ++
        ((K.Mask.map (bytesLE 8)).flatten ++ Rest))))) hnb
  rw [← b1] at r1
  have r2 : readU32 (K.encode ++ Rest) ((K.Name.data.map Char.toNat).length + 1) =
      some K.NumTeams := by
    have := readU32_append (K.Name.data.map Char.toNat ++ [0])
      (bytesLE 4 K.NumThreads ++ (bytesLE 4 K.NumArgs ++
        ((K.ArgumentsBuffer.map (bytesLE 8)).flatten ++
          ((K.Mask.map (bytesLE 8)).flatten ++ Rest)))) K.NumTeams
    rw [Nat.mod_eq_of_lt hT] at this
    rw [← this]
    congr 1
    · simp only [encode, List.append_assoc, List.singleton_append, List.cons_append,
        List.nil_append]
    · simp
  have r3 : readU32 (K.encode ++ Rest) ((K.Name.data.map Char.toNat).length + 1 + 4) =
      some K.NumThreads := by
    have := readU32_append (K.Name.data.map Char.toNat ++ [0] ++ bytesLE 4 K.NumTeams)
      (bytesLE 4 K.NumArgs ++
        ((K.ArgumentsBuffer.map (bytesLE 8)).flatten ++
          ((K.Mask.map (bytesLE 8)).flatten ++ Rest))) K.NumThreads
    rw [Nat.mod_eq_of_lt hTh] at this
    rw [← this]
    congr 1
    · simp only [encode, List.append_assoc, List.singleton_append, List.cons_append,
        List.nil_append]
    · simp [bytesLE_length]
  have r4 : readU32 (K.encode ++ Rest) ((K.Name.data.map Char.toNat).length + 1 + 8) =
      some K.NumArgs := by
    have := readU32_append
      (K.Name.data.map Char.toNat ++ [0] ++ bytesLE 4 K.NumTeams ++ bytesLE 4 K.NumThreads)
      ((K.ArgumentsBuffer.map (bytesLE 8)).flatten ++
          ((K.Mask.map (bytesLE 8)).flatten ++ Rest)) K.NumArgs
    rw [Nat.mod_eq_of_lt hN] at this
    rw [← this]
    congr 1
    · simp only [encode, List.append_assoc, List.singleton_append, List.cons_append,
        List.nil_append]
    · simp only [List.length_append, List.length_singleton, bytesLE_length]
  have r5 : readWords (K.encode ++ Rest) K.NumArgs
      ((K.Name.data.map Char.toNat).length + 1 + 12) = some K.ArgumentsBuffer := by
    have := readWords_append K.ArgumentsBuffer
      (K.Name.data.map Char.toNat ++ [0] ++ bytesLE 4 K.NumTeams ++ bytesLE 4 K.NumThreads ++
        bytesLE 4 K.NumArgs) ((K.Mask.map (bytesLE 8)).flatten ++ Rest)
    rw [map_mod_eq_self _ hAw, hAlen] at this
    rw [← this]
    congr 1
    · simp only [encode, List.append_assoc, List.singleton_append, List.cons_append,
        List.nil_append]
    · simp only [List.length_append, List.length_singleton, bytesLE_length]
  have r6 : readWords (K.encode ++ Rest) K.NumArgs
      ((K.Name.data.map Char.toNat).length + 1 + 12 + 8 * K.NumArgs) = some K.Mask := by
    have := readWords_append K.Mask
      (K.Name.data.map Char.toNat ++ [0] ++ bytesLE 4 K.NumTeams ++ bytesLE 4 K.NumThreads ++
        bytesLE 4 K.NumArgs ++ (K.ArgumentsBuffer.map (bytesLE 8)).flatten) Rest
    rw [map_mod_eq_self _ hMw, hMlen] at this
    rw [← this]
    congr 1
    · simp only [encode, List.append_assoc, List.singleton_append, List.cons_append,
        List.nil_append]
    · simp only [List.length_append, List.length_singleton, bytesLE_length,
        flatten_bytesLE_length, hAlen]
  simp only [materialize, r1, r2, r3, r4, r5, r6, name_roundtrip, Option.some.injEq,
    Prod.mk.injEq]
  constructor
  · cases K
    simp only [Kernel.mk.injEq, true_and] at hArg ⊢
    exact hArg.symm
  · unfold size
    rw [hn]
    omega

end Kernel

end jit

namespace jit

/-- C13: for a descriptor that owns its arguments, has a mask of `NumArgs` words, members
that fit their types and a name without NUL character, `materialize` applied to the bytes
`serialize` leaves in the buffer gives back the same descriptor, with the same name,
counts, argument words and mask words, and returns `size()` as the length consumed.
`serialize` stays inside every buffer of at least `size() + 4` bytes. -/
theorem Kernel.materialize_serialize (K K0 : Kernel) (Buffer : List Nat) (hO : K.Owned)
    (hR : K.InRange) (hName : ∀ c, c ∈ K.Name.data → c.toNat ≠ 0) :
    (∀ Out, K.serialize Buffer = some Out → K0.materialize Out = some (K, K.size)) ∧
    (K.size + 4 ≤ Buffer.length → (K.serialize Buffer).isSome) := by
  constructor
  · intro Out h
    obtain ⟨Rest, hOut, _⟩ := Kernel.serialize_content K Buffer Out hO.2.1 hO.2.2 h
    rw [hOut]
    exact Kernel.materialize_encode K K0 Rest hO hR hName
  · intro h
    rw [Kernel.serialize_isSome_iff K Buffer hO.2.1 hO.2.2]
    split <;> omega

/-- C13, witness: `materializedExample`, serialized into a buffer of 30 bytes, gives
`serializedExample`, and `materialize` reads it back with a consumed length of 30. -/
theorem Kernel.materialize_serialize_witness :
    materializedExample.serialize (List.replicate 30 0) = some serializedExample ∧
      (Kernel.new "").materialize serializedExample = some (materializedExample, 30) :=
  ⟨by decide,
   (Kernel.materialize_serialize materializedExample (Kernel.new "") (List.replicate 30 0)
      ⟨rfl, rfl, rfl⟩ (by unfold Kernel.InRange; decide) (by decide)).1 serializedExample
      (by decide)⟩

/-- C14, the code at a descriptor without arguments: `size()` is 14, and `serialize`
stores the eight bytes of `NumArgs` at offset 10. In a buffer of 14 bytes the store
reaches outside the buffer; in a buffer of 18 bytes filled with `0xAA` the bytes at the
offsets 14 to 17, beyond `size()`, are overwritten with 0. -/
theorem Kernel.serialize_zero_args_overrun :
    noArgsExample.size = 14 ∧
      noArgsExample.serialize (List.replicate 14 0xAA) = none ∧
      noArgsExample.serialize (List.replicate 18 0xAA) =
        some [107, 0, 4, 0, 0, 0, 128, 0, 0, 0, 0, 0, 0, 0, 0, 0, 0, 0] := by
  decide

end jit

namespace jit

theorem Kernel.encode_length (K : Kernel) (hA : K.ArgumentsBuffer.length = K.NumArgs)
    (hM : K.Mask.length = K.NumArgs) : K.encode.length = K.size := by
  unfold Kernel.encode Kernel.size
  simp only [List.length_append, List.length_singleton, bytesLE_length,
    Kernel.flatten_bytesLE_length, Kernel.name_bytes_length, hA, hM]
  omega

/-- After `Image::serialize` the buffer starts with the encoding of the descriptor, the
image size in eight bytes, the image bytes and a terminator. -/
theorem Image.imageSerialize_content (I : Image) (Buffer Out : List Nat)
    (hA : I.K.ArgumentsBuffer.length = I.K.NumArgs) (hM : I.K.Mask.length = I.K.NumArgs)
    (h : I.serialize Buffer = some Out) :
    (∃ Rest, Out = I.K.encode ++ (bytesLE 8 I.Bytes.length ++ (I.Bytes ++ (0 :: Rest)))) ∧
      Out.length = Buffer.length ∧ I.size ≤ Buffer.length := by
  unfold Image.serialize at h
  split at h
  · simp at h
  rename_i B1 hB1
  split at h
  · simp at h
  rename_i B2 hB2
  split at h
  · simp at h
  rename_i B3 hB3
  obtain ⟨R1, e1, l1⟩ := Kernel.serialize_content I.K Buffer B1 hA hM hB1
  have l2 := writeBytes_length _ _ _ _ hB2
  have l3 := writeBytes_length _ _ _ _ hB3
  have l4 := writeBytes_length _ _ _ _ h
  have c4 := (writeBytes_isSome_iff B3 _ _).1 (by rw [h]; rfl)
  simp only [List.length_singleton] at c4
  have hel := Kernel.encode_length I.K hA hM
  rw [e1] at hB2
  obtain ⟨e2, _⟩ := writeBytes_append _ _ B2 _ _ hel.symm hB2
  rw [e2] at hB3
  obtain ⟨e3, _⟩ := writeBytes_append _ _ B3 _ _
    (by simp only [List.length_append, bytesLE_length, hel]) hB3
  rw [e3] at h
  obtain ⟨e4, _⟩ := writeBytes_append _ _ Out _ _
    (by simp only [List.length_append, bytesLE_length, hel]) h
  refine ⟨?_, by omega, ?_⟩
  · generalize List.drop [0].length _ = S at e4
    refine ⟨S, ?_⟩
    rw [e4]
    simp only [List.append_assoc, List.singleton_append]
  · unfold Image.size
    omega

theorem Image.ofBuffer_encode (I : Image) (Rest : List Nat) (hO : I.K.Owned)
    (hR : I.K.InRange) (hName : ∀ c, c ∈ I.K.Name.data → c.toNat ≠ 0)
    (hL : I.Bytes.length < 2 ^ 63) :
    Image.ofBuffer (I.K.encode ++ (bytesLE 8 I.Bytes.length ++ (I.Bytes ++ (0 :: Rest)))) =
      some I := by
  have hel := Kernel.encode_length I.K hO.2.1 hO.2.2
  have m := Kernel.materialize_encode I.K (Kernel.new "")
    (bytesLE 8 I.Bytes.length ++ (I.Bytes ++ (0 :: Rest))) hO hR hName
  have r := Kernel.readU64_append I.K.encode (I.Bytes ++ (0 :: Rest)) I.Bytes.length
  rw [hel, Nat.mod_eq_of_lt (by omega)] at r
  have hnot : ¬ (I.Bytes.length ≥ 2 ^ 63) := by omega
  have hfit : I.K.size + 8 + I.Bytes.length ≤
      (I.K.encode ++ (bytesLE 8 I.Bytes.length ++ (I.Bytes ++ (0 :: Rest)))).length := by
    simp only [List.length_append, bytesLE_length, hel, List.length_cons]
    omega
  have hbytes : ((I.K.encode ++ (bytesLE 8 I.Bytes.length ++ (I.Bytes ++ (0 :: Rest)))).drop
      (I.K.size + 8)).take I.Bytes.length = I.Bytes := by
    rw [← List.append_assoc I.K.encode,
      List.drop_left' (by simp only [List.length_append, bytesLE_length, hel])]
    exact List.take_left' rfl
  simp only [Image.ofBuffer, m, r, hnot, hfit, hbytes, if_true, if_false]

/-- C15: for an image whose descriptor owns its arguments, with members that fit their
types and a name without NUL character, and whose byte range has a length `L` below
`2 ^ 63`, the constructor `Image(const char *)` applied to the bytes `serialize` wrote
gives back the image: the same descriptor and the same `L` bytes, hence the same
`size() = K.size() + 8 + L + 1`. `serialize` stays inside the buffer exactly when the
buffer has `size()` bytes, so `size()` is the number of bytes it writes. -/
theorem Image.ofBuffer_serialize (I : Image) (Buffer : List Nat) (hO : I.K.Owned)
    (hR : I.K.InRange) (hName : ∀ c, c ∈ I.K.Name.data → c.toNat ≠ 0)
    (hL : I.Bytes.length < 2 ^ 63) :
    ((I.serialize Buffer).isSome ↔ I.size ≤ Buffer.length) ∧
    (∀ Out, I.serialize Buffer = some Out →
      Image.ofBuffer Out = some I ∧ Out.length = Buffer.length) ∧
    I.size = I.K.size + 8 + I.Bytes.length + 1 := by
  refine ⟨?_, ?_, ?_⟩
  · constructor
    · intro h
      obtain ⟨Out, hOut⟩ := Option.isSome_iff_exists.1 h
      exact (Image.imageSerialize_content I Buffer Out hO.2.1 hO.2.2 hOut).2.2
    · intro h
      unfold Image.size at h
      have hk : (I.K.serialize Buffer).isSome := by
        rw [Kernel.serialize_isSome_iff I.K Buffer hO.2.1 hO.2.2]
        split <;> omega
      obtain ⟨B1, hB1⟩ := Option.isSome_iff_exists.1 hk
      obtain ⟨_, _, l1⟩ := Kernel.serialize_content I.K Buffer B1 hO.2.1 hO.2.2 hB1
      obtain ⟨B2, hB2⟩ := Option.isSome_iff_exists.1
        ((writeBytes_isSome_iff B1 I.K.size (bytesLE 8 I.Bytes.length)).2
          (by rw [bytesLE_length]; omega))
      have l2 := writeBytes_length _ _ _ _ hB2
      obtain ⟨B3, hB3⟩ := Option.isSome_iff_exists.1
        ((writeBytes_isSome_iff B2 (I.K.size + 8) I.Bytes).2 (by omega))
      have l3 := writeBytes_length _ _ _ _ hB3
      simp only [Image.serialize, hB1, hB2, hB3]
      rw [writeBytes_isSome_iff]
      simp only [List.length_singleton]
      omega
  · intro Out h
    obtain ⟨⟨Rest, hOut⟩, hlen, _⟩ := Image.imageSerialize_content I Buffer Out hO.2.1 hO.2.2 h
    refine ⟨?_, hlen⟩
    rw [hOut]
    exact Image.ofBuffer_encode I Rest hO hR hName hL
  · unfold Image.size
    omega

/-- C15, witness: the image of `noArgsExample` with the bytes 7, 8, 9 has a size of 26;
serialized into a buffer of 26 bytes it is read back unchanged. -/
theorem Image.ofBuffer_serialize_witness :
    Image.size { K := noArgsExample, Bytes := [7, 8, 9] } = 26 ∧
      ∃ Out, Image.serialize { K := noArgsExample, Bytes := [7, 8, 9] }
          (List.replicate 26 0xAA) = some Out ∧
        Image.ofBuffer Out = some { K := noArgsExample, Bytes := [7, 8, 9] } ∧
        Out.length = (List.replicate 26 0xAA).length :=
  ⟨by decide,
   [107, 0, 4, 0, 0, 0, 128, 0, 0, 0, 0, 0, 0, 0, 3, 0, 0, 0, 0, 0, 0, 0, 7, 8, 9, 0],
   by decide,
   (Image.ofBuffer_serialize { K := noArgsExample, Bytes := [7, 8, 9] }
      (List.replicate 26 0xAA) ⟨rfl, rfl, rfl⟩ (by unfold Kernel.InRange; decide) (by decide)
      (by decide)).2.1 _ (by decide)⟩

end jit

/-! ## Read-only values and global specialization -/

namespace jit

/-- C22, the code at a global that is stored to through a `getelementptr`: for a
`getelementptr` user the loop calls `isReadOnlyValue` on each user of the `getelementptr`,
which inspects the users of that user and not the user itself. The store has no users, so
`isReadOnlyValue` returns true although a use of the global is a store. At a global that
is only read through a `getelementptr`, the loaded value being used by an arithmetic
instruction, it returns false although every use of the global is a load. -/
theorem isReadOnlyValue_store_through_gep :
    isReadOnlyValue storedThroughGEP = true ∧ everyUseIsLoad storedThroughGEP = false ∧
      isReadOnlyValue loadedThroughGEP = false ∧ everyUseIsLoad loadedThroughGEP = true := by
  decide

/-- C23, the code at host entries of 1, 2, 4 and 8 bytes: `specializeGloblaVariable`
compares the byte size with 8, 16, 32 and 64. For 1, 2 and 4 bytes no constant is built
and the global keeps its initializer; for 8 bytes the initializer becomes an `i8` constant
holding the first byte of the host object. The read-only `i32` global `counterGlobal`,
whose host object of 4 bytes holds 42, keeps the initializer 0; the `i64` global
`wideGlobal`, whose host object holds `0x1234`, gets the `i8` constant `0x34`. -/
theorem specializeGloblaVariable_size_in_bytes (GV : GlobalVariable) (b : Nat)
    (Addr : List Nat) :
    specializeGloblaVariable GV 1 Addr = some GV ∧
      specializeGloblaVariable GV 2 Addr = some GV ∧
      specializeGloblaVariable GV 4 Addr = some GV ∧
      specializeGloblaVariable GV 8 (b :: Addr) =
        some { GV with Initializer := { BitWidth := 8, Value := b } } ∧
      (specializeEntry (some counterGlobal) 4 [42, 0, 0, 0]).map
          (fun G => G.map (fun G1 => G1.Initializer)) =
        some (some { BitWidth := 32, Value := 0 }) ∧
      (specializeEntry (some wideGlobal) 8 [0x34, 0x12, 0, 0, 0, 0, 0, 0]).map
          (fun G => G.map (fun G1 => G1.Initializer)) =
        some (some { BitWidth := 8, Value := 0x34 }) := by
  refine ⟨rfl, rfl, rfl, ?_, by decide, by decide⟩
  simp [specializeGloblaVariable]

end jit

/-! ## Image cache, the cache file -/

namespace jit

/-- C24: when the cache file the constructor opens has zero bytes, the constructor
returns without an assertion or out-of-bounds read, and the cache it leaves holds no key,
no image and no buffer: it is the cache of a start without a cache file, and every `get`
on it returns no entry. -/
theorem ImageCacheTy.new_empty_file (Env : Option String) (Files : String → Option (List Nat))
    (h : Files ImageCacheTy.CacheFileName = some []) :
    ImageCacheTy.new Env Files = some ImageCacheTy.empty ∧
      ImageCacheTy.empty.Map = [] ∧ ImageCacheTy.empty.numImages = 0 ∧
      (∀ Key K, ImageCacheTy.empty.get Key K = some none) ∧
      (∀ Missing : String → Option (List Nat), Missing ImageCacheTy.CacheFileName = none →
        ImageCacheTy.new Env Missing = ImageCacheTy.new Env Files) := by
  have e : ImageCacheTy.new Env Files = some ImageCacheTy.empty := by
    simp only [ImageCacheTy.new, h, if_true]
    rfl
  refine ⟨e, rfl, rfl, fun Key K => rfl, fun Missing hM => ?_⟩
  rw [e]
  simp only [ImageCacheTy.new, hM]
  rfl

/-- C24, witness: a file system in which every file is empty. -/
theorem ImageCacheTy.new_empty_file_witness :
    ImageCacheTy.new none (fun _ => some []) = some ImageCacheTy.empty ∧
      ImageCacheTy.new none (fun _ => none) = ImageCacheTy.new none (fun _ => some []) :=
  ⟨(ImageCacheTy.new_empty_file none (fun _ => some []) rfl).1,
   (ImageCacheTy.new_empty_file none (fun _ => some []) rfl).2.2.2.2 (fun _ => none) rfl⟩

/-- C25, the code with `LIBOMPTARGET_JIT_CUDA_CACHE` set: the constructor copies the value
into `FileName` and then opens `CacheFileName`, so the variable has no effect on what is
loaded, and the destructor writes `CacheFileName` as well. With the variable set to
"/tmp/jit.cache" and a valid cache file under that name only, the cache starts empty; the
same bytes under the default name are loaded. At teardown the file written is
"libomptarget.jit.cuda.cache". -/
theorem ImageCacheTy.new_ignores_environment :
    (∀ (Env : Option String) (Files : String → Option (List Nat)),
        ImageCacheTy.new Env Files = ImageCacheTy.new none Files) ∧
      ImageCacheTy.new (some "/tmp/jit.cache") (filesAt "/tmp/jit.cache") =
        some ImageCacheTy.empty ∧
      ImageCacheTy.new (some "/tmp/jit.cache") (filesAt "libomptarget.jit.cuda.cache") =
        some cacheFileCache ∧
      cacheFileCache.delete (fun _ => true) =
        some (some ("libomptarget.jit.cuda.cache", cacheFileExample)) := by
  refine ⟨fun Env Files => rfl, by decide, by decide, by decide⟩

end jit

/-! ## Loading a JIT image -/

namespace jit

theorem Kernel.opEq_congr_argAt (A K K2 : Kernel) (h : ∀ i, K2.argAt i = K.argAt i)
    (hNum : K2.NumArgs = K.NumArgs) (hTeams : K2.NumTeams = K.NumTeams)
    (hThreads : K2.NumThreads = K.NumThreads) : A.opEq K2 = A.opEq K := by
  simp only [Kernel.opEq, Kernel.match_, hNum, hTeams, hThreads,
    Kernel.matchLoop_congr A K K2 h]

/-- The descriptor `loadJITImage` caches is matched by the cached entries exactly as the
launch request it was made from. -/
theorem loadJITImageKernel_get (D : List ActionKind) (Name : String) (Tys : List ArgTy)
    (Args : List Nat) (NumTeams ThreadLimit : Nat) (Geometry : List ActionTy) (Kc : Kernel)
    (hlen : Args.length < 2 ^ 32)
    (h : loadJITImageKernel D Name Tys Args NumTeams ThreadLimit Geometry = some Kc)
    (C : ImageCacheTy) (Key : String) :
    C.get Key Kc = C.get Key (launchRequest D Name Args NumTeams ThreadLimit) := by
  obtain ⟨_, _, _, _, _, hO, hB, hN, hT, hTh⟩ :=
    loadJITImageKernel_spec D Name Tys Args NumTeams ThreadLimit Geometry Kc hlen h
  obtain ⟨_, f2, f3, _, _⟩ := launchRequest_fields D Name Args NumTeams ThreadLimit
  rw [Nat.mod_eq_of_lt hlen] at f2
  have hc : ∀ A : Kernel, A.opEq Kc = A.opEq (launchRequest D Name Args NumTeams ThreadLimit) :=
    fun A => Kernel.opEq_congr_argAt A _ Kc
      (by
        intro i
        simp only [Kernel.argAt, hO.1, hB, f3])
      (by rw [hN, f2]) hT hTh
  unfold ImageCacheTy.get
  split
  · rfl
  · exact ImageCacheTy.imageGetLoop_congr _ _ hc _

end jit

namespace DeviceRTLTy

theorem loadJITImageTail_fail (S S1 : JITCachesTy) (Drv : JITDriverTy) (K : jit.Kernel)
    (h : loadJITImageTail S Drv K = some (S1, 0)) :
    S1 = S ∧ (Drv.loadCUmodule = false ∨ loadJITImageGlobals Drv.Entries = false ∨
      Drv.processCUmodule = 0) := by
  unfold loadJITImageTail at h
  split_ifs at h with h1 h2 h3
  · simp only [Option.some.injEq, Prod.mk.injEq, and_true] at h
    exact ⟨h.symm, Or.inl h1⟩
  · simp only [Option.some.injEq, Prod.mk.injEq, and_true] at h
    exact ⟨h.symm, Or.inr (Or.inl h2)⟩
  · simp only [Option.some.injEq, Prod.mk.injEq, and_true] at h
    exact ⟨h.symm, Or.inr (Or.inr h3)⟩
  · split at h
    · simp at h
    · simp only [Option.some.injEq, Prod.mk.injEq] at h
      exact absurd h.2 h3

theorem loadJITImageSpecialize_some (RTL : DeviceRTLTy) (D : DeviceDataTy)
    (Dis : List jit.ActionKind) (M : JITModuleTy) (Name : String) (Args : List Nat)
    (NumTeams ThreadLimit LoopTripCount : Int) (K : jit.Kernel) (MB : List Nat)
    (h : loadJITImageSpecialize RTL D Dis M Name Args NumTeams ThreadLimit LoopTripCount =
      some (some (K, MB))) :
    ∃ ArgTys Geometry, M.getFunction = some ArgTys ∧
      geometryActions RTL D Dis M.HasThreadLimitAttr M.HasNumTeamsAttr
        (jit.isSPMDMode M.ExecMode) NumTeams ThreadLimit LoopTripCount = some Geometry ∧
      jit.loadJITImageKernel Dis Name ArgTys Args (toUnsigned NumTeams)
        (toUnsigned ThreadLimit) Geometry = some K ∧
      M.optimize = true ∧ M.compileOptimized = some MB ∧
      (jit.isSPMDMode M.ExecMode = false → M.MergedExecMode ≠ none) := by
  unfold loadJITImageSpecialize at h
  split at h
  · simp at h
  split at h
  · simp at h
  rename_i ArgTys hF
  split at h
  · simp at h
  split at h
  · simp at h
  rename_i Geometry hG
  split at h
  · simp at h
  rename_i Kernel hK
  split at h
  · simp at h
  rename_i h3
  split at h
  · simp at h
  · simp at h
  rename_i NumThreads hR
  split at h
  · simp at h
  split at h
  · simp at h
  split at h
  · simp at h
  rename_i OutputBuffer hC
  simp only [Option.some.injEq, Prod.mk.injEq] at h
  obtain ⟨rfl, rfl⟩ := h
  refine ⟨ArgTys, Geometry, hF, hG, hK, by simpa using h3, hC, ?_⟩
  intro hS hMerged
  simp [registerThreads, hS, hMerged] at hR

end DeviceRTLTy

namespace DeviceRTLTy

/-- C21, as the specification states it, fails: on empty caches the module of "saxpy" is
specialized and compiled, the image is entered into the Image Cache, and then the module
load fails, or a global has another size on the device than on the host.
`loadJITImage` returns `nullptr`, and the Image Cache holds one image where it held none
before the call. -/
theorem loadJITImage_failure_counterexample :
    loadJITImage envUnset deviceExample "sm_70" [] cachesEmpty moduleExample
        jitDriverLoadFails "saxpy" [0x1000] 0 128 1000 =
      some ({ ImageCache := imageCacheSaxpy, TableCache := cachesEmpty.TableCache }, 0) ∧
    loadJITImage envUnset deviceExample "sm_70" [] cachesEmpty moduleExample
        jitDriverSizeMismatch "saxpy" [0x1000] 0 128 1000 =
      some ({ ImageCache := imageCacheSaxpy, TableCache := cachesEmpty.TableCache }, 0) ∧
    imageCacheSaxpy ≠ cachesEmpty.ImageCache ∧
    imageCacheSaxpy.numImages = 1 ∧ cachesEmpty.ImageCache.numImages = 0 := by
  decide

/-- C21, amended: on every call of `loadJITImage` that returns `nullptr` the Target Table
Cache holds exactly the entries it held before the call. The Image Cache is unchanged as
well when the call fails for a missing kernel function, a missing execution-mode symbol,
or a failure of the optimizer or the code generator, and in general when the Image Cache
held a matching image or the specialization gave up. When the Image Cache held no
matching image and the specialization produced a descriptor and compiled bytes, the call
fails at the module load, at a global or at the table, and the image compiled in this
call has been entered into the Image Cache: the cache returned is the one before the call
with that image appended under the key of the kernel, one image more. -/
theorem loadJITImage_failure_caches (RTL : DeviceRTLTy) (D : DeviceDataTy) (SM : String)
    (Dis : List jit.ActionKind) (S S1 : JITCachesTy) (M : JITModuleTy) (Drv : JITDriverTy)
    (Name : String) (Args : List Nat) (NumTeams ThreadLimit LoopTripCount : Int)
    (hlen : Args.length < 2 ^ 32)
    (h : loadJITImage RTL D SM Dis S M Drv Name Args NumTeams ThreadLimit LoopTripCount =
      some (S1, 0)) :
    S1.TableCache = S.TableCache ∧
    ((M.getFunction = none ∨ M.optimize = false ∨ M.compileOptimized = none ∨
        (jit.isSPMDMode M.ExecMode = false ∧ M.MergedExecMode = none)) →
      S1.ImageCache = S.ImageCache) ∧
    ((S.ImageCache.get (SM ++ "-" ++ Name)
          (jit.launchRequest Dis Name Args (toUnsigned NumTeams) (toUnsigned ThreadLimit)) ≠
        some none ∨
      loadJITImageSpecialize RTL D Dis M Name Args NumTeams ThreadLimit LoopTripCount =
        some none) →
      S1.ImageCache = S.ImageCache) ∧
    (∀ (Kernel : jit.Kernel) (OutputBuffer : List Nat),
      S.ImageCache.get (SM ++ "-" ++ Name)
          (jit.launchRequest Dis Name Args (toUnsigned NumTeams) (toUnsigned ThreadLimit)) =
        some none →
      loadJITImageSpecialize RTL D Dis M Name Args NumTeams ThreadLimit LoopTripCount =
        some (some (Kernel, OutputBuffer)) →
      S1.ImageCache =
          { S.ImageCache with
            NewBuffer := S.ImageCache.NewBuffer ++ [OutputBuffer],
            Map := jit.mapEmplaceBack S.ImageCache.Map (SM ++ "-" ++ Name)
              { K := Kernel, Bytes := OutputBuffer } } ∧
        S1.ImageCache.numImages = S.ImageCache.numImages + 1 ∧
        M.compileOptimized = some OutputBuffer ∧
        (Drv.loadCUmodule = false ∨ loadJITImageGlobals Drv.Entries = false ∨
          Drv.processCUmodule = 0)) := by
  unfold loadJITImage at h
  split at h
  · simp at h
  rename_i T hT
  split at h
  · rename_i hne
    simp only [Option.some.injEq, Prod.mk.injEq] at h
    exact absurd h.2 hne
  split at h
  · simp at h
  · rename_i I hI
    split at h
    · simp at h
    rename_i Kernel hM
    obtain ⟨rfl, _⟩ := loadJITImageTail_fail _ _ _ _ h
    refine ⟨rfl, fun _ => rfl, fun _ => rfl, ?_⟩
    intro K2 MB2 hg _
    rw [hI] at hg
    simp at hg
  · rename_i hMiss
    split at h
    · simp at h
    · rename_i hSpec
      simp only [Option.some.injEq, Prod.mk.injEq, and_true] at h
      subst h
      refine ⟨rfl, fun _ => rfl, fun _ => rfl, ?_⟩
      intro K2 MB2 _ hs
      rw [hSpec] at hs
      simp at hs
    · rename_i Kernel OutputBuffer hSpec
      obtain ⟨ArgTys, Geometry, hF, _, hK, hO, hC, hE⟩ :=
        loadJITImageSpecialize_some _ _ _ _ _ _ _ _ _ _ _ hSpec
      have hget := jit.loadJITImageKernel_get Dis Name ArgTys Args (toUnsigned NumTeams)
        (toUnsigned ThreadLimit) Geometry Kernel hlen hK S.ImageCache (SM ++ "-" ++ Name)
      rw [hMiss] at hget
      simp only [jit.ImageCacheTy.insert, hget, jit.Kernel.copy_eq] at h
      obtain ⟨rfl, hReason⟩ := loadJITImageTail_fail _ _ _ _ h
      refine ⟨rfl, ?_, ?_, ?_⟩
      · intro hcase
        rcases hcase with h1 | h1 | h1 | ⟨h1, h2⟩
        · rw [hF] at h1
          cases h1
        · rw [hO] at h1
          cases h1
        · rw [hC] at h1
          cases h1
        · exact absurd h2 (hE h1)
      · intro hcase
        rcases hcase with h1 | h1
        · exact absurd hMiss h1
        · rw [hSpec] at h1
          simp at h1
      · intro K2 MB2 _ hs
        rw [hSpec] at hs
        simp only [Option.some.injEq, Prod.mk.injEq] at hs
        obtain ⟨rfl, rfl⟩ := hs
        exact ⟨rfl, jit.sum_length_mapEmplaceBack _ _ _, hC, hReason⟩

/-- C21, witness: when the module has no kernel function "saxpy" the call returns
`nullptr` and leaves both caches as they were; when the module load fails on empty caches
the call returns `nullptr`, the table cache is as before and the Image Cache holds the
image compiled in the call, one image more. -/
theorem loadJITImage_failure_caches_witness :
    loadJITImage envUnset deviceExample "sm_70" [] cachesSaxpy moduleNoKernel
        jitDriverExample "saxpy" [0x2008] 0 128 1000 = some (cachesSaxpy, 0) ∧
      cachesSaxpy.TableCache = cachesSaxpy.TableCache ∧
      cachesSaxpy.ImageCache = cachesSaxpy.ImageCache ∧
      imageCacheSaxpy =
        { cachesEmpty.ImageCache with
          NewBuffer := cachesEmpty.ImageCache.NewBuffer ++ [[1, 2]],
          Map := jit.mapEmplaceBack cachesEmpty.ImageCache.Map ("sm_70" ++ "-" ++ "saxpy")
            { K := cachedSaxpy, Bytes := [1, 2] } } ∧
      imageCacheSaxpy.numImages = cachesEmpty.ImageCache.numImages + 1 :=
  ⟨by decide,
   (loadJITImage_failure_caches envUnset deviceExample "sm_70" [] cachesSaxpy cachesSaxpy
      moduleNoKernel jitDriverExample "saxpy" [0x2008] 0 128 1000 (by decide) (by decide)).1,
   (loadJITImage_failure_caches envUnset deviceExample "sm_70" [] cachesSaxpy cachesSaxpy
      moduleNoKernel jitDriverExample "saxpy" [0x2008] 0 128 1000 (by decide) (by decide)).2.1
      (Or.inl rfl),
   ((loadJITImage_failure_caches envUnset deviceExample "sm_70" [] cachesEmpty
      { ImageCache := imageCacheSaxpy, TableCache := cachesEmpty.TableCache }
      moduleExample jitDriverLoadFails "saxpy" [0x1000] 0 128 1000 (by decide)
      (by decide)).2.2.2 cachedSaxpy [1, 2] (by decide) (by decide)).1,
   ((loadJITImage_failure_caches envUnset deviceExample "sm_70" [] cachesEmpty
      { ImageCache := imageCacheSaxpy, TableCache := cachesEmpty.TableCache }
      moduleExample jitDriverLoadFails "saxpy" [0x1000] 0 128 1000 (by decide)
      (by decide)).2.2.2 cachedSaxpy [1, 2] (by decide) (by decide)).2.1⟩

end DeviceRTLTy

namespace jit

theorem Kernel.matchLoop_of_opEq (A B : Kernel) (h : A.opEq B = some true) :
    Kernel.matchLoop A B A.NumArgs 0 = some true := by
  unfold Kernel.opEq Kernel.match_ at h
  split at h
  · simp at h
  split at h
  · simp at h
  split at h
  · simp at h
  split at h
  · simp at h
  exact h

theorem probeAlignment_spec (p : Nat) :
    probeAlignment p = 0 ∨
      ∃ k, 3 ≤ k ∧ k ≤ 7 ∧ probeAlignment p = 2 ^ k ∧ p % 2 ^ k = 0 ∧
        ∀ j, k < j → j ≤ 7 → p % 2 ^ j ≠ 0 := by
  have e7 : p &&& 127 = p % 2 ^ 7 := Nat.and_pow_two_sub_one_eq_mod p 7
  have e6 : p &&& 63 = p % 2 ^ 6 := Nat.and_pow_two_sub_one_eq_mod p 6
  have e5 : p &&& 31 = p % 2 ^ 5 := Nat.and_pow_two_sub_one_eq_mod p 5
  have e4 : p &&& 15 = p % 2 ^ 4 := Nat.and_pow_two_sub_one_eq_mod p 4
  have e3 : p &&& 7 = p % 2 ^ 3 := Nat.and_pow_two_sub_one_eq_mod p 3
  have hj : ∀ j, j ≤ 7 → j = 0 ∨ j = 1 ∨ j = 2 ∨ j = 3 ∨ j = 4 ∨ j = 5 ∨ j = 6 ∨ j = 7 := by
    intro j hj
    omega
  unfold probeAlignment
  simp only [List.find?, Nat.add_one_sub_one, e7, e6, e5, e4, e3]
  by_cases h7 : p % 2 ^ 7 = 0
  · simp only [h7, decide_True]
    exact Or.inr ⟨7, by omega, by omega, rfl, h7, fun j h1 h2 => by omega⟩
  by_cases h6 : p % 2 ^ 6 = 0
  · simp only [h7, h6, decide_True, decide_False]
    refine Or.inr ⟨6, by omega, by omega, rfl, h6, fun j h1 h2 => ?_⟩
    have : j = 7 := by omega
    subst this
    exact h7
  by_cases h5 : p % 2 ^ 5 = 0
  · simp only [h7, h6, h5, decide_True, decide_False]
    refine Or.inr ⟨5, by omega, by omega, rfl, h5, fun j h1 h2 => ?_⟩
    rcases hj j h2 with r | r | r | r | r | r | r | r <;> subst r <;> omega
  by_cases h4 : p % 2 ^ 4 = 0
  · simp only [h7, h6, h5, h4, decide_True, decide_False]
    refine Or.inr ⟨4, by omega, by omega, rfl, h4, fun j h1 h2 => ?_⟩
    rcases hj j h2 with r | r | r | r | r | r | r | r <;> subst r <;> omega
  by_cases h3 : p % 2 ^ 3 = 0
  · simp only [h7, h6, h5, h4, h3, decide_True, decide_False]
    refine Or.inr ⟨3, by omega, by omega, rfl, h3, fun j h1 h2 => ?_⟩
    rcases hj j h2 with r | r | r | r | r | r | r | r <;> subst r <;> omega
  · simp only [h7, h6, h5, h4, h3, decide_False]
    exact Or.inl trivial

end jit

namespace jit

theorem argumentActions_split (D : List ActionKind) (Args : List Nat) (Tys : List ArgTy)
    (Idx : Nat) (Acts : List ActionTy) (k : Nat) (Ty : ArgTy) (X : ActionTy)
    (h : argumentActions D Args Tys Idx = some Acts) (hTy : Tys[k]? = some Ty)
    (hX : argumentAction D Args Ty (Idx + k) = some [X]) :
    ∃ Pre Post, Acts = Pre ++ X :: Post ∧
      ∀ Y, Y ∈ Post → Y.Index ≠ ((Idx + k : Nat) : Int) := by
  induction Tys generalizing Idx Acts k with
  | nil => simp at hTy
  | cons Ty0 Tys ih =>
    rw [argumentActions] at h
    split at h
    swap
    · simp at h
    rename_i A1 A2 hHere hRest
    simp only [Option.some.injEq] at h
    subst h
    cases k with
    | zero =>
      simp only [List.getElem?_cons_zero, Option.some.injEq] at hTy
      subst hTy
      rw [Nat.add_zero] at hX
      rw [hX] at hHere
      simp only [Option.some.injEq] at hHere
      subst hHere
      refine ⟨[], A2, rfl, ?_⟩
      intro Y hY hYi
      obtain ⟨k2, hk2, _⟩ := argumentActions_spec D Args Tys (Idx + 1) A2 hRest Y hY
      rw [hk2] at hYi
      omega
    | succ k =>
      simp only [List.getElem?_cons_succ] at hTy
      have hX2 : argumentAction D Args Ty (Idx + 1 + k) = some [X] := by
        rw [← hX]
        congr 1
        omega
      obtain ⟨Pre, Post, hA2, hPost⟩ := ih (Idx + 1) A2 k hRest hTy hX2
      refine ⟨A1 ++ Pre, Post, ?_, ?_⟩
      · rw [hA2, List.append_assoc]
      · intro Y hY hYi
        apply hPost Y hY
        rw [hYi]
        congr 1
        omega

/-- The mask word the descriptor `loadJITImage` caches holds for a pointer argument with
a recorded alignment. -/
theorem loadJITImageKernel_alignment_word (D : List ActionKind) (Name : String)
    (Tys : List ArgTy) (Args : List Nat) (NumTeams ThreadLimit : Nat)
    (Geometry : List ActionTy) (Kc : Kernel) (i p : Nat) (hlen : Args.length < 2 ^ 32)
    (hGeo : ∀ X, X ∈ Geometry → X.Index = -1)
    (h : loadJITImageKernel D Name Tys Args NumTeams ThreadLimit Geometry = some Kc)
    (hTy : Tys[i]? = some ArgTy.pointer)
    (hEn : isOptimizationEnabled D ActionKind.Alignment = true)
    (hp : Args[i]? = some p) (hA : probeAlignment p ≠ 0) :
    (∃ Acts, argumentActions D Args Tys 0 = some Acts ∧
      ActionTy.ofIndexValue ActionKind.Alignment i (probeAlignment p) ∈ Acts) ∧
    Kc.Mask[i]? = some (probeAlignment p - 1) := by
  obtain ⟨Acts, hActs, _, hMask, _, _, _, _, _, _⟩ :=
    loadJITImageKernel_spec D Name Tys Args NumTeams ThreadLimit Geometry Kc hlen h
  have hX : argumentAction D Args ArgTy.pointer (0 + i) =
      some [ActionTy.ofIndexValue ActionKind.Alignment i (probeAlignment p)] := by
    simp only [argumentAction, hEn, Nat.zero_add, hp]
    simp [hA]
  obtain ⟨Pre, Post, hSplit, hPost⟩ :=
    argumentActions_split D Args Tys 0 Acts i ArgTy.pointer _ hActs hTy hX
  refine ⟨⟨Acts, hActs, by rw [hSplit]; simp⟩, ?_⟩
  rw [hSplit, List.append_assoc, List.cons_append] at hMask
  have hPost2 : ∀ Y, Y ∈ Post ++ Geometry → Y.Index ≠ (i : Int) := by
    intro Y hY
    rcases List.mem_append.1 hY with h1 | h1
    · have := hPost Y h1
      simpa using this
    · have := hGeo Y h1
      omega
  obtain ⟨M0, M1, _, hStep, hi, _⟩ :=
    applyActionsToModule_last Pre (Post ++ Geometry) _ _ Kc.Mask i hPost2 hMask
  have hne : ¬ ((i : Int) = -1) := by omega
  simp only [applyAction, ActionTy.ofIndexValue, hne, if_false, not_true_eq_false] at hStep
  obtain ⟨_, _, h3, _⟩ := setMaskWord_spec _ _ _ _ hStep
  have hlt : probeAlignment p < 2 ^ 64 := by
    rcases probeAlignment_spec p with h0 | ⟨k, _, hk7, hk, _⟩
    · omega
    · rw [hk]
      exact Nat.pow_lt_pow_right (by omega) (by omega)
  have hpos : 0 < probeAlignment p := Nat.pos_of_ne_zero hA
  have e : (probeAlignment p + 2 ^ 64 - 1) % 2 ^ 64 = probeAlignment p - 1 := by omega
  simp only [Int.toNat_ofNat] at h3
  rw [hi, h3, e]

end jit

namespace jit

/-- C28: when `loadJITImage` records an Alignment action for the pointer argument `i`,
its value `A` is the largest of 128, 64, 32, 16, 8 that divides the pointer `p` of the
call, and the cached descriptor holds `p` and the mask word `A - 1` at `i`. Every
descriptor that matches the cached one passes a multiple of `A` at argument `i`.
Conversely a multiple of `A` agrees with `p` on the mask word, so the comparison of
argument `i` succeeds, and a request of the same kernel, team count and thread limit
that passes a multiple of `A` at `i` and the cached words elsewhere matches. -/
theorem loadJITImageKernel_alignment_sound (D : List ActionKind) (Name : String)
    (Tys : List ArgTy) (Args : List Nat) (NumTeams ThreadLimit : Nat)
    (Geometry : List ActionTy) (Kc : Kernel) (i p : Nat) (hlen : Args.length < 2 ^ 32)
    (hGeo : ∀ X, X ∈ Geometry → X.Index = -1)
    (h : loadJITImageKernel D Name Tys Args NumTeams ThreadLimit Geometry = some Kc)
    (hTy : Tys[i]? = some ArgTy.pointer)
    (hEn : isOptimizationEnabled D ActionKind.Alignment = true)
    (hp : Args[i]? = some p) (hA : probeAlignment p ≠ 0) :
    (∃ Acts, argumentActions D Args Tys 0 = some Acts ∧
      ActionTy.ofIndexValue ActionKind.Alignment i (probeAlignment p) ∈ Acts) ∧
    (probeAlignment p ∈ [128, 64, 32, 16, 8] ∧ p % probeAlignment p = 0 ∧
      ∀ A, A ∈ [128, 64, 32, 16, 8] → p % A = 0 → A ≤ probeAlignment p) ∧
    (Kc.argAt i = some p ∧ Kc.Mask[i]? = some (probeAlignment p - 1)) ∧
    (∀ (Q : Kernel) (q : Nat), Kc.opEq Q = some true → Q.argAt i = some q →
      q % probeAlignment p = 0) ∧
    (∀ q : Nat, q % probeAlignment p = 0 →
      p &&& (probeAlignment p - 1) = q &&& (probeAlignment p - 1)) ∧
    (∀ (Args2 : List Nat) (q : Nat), Args2.length = Args.length →
      (∀ j : Nat, j ≠ i → Args2[j]? = Args[j]?) → Args2[i]? = some q →
      q % probeAlignment p = 0 →
      Kc.opEq (launchRequest D Name Args2 NumTeams ThreadLimit) = some true) := by
  obtain ⟨hAct, hWord⟩ := loadJITImageKernel_alignment_word D Name Tys Args NumTeams
    ThreadLimit Geometry Kc i p hlen hGeo h hTy hEn hp hA
  obtain ⟨_, _, _, _, _, hO, hB, hN, hT, hTh⟩ :=
    loadJITImageKernel_spec D Name Tys Args NumTeams ThreadLimit Geometry Kc hlen h
  have hArg : Kc.argAt i = some p := by
    simp only [Kernel.argAt, hO.1, hB, hp]
  have hi : i < Args.length := by
    by_contra hc
    rw [List.getElem?_eq_none (by omega)] at hp
    simp at hp
  rcases probeAlignment_spec p with h0 | ⟨k, hk3, hk7, hk, hmod, hlarge⟩
  · exact absurd h0 hA
  have hAgree : ∀ q : Nat, p &&& (probeAlignment p - 1) = q &&& (probeAlignment p - 1) ↔
      q % probeAlignment p = 0 := by
    intro q
    rw [hk, Nat.and_pow_two_sub_one_eq_mod, Nat.and_pow_two_sub_one_eq_mod, hmod]
    exact eq_comm
  refine ⟨hAct, ⟨?_, ?_, ?_⟩, ⟨hArg, hWord⟩, ?_, ?_, ?_⟩
  · rw [hk]
    have : k = 3 ∨ k = 4 ∨ k = 5 ∨ k = 6 ∨ k = 7 := by omega
    rcases this with r | r | r | r | r <;> subst r <;> simp
  · rw [hk]
    exact hmod
  · intro A hAm hAp
    have hj : ∃ j, 3 ≤ j ∧ j ≤ 7 ∧ A = 2 ^ j := by
      simp only [List.mem_cons, List.mem_singleton, List.not_mem_nil, or_false] at hAm
      rcases hAm with r | r | r | r | r
      · exact ⟨7, by omega, by omega, r⟩
      · exact ⟨6, by omega, by omega, r⟩
      · exact ⟨5, by omega, by omega, r⟩
      · exact ⟨4, by omega, by omega, r⟩
      · exact ⟨3, by omega, by omega, r⟩
    obtain ⟨j, _, hj7, rfl⟩ := hj
    rw [hk]
    by_cases hjk : k < j
    · exact absurd hAp (hlarge j hjk hj7)
    · exact Nat.pow_le_pow_right (by omega) (by omega)
  · intro Q q hQ hq
    have hLoop := Kernel.matchLoop_of_opEq Kc Q hQ
    rw [Kernel.matchLoop_eq_true_iff] at hLoop
    obtain ⟨a, m, b, ha, hm, hb, hab⟩ := hLoop i (by rw [hN]; exact hi)
    rw [Nat.zero_add] at ha hm hb
    rw [hArg] at ha
    rw [hWord] at hm
    rw [hq] at hb
    cases ha
    cases hm
    cases hb
    exact (hAgree q).1 hab
  · intro q hq
    exact (hAgree q).2 hq
  · intro Args2 q hlen2 hSame hq hqA
    rw [opEq_launchRequest_iff D Name Args Args2 NumTeams ThreadLimit Kc hlen hlen2 hO hB hN
      hT hTh]
    intro j a b m ha hb hm
    by_cases hji : j = i
    · subst hji
      rw [hp] at ha
      rw [hq] at hb
      rw [hWord] at hm
      cases ha
      cases hb
      cases hm
      exact (hAgree _).2 hqA
    · rw [hSame j hji, ha] at hb
      cases hb
      rfl

/-- C28, witness: for the pointer `0x1000` the recorded alignment is 128 and the cached
descriptor is `alignedExample`; the request with the pointer `0x2000` matches it, and
`0x2000` is a multiple of 128. -/
theorem loadJITImageKernel_alignment_sound_witness :
    probeAlignment 0x1000 = 128 ∧
      alignedExample.opEq (launchRequest [] "saxpy" [0x2000] 4 128) = some true ∧
      0x2000 % probeAlignment 0x1000 = 0 :=
  ⟨by decide, by decide,
   (loadJITImageKernel_alignment_sound [] "saxpy" [ArgTy.pointer] [0x1000] 4 128 []
      alignedExample 0 0x1000 (by decide) (by intro X hX; simp at hX) (by decide) rfl
      (by decide) rfl (by decide)).2.2.2.1
      (launchRequest [] "saxpy" [0x2000] 4 128) 0x2000 (by decide) rfl⟩

end jit

namespace DeviceRTLTy

/-- The `NumThreads` and `NumTeams` actions address the kernel entry, not an argument. -/
theorem geometryActions_index (RTL : DeviceRTLTy) (D : DeviceDataTy)
    (Dis : List jit.ActionKind) (HasThreadLimitAttr HasNumTeamsAttr IsSPMDMode : Bool)
    (NumTeams ThreadLimit LoopTripCount : Int) (Geometry : List jit.ActionTy)
    (h : geometryActions RTL D Dis HasThreadLimitAttr HasNumTeamsAttr IsSPMDMode NumTeams
      ThreadLimit LoopTripCount = some Geometry) :
    ∀ X, X ∈ Geometry → X.Index = -1 := by
  unfold geometryActions at h
  simp only at h
  intro X hX
  split at h
  · split at h
    · simp at h
    · split at h <;> simp only [Option.some.injEq] at h <;> subst h
      · rcases List.mem_append.1 hX with h1 | h1
        · split at h1
          · simp only [List.mem_singleton] at h1
            subst h1
            rfl
          · simp at h1
        · simp only [List.mem_singleton] at h1
          subst h1
          rfl
      · split at hX
        · simp only [List.mem_singleton] at hX
          subst hX
          rfl
        · simp at hX
  · simp only [Option.some.injEq] at h
    subst h
    split at hX
    · simp only [List.mem_singleton] at hX
      subst hX
      rfl
    · simp at hX

/-- C26, the code at two launches of the SPMD kernel "saxpy" on one device that differ in
the loop trip count only, 1000 and 100000, with no team count requested and a thread
limit of 128. The first launch bakes 128 threads and 8 teams into the module and caches
the result. The descriptor of the second launch is the same and matches the cached entry,
so `loadJITImage` returns the cached table without specializing; on its own the second
launch would have baked 782 teams, the grid size `runTargetTeamRegion` then launches. -/
theorem loadJITImage_trip_count_not_in_key :
    geometryActions envUnset deviceExample [] false false
        (jit.isSPMDMode moduleExample.ExecMode) 0 128 1000 =
      some [jit.ActionTy.ofValue jit.ActionKind.NumThreads 128,
            jit.ActionTy.ofValue jit.ActionKind.NumTeams 8] ∧
    geometryActions envUnset deviceExample [] false false
        (jit.isSPMDMode moduleExample.ExecMode) 0 128 100000 =
      some [jit.ActionTy.ofValue jit.ActionKind.NumThreads 128,
            jit.ActionTy.ofValue jit.ActionKind.NumTeams 782] ∧
    loadJITImage envUnset deviceExample "sm_70" [] cachesEmpty moduleExample jitDriverExample
        "saxpy" [0x1000] 0 128 1000 = some (cachesSaxpy, 4096) ∧
    cachedSaxpy.opEq
        (jit.launchRequest [] "saxpy" [0x1000] (toUnsigned 0) (toUnsigned 128)) = some true ∧
    loadJITImage envUnset deviceExample "sm_70" [] cachesSaxpy moduleExample jitDriverExample
        "saxpy" [0x1000] 0 128 100000 = some (cachesSaxpy, 4096) ∧
    runTargetTeamRegion envUnset deviceExample driverExample
        (some { ExecutionMode := OMP_TGT_EXEC_MODE_SPMD, MaxThreadsPerBlock := 0 })
        0 128 100000 =
      Outcome.ok { CudaBlocksPerGrid := 782, CudaThreadsPerBlock := 128 } := by
  decide

/-- C29, the code at a scalar argument: the launch of "saxpy" with the scalar 5 bakes 5
into the image and leaves 5 as the mask word, so only the bits set in 5 are compared. A
later launch with the scalar 7 matches the cached entry in the Target Table Cache as in
the Image Cache, and `loadJITImage` returns the table of the image specialized for 5. -/
theorem loadJITImage_specialized_value_reused :
    loadJITImage envUnset deviceExample "sm_70" [] cachesEmpty moduleScalar jitDriverExample
        "saxpy" [5] 4 128 0 = some (cachesScalar, 4096) ∧
    cachedScalar.ArgumentsBuffer = [5] ∧ cachedScalar.Mask = [5] ∧
    cachesScalar.TableCache.get (jit.launchRequest [] "saxpy" [7] 4 128) = some 4096 ∧
    cachesScalar.ImageCache.get "sm_70-saxpy" (jit.launchRequest [] "saxpy" [7] 4 128) =
      some (some { K := cachedScalar, Bytes := [1, 2] }) ∧
    loadJITImage envUnset deviceExample "sm_70" [] cachesScalar moduleScalar jitDriverExample
        "saxpy" [7] 4 128 0 = some (cachesScalar, 4096) := by
  decide

/-- C30, the code at a kernel in Generic-transformed-to-SPMD mode, launched with no team
count requested, a thread limit of 128 and a trip count of 1000: `loadJITImage` takes the
SPMD branch and bakes `(1000 - 1) / 128 + 1 = 8` teams, `runTargetTeamRegion` launches a
grid of 1000 blocks. At an SPMD kernel with a thread limit of 1024 and a kernel limit of
512 threads, `loadJITImage` bakes 1024 threads and 1 team, `runTargetTeamRegion` launches
2 blocks of 512 threads. -/
theorem loadJITImage_geometry_differs :
    geometryActions envUnset deviceExample [] false false
        (jit.isSPMDMode moduleGenericSPMD.ExecMode) 0 128 (jit.toInt32 1000) =
      some [jit.ActionTy.ofValue jit.ActionKind.NumThreads 128,
            jit.ActionTy.ofValue jit.ActionKind.NumTeams 8] ∧
    runTargetTeamRegion envUnset deviceExample driverExample
        (some { ExecutionMode := OMP_TGT_EXEC_MODE_GENERIC_SPMD, MaxThreadsPerBlock := 0 })
        0 128 1000 =
      Outcome.ok { CudaBlocksPerGrid := 1000, CudaThreadsPerBlock := 128 } ∧
    geometryActions envUnset deviceExample [] false false
        (jit.isSPMDMode moduleExample.ExecMode) 0 1024 (jit.toInt32 1000) =
      some [jit.ActionTy.ofValue jit.ActionKind.NumThreads 1024,
            jit.ActionTy.ofValue jit.ActionKind.NumTeams 1] ∧
    runTargetTeamRegion envUnset deviceExample driverExample
        (some { ExecutionMode := OMP_TGT_EXEC_MODE_SPMD, MaxThreadsPerBlock := 0 })
        0 1024 1000 =
      Outcome.ok { CudaBlocksPerGrid := 2, CudaThreadsPerBlock := 512 } := by
  decide

end DeviceRTLTy

/-! ## Resource pool, handles in use -/

namespace ResourcePoolTy

/-- The loop of `resize` appends the handles of the next calls of the allocator. -/
theorem resizeLoop_append (Allocator : Nat → Option Nat)
    (hinj : ∀ i j h, Allocator i = some h → Allocator j = some h → i = j)
    (n : Nat) (P : ResourcePoolTy) :
    ∃ New, (resizeLoop Allocator n P).2.Resources = P.Resources ++ New ∧
      (resizeLoop Allocator n P).2.Next = P.Next ∧
      P.Created ≤ (resizeLoop Allocator n P).2.Created ∧
      (∀ R, R ∈ New → ∃ k, P.Created ≤ k ∧ k < (resizeLoop Allocator n P).2.Created ∧
        Allocator k = some R) ∧
      New.Nodup ∧ ((resizeLoop Allocator n P).1 = true → New.length = n) := by
  induction n generalizing P with
  | zero =>
    refine ⟨[], by simp [resizeLoop], rfl, Nat.le_refl _, ?_, List.nodup_nil, fun _ => rfl⟩
    intro R hR
    simp at hR
  | succ n ih =>
    unfold resizeLoop
    cases hA : Allocator P.Created with
    | none =>
      refine ⟨[], by simp, rfl, by simp, ?_, List.nodup_nil, by simp⟩
      intro R hR
      simp at hR
    | some NewItem =>
      simp only
      obtain ⟨New, h1, h2, h3, h4, h5, h6⟩ :=
        ih { P with Resources := P.Resources ++ [NewItem], Created := P.Created + 1 }
      simp only at h1 h2 h3 h4
      refine ⟨NewItem :: New, ?_, h2, by omega, ?_, ?_, ?_⟩
      · rw [h1, List.append_assoc, List.singleton_append]
      · intro R hR
        rcases List.mem_cons.1 hR with r | r
        · subst r
          exact ⟨P.Created, Nat.le_refl _, by omega, hA⟩
        · obtain ⟨k, hk1, hk2, hk3⟩ := h4 R r
          exact ⟨k, by omega, hk2, hk3⟩
      · refine List.nodup_cons.2 ⟨?_, h5⟩
        intro hmem
        obtain ⟨k, hk1, _, hk3⟩ := h4 NewItem hmem
        have := hinj _ _ _ hA hk3
        omega
      · intro hok
        simp only [List.length_cons, h6 hok]

end ResourcePoolTy

namespace ResourcePoolTy

/-- Handing out the handle at the cursor keeps the handles distinct, and the handle is
not one a caller holds. -/
theorem handlesDistinct_take (Allocator : Nat → Option Nat) (P : ResourcePoolTy)
    (Held : List Nat) (R : Nat)
    (hI : HandlesDistinct Allocator { Pool := P, Held := Held })
    (hR : P.Resources[P.Next]? = some R) :
    HandlesDistinct Allocator { Pool := { P with Next := P.Next + 1 }, Held := R :: Held } ∧
      R ∉ Held := by
  obtain ⟨h1, h2, h3, h4⟩ := hI
  simp only at h1 h2 h3 h4
  have hlt : P.Next < P.Resources.length := by
    by_contra hc
    rw [List.getElem?_eq_none (by omega)] at hR
    simp at hR
  have hdrop : P.Resources.drop P.Next = R :: P.Resources.drop (P.Next + 1) := by
    rw [List.drop_eq_getElem_cons hlt]
    rw [List.getElem?_eq_getElem hlt] at hR
    simp only [Option.some.injEq] at hR
    rw [hR]
  rw [hdrop] at h3 h4
  have hperm : List.Perm (P.Resources.drop (P.Next + 1) ++ R :: Held)
      (R :: P.Resources.drop (P.Next + 1) ++ Held) := List.perm_middle
  refine ⟨⟨?_, ?_, ?_, ?_⟩, ?_⟩
  · simp only
    omega
  · simp only [List.length_cons, h2]
  · simp only
    exact hperm.nodup_iff.2 h3
  · intro R2 hR2 k hk
    simp only at hR2 hk
    exact h4 R2 (hperm.mem_iff.1 hR2) k hk
  · intro hmem
    simp only [List.cons_append, List.nodup_cons, List.mem_append] at h3
    exact h3.1 (Or.inr hmem)

/-- Growing a full buffer keeps the handles distinct. -/
theorem handlesDistinct_resizeLoop (Allocator : Nat → Option Nat)
    (hinj : ∀ i j h, Allocator i = some h → Allocator j = some h → i = j)
    (n : Nat) (P : ResourcePoolTy) (Held : List Nat)
    (hI : HandlesDistinct Allocator { Pool := P, Held := Held })
    (hfull : P.Next = P.Resources.length) :
    HandlesDistinct Allocator { Pool := (resizeLoop Allocator n P).2, Held := Held } := by
  obtain ⟨h1, h2, h3, h4⟩ := hI
  simp only at h1 h2 h3 h4
  rw [hfull, List.drop_length, List.nil_append] at h3 h4
  obtain ⟨New, g1, g2, g3, g4, g5, _⟩ := resizeLoop_append Allocator hinj n P
  have hdrop : (resizeLoop Allocator n P).2.Resources.drop (resizeLoop Allocator n P).2.Next =
      New := by
    rw [g1, g2]
    exact List.drop_left' hfull.symm
  refine ⟨?_, ?_, ?_, ?_⟩
  · simp only
    rw [g1, g2, List.length_append]
    omega
  · simp only
    rw [g2]
    exact h2
  · simp only
    rw [hdrop]
    refine List.nodup_append.2 ⟨g5, h3, ?_⟩
    intro R hN hH
    obtain ⟨k, hk1, _, hk3⟩ := g4 R hN
    exact h4 R hH k hk1 hk3
  · intro R hR k hk
    simp only at hR hk
    rw [hdrop] at hR
    rcases List.mem_append.1 hR with r | r
    · obtain ⟨k2, _, hk2, hk3⟩ := g4 R r
      intro hAk
      have := hinj _ _ _ hAk hk3
      omega
    · exact h4 R r k (by omega)

end ResourcePoolTy

namespace ResourcePoolTy

/-- A call of `acquire` keeps the handles distinct and never returns a held handle. -/
theorem handlesDistinct_acquire (Allocator : Nat → Option Nat)
    (hinj : ∀ i j h, Allocator i = some h → Allocator j = some h → i = j)
    (S : PoolTrace) (hI : HandlesDistinct Allocator S) :
    ∃ S1, stepOp Allocator S PoolOp.acquire = some S1 ∧ HandlesDistinct Allocator S1 ∧
      (acquire Allocator S.Pool).2 ≠ Outcome.undefined ∧
      ∀ R, (acquire Allocator S.Pool).2 = Outcome.ok R → R ∉ S.Held := by
  obtain ⟨P, Held⟩ := S
  have hCur : P.Next ≤ P.Resources.length := hI.1
  by_cases hfull : P.Next = P.Resources.length
  · have hgt : (if P.Resources.length ≠ 0 then P.Resources.length * 2 else 1) >
        P.Resources.length := by
      split_ifs <;> omega
    have hGrow := handlesDistinct_resizeLoop Allocator hinj
      ((if P.Resources.length ≠ 0 then P.Resources.length * 2 else 1) - P.Resources.length)
      P Held hI hfull
    obtain ⟨g1, _, g3⟩ := resizeLoop_next_length Allocator
      ((if P.Resources.length ≠ 0 then P.Resources.length * 2 else 1) - P.Resources.length) P
    generalize hres : resizeLoop Allocator
      ((if P.Resources.length ≠ 0 then P.Resources.length * 2 else 1) - P.Resources.length)
      P = res at hGrow g1 g3
    obtain ⟨ok, P1⟩ := res
    simp only at hGrow g1 g3
    cases ok with
    | false =>
      refine ⟨{ Pool := P1, Held := Held }, ?_, hGrow, ?_, ?_⟩
      · simp only [stepOp, acquire, hfull, if_true, resize, hgt, hres]
      · simp only [acquire, hfull, if_true, resize, hgt, hres]
        simp
      · intro R hR
        simp only [acquire, hfull, if_true, resize, hgt, hres] at hR
        simp at hR
    | true =>
      have glen := g3 rfl
      have hlt : P1.Next < P1.Resources.length := by omega
      obtain ⟨R, hR⟩ : ∃ R, P1.Resources[P1.Next]? = some R :=
        ⟨P1.Resources[P1.Next], List.getElem?_eq_getElem hlt⟩
      obtain ⟨hTake, hNot⟩ := handlesDistinct_take Allocator P1 Held R hGrow hR
      refine ⟨{ Pool := { P1 with Next := P1.Next + 1 }, Held := R :: Held }, ?_, hTake, ?_, ?_⟩
      · simp only [stepOp, acquire, hfull, if_true, resize, hgt, hres, hR]
      · simp only [acquire, hfull, if_true, resize, hgt, hres, hR]
        simp
      · intro R2 hR2
        simp only [acquire, hfull, if_true, resize, hgt, hres, hR, Outcome.ok.injEq] at hR2
        subst hR2
        exact hNot
  · have hlt : P.Next < P.Resources.length := by omega
    obtain ⟨R, hR⟩ : ∃ R, P.Resources[P.Next]? = some R :=
      ⟨P.Resources[P.Next], List.getElem?_eq_getElem hlt⟩
    obtain ⟨hTake, hNot⟩ := handlesDistinct_take Allocator P Held R hI hR
    refine ⟨{ Pool := { P with Next := P.Next + 1 }, Held := R :: Held }, ?_, hTake, ?_, ?_⟩
    · simp only [stepOp, acquire, hfull, if_false, hR]
    · simp only [acquire, hfull, if_false, hR]
      simp
    · intro R2 hR2
      simp only [acquire, hfull, if_false, hR, Outcome.ok.injEq] at hR2
      subst hR2
      exact hNot

/-- A call of `release` with a held handle is defined and keeps the handles distinct. -/
theorem handlesDistinct_release (Allocator : Nat → Option Nat) (S : PoolTrace) (R : Nat)
    (hI : HandlesDistinct Allocator S) (hR : R ∈ S.Held) :
    ∃ S1, stepOp Allocator S (PoolOp.release R) = some S1 ∧ HandlesDistinct Allocator S1 := by
  obtain ⟨P, Held⟩ := S
  obtain ⟨h1, h2, h3, h4⟩ := hI
  simp only at h1 h2 h3 h4 hR
  have hpos : 0 < P.Next := by
    rw [← h2]
    exact List.length_pos_of_mem hR
  have hcond : 0 < P.Next ∧ P.Next - 1 < P.Resources.length := ⟨hpos, by omega⟩
  have hdrop : (P.Resources.set (P.Next - 1) R).drop (P.Next - 1) =
      R :: P.Resources.drop P.Next := by
    rw [List.drop_set, if_neg (by omega), Nat.sub_self, List.drop_eq_getElem_cons hcond.2,
      List.set_cons_zero]
    congr 2
    omega
  have hperm : List.Perm (R :: P.Resources.drop P.Next ++ Held.erase R)
      (P.Resources.drop P.Next ++ Held) := by
    refine List.Perm.trans ?_ (List.Perm.append_left _ (List.perm_cons_erase hR).symm)
    exact List.perm_middle.symm
  refine ⟨{ Pool := { P with Next := P.Next - 1,
                             Resources := P.Resources.set (P.Next - 1) R },
            Held := Held.erase R }, ?_, ?_, ?_, ?_, ?_⟩
  · simp only [stepOp, release, hcond, and_self, if_true]
  · simp only [List.length_set]
    omega
  · simp only
    rw [List.length_erase_of_mem hR, h2]
  · simp only
    rw [hdrop]
    exact hperm.nodup_iff.2 h3
  · intro R2 hR2 k hk
    simp only at hR2 hk
    rw [hdrop] at hR2
    exact h4 R2 (hperm.mem_iff.1 hR2) k hk

/-- A sequence of calls in which every `release` gives back a held handle runs through
and keeps the handles distinct. -/
theorem handlesDistinct_runOps (Allocator : Nat → Option Nat)
    (hinj : ∀ i j h, Allocator i = some h → Allocator j = some h → i = j)
    (Pre Post : List PoolOp) (S : PoolTrace) (hI : HandlesDistinct Allocator S)
    (hOps : releasesHeld Allocator (Pre ++ Post) S = true) :
    ∃ S1, runOps Allocator Pre S = some S1 ∧ HandlesDistinct Allocator S1 := by
  induction Pre generalizing S with
  | nil => exact ⟨S, rfl, hI⟩
  | cons Op Pre ih =>
    rw [List.cons_append] at hOps
    unfold releasesHeld at hOps
    rw [Bool.and_eq_true] at hOps
    obtain ⟨hHere, hRest⟩ := hOps
    have hStep : ∃ S1, stepOp Allocator S Op = some S1 ∧ HandlesDistinct Allocator S1 := by
      cases Op with
      | acquire =>
        obtain ⟨S1, h1, h2, _⟩ := handlesDistinct_acquire Allocator hinj S hI
        exact ⟨S1, h1, h2⟩
      | release R =>
        simp only [decide_eq_true_eq] at hHere
        exact handlesDistinct_release Allocator S R hI hHere
    obtain ⟨S1, hS1, hI1⟩ := hStep
    rw [hS1] at hRest
    simp only at hRest
    obtain ⟨S2, hS2, hI2⟩ := ih S1 hI1 hRest
    exact ⟨S2, by simp only [runOps, hS1, hS2], hI2⟩

end ResourcePoolTy

namespace ResourcePoolTy

/-- C27, the code at the calls acquire, acquire, release of the first handle, acquire on
an empty pool, in which the release gives back a held handle: `release` stores the handle
1000 in slot `Next - 1` and leaves its stale copy in slot 0, and the last `acquire` moves
the cursor over it. The buffer is `[1000, 1000]` with the cursor at 2, the handles 1000
and 1001 being held: both copies of 1000 lie left of `Next`, not on its two sides.
`clear` then passes 1000 to `Allocator.destroy` twice and 1001 never. -/
theorem release_duplicates_left_of_next :
    (ResourcePoolTy.new allocatorExample 0).Resources.Nodup ∧
    releasesHeld allocatorExample opsExample
        { Pool := ResourcePoolTy.new allocatorExample 0, Held := [] } = true ∧
    runOps allocatorExample opsExample
        { Pool := ResourcePoolTy.new allocatorExample 0, Held := [] } =
      some { Pool := { Next := 2, Resources := [1000, 1000], Created := 2 },
             Held := [1000, 1001] } ∧
    ([1000, 1000] : List Nat)[0]? = ([1000, 1000] : List Nat)[1]? ∧ 0 < 2 ∧ 1 < 2 ∧
    (clear { Next := 2, Resources := [1000, 1000], Created := 2 }).2 = [1000, 1000] ∧
    1001 ∉ (clear { Next := 2, Resources := [1000, 1000], Created := 2 }).2 := by
  decide

/-- What holds of the handles in use: start from a pool whose buffer holds pairwise
distinct handles, the handles of `[0, Next)` being held, over an allocator that never
returns a handle twice nor one of the buffer. After every sequence of `acquire` and `release` calls in which
each `release` gives back a handle that is held at that moment, every call having a
defined result, the available region `[Next, size)` holds no duplicate and no held handle,
and the next `acquire` does not return a held handle. Of two equal entries of the buffer
the one with the smaller index lies left of `Next`: duplicates never lie both in the
available region, they may lie both in `[0, Next)`. -/
theorem available_region_distinct (Allocator : Nat → Option Nat)
    (hinj : ∀ i j h, Allocator i = some h → Allocator j = some h → i = j)
    (P : ResourcePoolTy) (hI : P.CursorInv) (hD : P.Resources.Nodup)
    (hF : ∀ R, R ∈ P.Resources → ∀ k, P.Created ≤ k → Allocator k ≠ some R)
    (Pre Post : List PoolOp)
    (hOps : releasesHeld Allocator (Pre ++ Post)
      { Pool := P, Held := P.Resources.take P.Next } = true) :
    ∃ S, runOps Allocator Pre { Pool := P, Held := P.Resources.take P.Next } = some S ∧
      (S.Pool.Resources.drop S.Pool.Next).Nodup ∧
      (∀ R, R ∈ S.Pool.Resources.drop S.Pool.Next → R ∉ S.Held) ∧
      (acquire Allocator S.Pool).2 ≠ Outcome.undefined ∧
      (∀ R, (acquire Allocator S.Pool).2 = Outcome.ok R → R ∉ S.Held) ∧
      (∀ i j : Nat, i < j → j < S.Pool.Resources.length →
        S.Pool.Resources[i]? = S.Pool.Resources[j]? → i < S.Pool.Next) := by
  unfold CursorInv at hI
  have hperm : List.Perm (P.Resources.drop P.Next ++ P.Resources.take P.Next) P.Resources := by
    have hc : List.Perm (P.Resources.drop P.Next ++ P.Resources.take P.Next)
        (P.Resources.take P.Next ++ P.Resources.drop P.Next) := List.perm_append_comm
    rwa [List.take_append_drop] at hc
  have hStart : HandlesDistinct Allocator { Pool := P, Held := P.Resources.take P.Next } := by
    refine ⟨hI, ?_, hperm.nodup_iff.2 hD, ?_⟩
    · simp only [List.length_take]
      omega
    · intro R hR k hk
      exact hF R (hperm.mem_iff.1 hR) k hk
  obtain ⟨S, hRun, hS⟩ := handlesDistinct_runOps Allocator hinj Pre Post _ hStart hOps
  obtain ⟨_, _, _, hAcq1, hAcq2⟩ := handlesDistinct_acquire Allocator hinj S hS
  obtain ⟨_, _, h3, _⟩ := hS
  have hAvail : (S.Pool.Resources.drop S.Pool.Next).Nodup := (List.nodup_append.1 h3).1
  refine ⟨S, hRun, hAvail, ?_, hAcq1, hAcq2, ?_⟩
  · intro R hR hH
    exact (List.nodup_append.1 h3).2.2 hR hH
  · intro i j hij hj heq
    by_contra hc
    rw [List.nodup_iff_getElem?_ne_getElem?] at hAvail
    apply hAvail (i - S.Pool.Next) (j - S.Pool.Next) (by omega)
      (by rw [List.length_drop]; omega)
    rw [List.getElem?_drop, List.getElem?_drop]
    have e1 : S.Pool.Next + (i - S.Pool.Next) = i := by omega
    have e2 : S.Pool.Next + (j - S.Pool.Next) = j := by omega
    rw [e1, e2]
    exact heq

/-- An instance: on an empty pool over `allocatorExample` the calls acquire, acquire,
release of 1000, acquire run through; afterwards the available region is empty and the
next `acquire` returns a handle that is not held. -/
theorem available_region_distinct_witness :
    ∃ S, runOps allocatorExample opsExample
        { Pool := ResourcePoolTy.new allocatorExample 0,
          Held := (ResourcePoolTy.new allocatorExample 0).Resources.take
            (ResourcePoolTy.new allocatorExample 0).Next } = some S ∧
      (S.Pool.Resources.drop S.Pool.Next).Nodup ∧
      (∀ R, R ∈ S.Pool.Resources.drop S.Pool.Next → R ∉ S.Held) ∧
      (acquire allocatorExample S.Pool).2 ≠ Outcome.undefined ∧
      (∀ R, (acquire allocatorExample S.Pool).2 = Outcome.ok R → R ∉ S.Held) ∧
      (∀ i j : Nat, i < j → j < S.Pool.Resources.length →
        S.Pool.Resources[i]? = S.Pool.Resources[j]? → i < S.Pool.Next) :=
  available_region_distinct allocatorExample
    (by
      intro i j h hi hj
      simp only [allocatorExample, Option.some.injEq] at hi hj
      omega)
    (ResourcePoolTy.new allocatorExample 0) (by unfold CursorInv; decide) (by decide)
    (by
      intro R hR
      simp [ResourcePoolTy.new] at hR)
    opsExample [] (by decide)

end ResourcePoolTy

/-! ## Specialized scalars in matching -/

namespace jit

end jit
